import Mathlib

/-!
# lochness: coordination layer

A shallow embedding of the entity persistence protocol (`Refresh` / `Save` of
`Guest`, `Hypervisor`, `Network`, and the get-by-ID calls of `Context`), of guest
placement (`Hypervisor.AddGuest`), of the work-queue client (`jobqueue.Client`),
of the heartbeat (`Hypervisor.Heartbeat` and the call of cmd/heartbeat) and of
the lease lock (`lock.Acquire`, `Lock.Release`), together with the properties
proved about them.

Go methods mutate their receiver and talk to the coordination store; here every
operation takes the store and the handle and returns the error (if any), the
handle as it is left, and the store as it is left.

The coordination store (etcd, reached through go-etcd) is an external
collaborator.  Its model keeps the leaf keys with their value, their
modification index and their TTL, the store-wide index, and a script of
transport outcomes: each request consumes one entry of the script, and an
entry that carries an error makes the request fail without touching the keys.
A write advances the store-wide index by one, stamps the written leaf with it and
reports it as the index of the response; reading an absent key is error 100.

Keys are kept as their path components, and the identifiers that enter a key are
taken to be single components.  A stored value is either a JSON object, kept as
its members, or any other text.  Fresh identifiers (uuid.New) are arguments.

The Subnet collaborator, the Job and Task records, the tubes of the work queue and
the lease lock are not among the sources; they are modelled from the spec and marked
so.  The lease of a key is not timed: its running out is a step of the store
(`Etcd.expire`).
-/

set_option autoImplicit false

namespace Lochness

/-! ## Errors -/

/-- Errors returned by the store client, by the encoders and by the code itself. -/
inductive Error where
  /-- etcd error 100, "Key not found". -/
  | keyNotFound
  /-- etcd error 101, "Compare failed". -/
  | testFailed
  /-- etcd error 105, "Key already exists". -/
  | nodeExist
  /-- a request that did not reach the store. -/
  | transport
  /-- the client refusing a compare-and-swap that names no condition. -/
  | noCondition
  /-- an encoding/json error while decoding. -/
  | unmarshal
  /-- net.IP.MarshalText on an address that has neither 0, 4 nor 16 bytes. -/
  | invalidIP
  /-- net.ParseMAC on a text that is no hardware address. -/
  | invalidMAC
  /-- a nil pointer dereference (the Go program panics). -/
  | nilDeref
  /-- the queue giving up a reservation: nothing became ready in time. -/
  | timeout
  /-- an error made with errors.New. -/
  | msg (s : String)
  /-- Modelled from the spec: the lock's AlreadyHeld. -/
  | AlreadyHeld
  /-- lock.ErrKeyNotFound of the lock tests (the spec's KeyNotFound). -/
  | ErrKeyNotFound
  /-- lock.ErrLockNotHeld of the lock tests (the spec's LockNotHeld). -/
  | ErrLockNotHeld
  deriving DecidableEq, Repr

deriving instance DecidableEq for Except

/-! ## Addresses -/

/-- net.IP: a byte slice. -/
abbrev IP := List Nat

/-- net.HardwareAddr: a byte slice. -/
abbrev HardwareAddr := List Nat

/-- One lower-case hexadecimal digit. -/
def hexDigit (n : Nat) : Char :=
  if n < 10 then Char.ofNat (48 + n) else Char.ofNat (87 + n)

/-- The value of a hexadecimal digit, as net.xtoi reads it. -/
def hexVal (c : Char) : Option Nat :=
  if 48 ≤ c.toNat ∧ c.toNat ≤ 57 then some (c.toNat - 48)
  else if 97 ≤ c.toNat ∧ c.toNat ≤ 102 then some (c.toNat - 87)
  else if 65 ≤ c.toNat ∧ c.toNat ≤ 70 then some (c.toNat - 55)
  else none

/-- net.HardwareAddr.String on the bytes after the first: each preceded by a colon. -/
def hexTail : List Nat → List Char
  | [] => []
  | b :: rest => ':' :: hexDigit (b / 16 % 16) :: hexDigit (b % 16) :: hexTail rest

/-- net.HardwareAddr.String: empty for the empty address, else colon-separated hex pairs. -/
def HardwareAddr.String (a : HardwareAddr) : String :=
  match a with
  | [] => ""
  | b :: rest => String.mk (hexDigit (b / 16 % 16) :: hexDigit (b % 16) :: hexTail rest)

/-- net.xtoi2: the first two characters as a byte; a third character, if any, must be `e`. -/
def xtoi2 (s : List Char) (e : Char) : Option Nat :=
  match s with
  | a :: b :: rest =>
    match rest with
    | c :: _ =>
      if c ≠ e then none
      else (hexVal a).bind (fun x => (hexVal b).map (fun y => 16 * x + y))
    | [] => (hexVal a).bind (fun x => (hexVal b).map (fun y => 16 * x + y))
  | _ => none

/-- The loop of net.ParseMAC over `n` groups "xx" separated by `sep`. -/
def parsePairs (sep : Char) : Nat → List Char → Option (List Nat)
  | 0, _ => some []
  | n + 1, s =>
    (xtoi2 s sep).bind (fun b => (parsePairs sep n (s.drop 3)).map (fun rest => b :: rest))

/-- The loop of net.ParseMAC over `n` groups "xxxx" separated by `sep`. -/
def parseQuads (sep : Char) : Nat → List Char → Option (List Nat)
  | 0, _ => some []
  | n + 1, s =>
    (xtoi2 (s.take 2) (Char.ofNat 0)).bind (fun b1 =>
      (xtoi2 (s.drop 2) sep).bind (fun b2 =>
        (parseQuads sep n (s.drop 5)).map (fun rest => b1 :: b2 :: rest)))

/-- net.ParseMAC: 6, 8 or 20 bytes written "xx:xx:...", "xx-xx-..." or "xxxx.xxxx...". -/
def ParseMAC (s : String) : Except Error HardwareAddr :=
  let cs := s.data
  if cs.length < 14 then .error .invalidMAC
  else if cs.get? 2 = some ':' ∨ cs.get? 2 = some '-' then
    if (cs.length + 1) % 3 ≠ 0 then .error .invalidMAC
    else
      let n := (cs.length + 1) / 3
      if n ≠ 6 ∧ n ≠ 8 ∧ n ≠ 20 then .error .invalidMAC
      else
        match parsePairs ((cs.get? 2).getD ':') n cs with
        | some hw => .ok hw
        | none => .error .invalidMAC
  else if cs.get? 4 = some '.' then
    if (cs.length + 1) % 5 ≠ 0 then .error .invalidMAC
    else
      let n := 2 * (cs.length + 1) / 5
      if n ≠ 6 ∧ n ≠ 8 ∧ n ≠ 20 then .error .invalidMAC
      else
        match parseQuads '.' (n / 2) cs with
        | some hw => .ok hw
        | none => .error .invalidMAC
  else .error .invalidMAC

/-! ## JSON documents and store values -/

/-- Modelled from the spec: Resources (its declaration is not among the sources),
"`{Memory, Disk, CPU}`". -/
structure Resources where
  Memory : Nat
  Disk : Nat
  CPU : Nat
  deriving DecidableEq, Repr

/-- The value of one member of a JSON object, for the member types the records use.
`ip b` is the JSON string that spells the 16-byte address `b`; the empty address is
the empty string. -/
inductive JField where
  | str (s : String)
  | map (m : List (String × String))
  | ip (b : IP)
  | res (r : Resources)
  deriving DecidableEq, Repr

/-- A value held by the store: a JSON object, or any other text. -/
inductive Value where
  | text (s : String)
  | object (members : List (String × JField))
  deriving DecidableEq, Repr

/-- Look a member up by name. -/
def member (name : String) : List (String × JField) → Option JField
  | [] => none
  | (k, v) :: rest => if k = name then some v else member name rest

/-- encoding/json reading a string member: an absent member leaves the zero value. -/
def decodeString : Option JField → Except Error String
  | none => .ok ""
  | some (.str s) => .ok s
  | some _ => .error .unmarshal

/-- encoding/json reading a map[string]string member. -/
def decodeMap : Option JField → Except Error (List (String × String))
  | none => .ok []
  | some (.map m) => .ok m
  | some _ => .error .unmarshal

/-- encoding/json reading a Resources member. -/
def decodeResources : Option JField → Except Error Resources
  | none => .ok ⟨0, 0, 0⟩
  | some (.res r) => .ok r
  | some _ => .error .unmarshal

/-- net.IP.UnmarshalText behind encoding/json: the empty text is the nil address,
an address text parses to its 16-byte form. -/
def decodeIP : Option JField → Except Error IP
  | none => .ok []
  | some (.ip b) => .ok b
  | some (.str s) => if s = "" then .ok [] else .error .unmarshal
  | some _ => .error .unmarshal

/-- net.IP.MarshalText behind encoding/json: a 4-byte address is written like its
16-byte form, other lengths than 0, 4 and 16 are refused. -/
def encodeIP (ip : IP) : Except Error JField :=
  if ip.length = 0 then .ok (.str "")
  else if ip.length = 4 then .ok (.ip ([0, 0, 0, 0, 0, 0, 0, 0, 0, 0, 255, 255] ++ ip))
  else if ip.length = 16 then .ok (.ip ip)
  else .error .invalidIP

/-! ## The coordination store -/

/-- A key of the store, as its path components: "lochness/guests/x/metadata"
is `["lochness", "guests", "x", "metadata"]`. -/
abbrev Key := List String

/-- filepath.Join on path elements that are single components: empty elements
are dropped. An element that holds a separator, or is "." or "..", is rewritten by
filepath.Clean in the code; such elements are not modelled. -/
def filepathJoin (elems : List String) : Key :=
  elems.filter (fun s => s ≠ "")

/-- filepath.Base of a key: its last component ("." for the empty path). -/
def filepathBase (k : Key) : String :=
  k.getLast?.getD "."

/-- A leaf of the store (etcd.Node without children). -/
structure Node where
  Key : Key
  Value : Value
  ModifiedIndex : Nat
  TTL : Nat
  deriving DecidableEq, Repr

/-- A node listed under a directory by a recursive Get, with its own children. -/
structure DirNode where
  Key : Key
  Value : Value
  ModifiedIndex : Nat
  Nodes : List Node
  deriving DecidableEq, Repr

/-- The store: the store-wide index, the leaves, and the transport outcomes of the
requests to come (`some err`: the next request fails with `err`). -/
structure Etcd where
  index : Nat
  nodes : List Node
  faults : List (Option Error)
  deriving DecidableEq, Repr

/-- etcd.Response, as far as the code reads it. `Node` may be nil in Go. -/
structure Response where
  Node : Option Node
  EtcdIndex : Nat
  deriving DecidableEq, Repr

namespace Etcd

/-- The leaf stored at a key, if any. -/
def find (e : Etcd) (key : Key) : Option Node :=
  e.nodes.find? (fun n => n.Key = key)

/-- The transport outcome of the next request. -/
def fault (e : Etcd) : Option Error :=
  e.faults.head?.join

/-- The store once a request has been sent: one transport outcome is consumed. -/
def sent (e : Etcd) : Etcd :=
  { e with faults := e.faults.tail }

/-- The store after a write of `value` at `key`: the index advances by one and
becomes the modification index of the written leaf. -/
def write (e : Etcd) (key : Key) (value : Value) (ttl : Nat) : Etcd :=
  { e with
    index := e.index + 1
    nodes := ⟨key, value, e.index + 1, ttl⟩ :: e.nodes.filter (fun n => n.Key ≠ key) }

/-- The response to a write: the written leaf, and the index it was written at. -/
def written (e : Etcd) (key : Key) (value : Value) (ttl : Nat) : Response :=
  ⟨some ⟨key, value, e.index + 1, ttl⟩, e.index + 1⟩

/-- Client.Get on a leaf key: error 100 when the key is absent. -/
def Get (e : Etcd) (key : Key) : Except Error (Option Response) × Etcd :=
  match e.fault with
  | some err => (.error err, e.sent)
  | none =>
    match e.find key with
    | none => (.error .keyNotFound, e.sent)
    | some n => (.ok (some ⟨some n, e.index⟩), e.sent)

/-- Client.Create: writes only when the key is absent, else error 105. -/
def Create (e : Etcd) (key : Key) (value : Value) (ttl : Nat) : Except Error Response × Etcd :=
  match e.fault with
  | some err => (.error err, e.sent)
  | none =>
    match e.find key with
    | some _ => (.error .nodeExist, e.sent)
    | none => (.ok (e.written key value ttl), (e.write key value ttl).sent)

/-- Client.CompareAndSwap: writes only when the key exists and matches the given
previous value (if not "") and previous index (if not 0); error 100 when the key is
absent, error 101 when a comparison fails. -/
def CompareAndSwap (e : Etcd) (key : Key) (value : Value) (ttl : Nat)
    (prevValue : String) (prevIndex : Nat) : Except Error Response × Etcd :=
  if prevValue = "" ∧ prevIndex = 0 then (.error .noCondition, e)
  else
    match e.fault with
    | some err => (.error err, e.sent)
    | none =>
      match e.find key with
      | none => (.error .keyNotFound, e.sent)
      | some n =>
        if (prevValue ≠ "" ∧ n.Value ≠ .text prevValue) ∨
            (prevIndex ≠ 0 ∧ n.ModifiedIndex ≠ prevIndex) then
          (.error .testFailed, e.sent)
        else (.ok (e.written key value ttl), (e.write key value ttl).sent)

/-- Client.Set: writes whether or not the key exists. -/
def Set (e : Etcd) (key : Key) (value : Value) (ttl : Nat) : Except Error Response × Etcd :=
  match e.fault with
  | some err => (.error err, e.sent)
  | none => (.ok (e.written key value ttl), (e.write key value ttl).sent)

/-- The names directly under a directory, each once, in the order of the leaves. -/
def names (e : Etcd) (dir : Key) : List String :=
  (e.nodes.filterMap (fun n =>
    if dir.isPrefixOf n.Key then (n.Key.drop dir.length).head? else none)).dedup

/-- The lexicographic order on sequences of code points. -/
def ltCodes : List Nat → List Nat → Bool
  | _, [] => false
  | [], _ :: _ => true
  | a :: as, b :: bs => decide (a < b) || (decide (a = b) && ltCodes as bs)

/-- The order in which a sorted listing puts two names. -/
def nameLt (a b : String) : Bool :=
  ltCodes (a.data.map Char.toNat) (b.data.map Char.toNat)

/-- Insert a name into a list of names kept in ascending order. -/
def insertName (a : String) : List String → List String
  | [] => [a]
  | b :: rest => if nameLt a b then a :: b :: rest else b :: insertName a rest

/-- A list of names in ascending order (the "sorted" flag of Client.Get). -/
def sortNames (l : List String) : List String :=
  l.foldr insertName []

/-- The names directly under a directory in the order Client.Get lists them. -/
def listing (e : Etcd) (dir : Key) (sorted : Bool) : List String :=
  if sorted then sortNames (e.names dir) else e.names dir

/-- The node listed for the name `c` under `dir`: the leaf stored there, or a
valueless node when the name is itself a directory. -/
def child (e : Etcd) (dir : Key) (c : String) : Node :=
  (e.find (dir ++ [c])).getD ⟨dir ++ [c], .text "", 0, 0⟩

/-- The node listed for the name `c` under `dir` by a recursive Get, with its own
children. -/
def dirNode (e : Etcd) (dir : Key) (sorted : Bool) (c : String) : DirNode :=
  ⟨(e.child dir c).Key, (e.child dir c).Value, (e.child dir c).ModifiedIndex,
    (e.listing (dir ++ [c]) sorted).map (e.child (dir ++ [c]))⟩

/-- Client.Get with the recursive flag: the children of the key (`Node.Nodes`), each
with its own children. A leaf key has no children; error 100 when nothing is stored
at or under the key. -/
def GetDir (e : Etcd) (dir : Key) (sorted : Bool) : Except Error (List DirNode) × Etcd :=
  match e.fault with
  | some err => (.error err, e.sent)
  | none =>
    match e.find dir, e.names dir with
    | none, [] => (.error .keyNotFound, e.sent)
    | _, _ => (.ok ((e.listing dir sorted).map (e.dirNode dir sorted)), e.sent)

/-- Every leaf was written at an index between 1 and the store-wide index. -/
def WF (e : Etcd) : Prop :=
  ∀ n ∈ e.nodes, 0 < n.ModifiedIndex ∧ n.ModifiedIndex ≤ e.index

end Etcd

/-- What a method call leaves behind: the error it returns (if any), its receiver
and the store. -/
structure Outcome (α : Type) where
  err : Option Error
  self : α
  etcd : Etcd
  deriving DecidableEq, Repr

/-! ## Guest (guest.go) -/

/-- GuestPath = "lochness/guests/". -/
def GuestPath : Key := ["lochness", "guests"]

/-- Guest: a virtual machine. `Bridge` is assigned by Hypervisor.AddGuest and is
not part of the stored record. -/
structure Guest where
  modifiedIndex : Nat
  ID : String
  Metadata : List (String × String)
  Type_ : String
  FlavorID : String
  HypervisorID : String
  NetworkID : String
  SubnetID : String
  FWGroupID : String
  MAC : HardwareAddr
  IP : IP
  Bridge : Value
  deriving DecidableEq, Repr

/-- The wire form of a Guest: the MAC is a string. -/
structure guestJSON where
  ID : String
  Metadata : List (String × String)
  Type_ : String
  FlavorID : String
  HypervisorID : String
  NetworkID : String
  SubnetID : String
  FWGroupID : String
  MAC : String
  IP : IP
  deriving DecidableEq, Repr

/-- json.Marshal of a guestJSON. -/
def guestJSON.Marshal (d : guestJSON) : Except Error Value :=
  match encodeIP d.IP with
  | .error err => .error err
  | .ok ip =>
    .ok (.object [("id", .str d.ID), ("metadata", .map d.Metadata), ("type", .str d.Type_),
      ("flavor", .str d.FlavorID), ("hypervisor", .str d.HypervisorID),
      ("network", .str d.NetworkID), ("subnet", .str d.SubnetID),
      ("fwgroup", .str d.FWGroupID), ("mac", .str d.MAC), ("ip", ip)])

/-- json.Unmarshal into an empty guestJSON. -/
def guestJSON.Unmarshal (input : Value) : Except Error guestJSON :=
  match input with
  | .text _ => .error .unmarshal
  | .object m =>
    match decodeString (member "id" m), decodeMap (member "metadata" m),
      decodeString (member "type" m), decodeString (member "flavor" m),
      decodeString (member "hypervisor" m), decodeString (member "network" m),
      decodeString (member "subnet" m), decodeString (member "fwgroup" m),
      decodeString (member "mac" m), decodeIP (member "ip" m) with
    | .ok id, .ok md, .ok ty, .ok fl, .ok hv, .ok nw, .ok sn, .ok fw, .ok mac, .ok ip =>
      .ok ⟨id, md, ty, fl, hv, nw, sn, fw, mac, ip⟩
    | _, _, _, _, _, _, _, _, _, _ => .error .unmarshal

/-- Context.NewGuest; `id` is the fresh uuid. -/
def Context.NewGuest (id : String) : Guest :=
  { modifiedIndex := 0, ID := id, Metadata := [], Type_ := "", FlavorID := "",
    HypervisorID := "", NetworkID := "", SubnetID := "", FWGroupID := "", MAC := [],
    IP := [], Bridge := .text "" }

namespace Guest

/-- Guest.MarshalJSON. -/
def MarshalJSON (t : Guest) : Except Error Value :=
  guestJSON.Marshal
    { ID := t.ID
      Metadata := t.Metadata
      Type_ := t.Type_
      FlavorID := t.FlavorID
      NetworkID := t.NetworkID
      SubnetID := t.SubnetID
      FWGroupID := t.FWGroupID
      HypervisorID := t.HypervisorID
      IP := t.IP
      MAC := HardwareAddr.String t.MAC }

/-- Guest.UnmarshalJSON: the error and the Guest as it is left. -/
def UnmarshalJSON (t : Guest) (input : Value) : Option Error × Guest :=
  match guestJSON.Unmarshal input with
  | .error err => (some err, t)
  | .ok data =>
    let t := { t with
      ID := data.ID
      Metadata := data.Metadata
      Type_ := data.Type_
      FlavorID := data.FlavorID
      NetworkID := data.NetworkID
      SubnetID := data.SubnetID
      FWGroupID := data.FWGroupID
      HypervisorID := data.HypervisorID
      IP := data.IP }
    match ParseMAC data.MAC with
    | .error err => (some err, t)
    | .ok a => (none, { t with MAC := a })

/-- Guest.key. -/
def key (t : Guest) : Key :=
  GuestPath ++ filepathJoin [t.ID, "metadata"]

/-- Guest.fromResponse. -/
def fromResponse (t : Guest) (resp : Response) : Option Error × Guest :=
  match resp.Node with
  | none => (some .nilDeref, t)
  | some n => UnmarshalJSON { t with modifiedIndex := n.ModifiedIndex } n.Value

/-- Guest.Refresh. -/
def Refresh (e : Etcd) (t : Guest) : Outcome Guest :=
  match e.Get t.key with
  | (.error err, e) => ⟨some err, t, e⟩
  | (.ok none, e) => ⟨none, t, e⟩
  | (.ok (some resp), e) =>
    match resp.Node with
    | none => ⟨none, t, e⟩
    | some _ => ⟨(t.fromResponse resp).1, (t.fromResponse resp).2, e⟩

/-- Guest.Validate. -/
def Validate (_t : Guest) : Option Error :=
  none

/-- Guest.Save. -/
def Save (e : Etcd) (t : Guest) : Outcome Guest :=
  match t.Validate with
  | some err => ⟨some err, t, e⟩
  | none =>
    match t.MarshalJSON with
    | .error err => ⟨some err, t, e⟩
    | .ok v =>
      match (if t.modifiedIndex ≠ 0 then e.CompareAndSwap t.key v 0 "" t.modifiedIndex
        else e.Create t.key v 0) with
      | (.error err, e) => ⟨some err, t, e⟩
      | (.ok resp, e) => ⟨none, { t with modifiedIndex := resp.EtcdIndex }, e⟩

end Guest

/-- Context.Guest: a handle with only the ID set is refreshed, and returned only
when Refresh gave no error. -/
def Context.Guest (e : Etcd) (id : String) : Except Error Guest × Etcd :=
  match Guest.Refresh e { Context.NewGuest "" with ID := id } with
  | ⟨some err, _, e⟩ => (.error err, e)
  | ⟨none, t, e⟩ => (.ok t, e)

/-! ## Network (network.go) -/

/-- NetworkPath = "lochness/networks/". -/
def NetworkPath : Key := ["lochness", "networks"]

/-- Network: a logical collection of subnets. -/
structure Network where
  modifiedIndex : Nat
  ID : String
  Metadata : List (String × String)
  deriving DecidableEq, Repr

/-- encoding/json decoding an object into a Go map that holds entries already: the map
is reused, its entries are kept unless the object has their key, and the entries of the
object are assigned. A nil map and an empty one give the entries of the object. -/
def mapMerge (old new : List (String × String)) : List (String × String) :=
  old.filter (fun p => !(new.any (fun q => q.1 = p.1))) ++ new

/-- Context.NewNetwork; `id` is the fresh uuid. -/
def Context.NewNetwork (id : String) : Network :=
  { modifiedIndex := 0, ID := id, Metadata := [] }

namespace Network

/-- json.Marshal of a Network: its exported fields. -/
def Marshal (t : Network) : Except Error Value :=
  .ok (.object [("id", .str t.ID), ("metadata", .map t.Metadata)])

/-- json.Unmarshal into a Network: members that are present overwrite the fields,
the entries of a "metadata" member are assigned into the map the handle holds, and a
member of the wrong type is skipped and reported. -/
def Unmarshal (t : Network) (input : Value) : Option Error × Network :=
  match input with
  | .text _ => (some .unmarshal, t)
  | .object m =>
    let t1 := match member "id" m with
      | some (.str s) => { t with ID := s }
      | _ => t
    let t2 := match member "metadata" m with
      | some (.map md) => { t1 with Metadata := mapMerge t1.Metadata md }
      | _ => t1
    match member "id" m, member "metadata" m with
    | some (.map _), _ | some (.ip _), _ | some (.res _), _ => (some .unmarshal, t2)
    | _, some (.str _) | _, some (.ip _) | _, some (.res _) => (some .unmarshal, t2)
    | _, _ => (none, t2)

/-- Network.key. -/
def key (t : Network) : Key :=
  NetworkPath ++ filepathJoin [t.ID, "metadata"]

/-- Network.fromResponse. -/
def fromResponse (t : Network) (resp : Response) : Option Error × Network :=
  match resp.Node with
  | none => (some .nilDeref, t)
  | some n => Unmarshal { t with modifiedIndex := n.ModifiedIndex } n.Value

/-- Network.Refresh. -/
def Refresh (e : Etcd) (t : Network) : Outcome Network :=
  match e.Get t.key with
  | (.error err, e) => ⟨some err, t, e⟩
  | (.ok none, e) => ⟨none, t, e⟩
  | (.ok (some resp), e) =>
    match resp.Node with
    | none => ⟨none, t, e⟩
    | some _ => ⟨(t.fromResponse resp).1, (t.fromResponse resp).2, e⟩

/-- Network.Validate. -/
def Validate (_t : Network) : Option Error :=
  none

/-- Network.Save. -/
def Save (e : Etcd) (t : Network) : Outcome Network :=
  match t.Validate with
  | some err => ⟨some err, t, e⟩
  | none =>
    match t.Marshal with
    | .error err => ⟨some err, t, e⟩
    | .ok v =>
      match (if t.modifiedIndex ≠ 0 then e.CompareAndSwap t.key v 0 "" t.modifiedIndex
        else e.Create t.key v 0) with
      | (.error err, e) => ⟨some err, t, e⟩
      | (.ok resp, e) => ⟨none, { t with modifiedIndex := resp.EtcdIndex }, e⟩

/-- Network.subnetKey; `none` is the nil subnet. -/
def subnetKey (t : Network) (s : Option String) : Key :=
  NetworkPath ++ filepathJoin [t.ID, "subnets", s.getD ""]

/-- Network.Subnets: the names under the subnets key, in ascending order. -/
def Subnets (e : Etcd) (t : Network) : Except Error (List String) × Etcd :=
  match e.GetDir (t.subnetKey none) true with
  | (.error err, e) => (.error err, e)
  | (.ok nodes, e) => (.ok (nodes.map (fun n => filepathBase n.Key)), e)

end Network

/-- Context.Network: a handle with only the ID set is refreshed, and returned only
when Refresh gave no error. -/
def Context.Network (e : Etcd) (id : String) : Except Error Network × Etcd :=
  match Network.Refresh e { modifiedIndex := 0, ID := id, Metadata := [] } with
  | ⟨some err, _, e⟩ => (.error err, e)
  | ⟨none, t, e⟩ => (.ok t, e)

/-! ## Hypervisor (hypervisor.go) -/

/-- HypervisorPath = "lochness/hypervisors/". -/
def HypervisorPath : Key := ["lochness", "hypervisors"]

/-- Hypervisor: a physical box on which guests run. `subnets` is a Go map, kept as
the list of its entries in iteration order. -/
structure Hypervisor where
  modifiedIndex : Nat
  ID : String
  Metadata : List (String × String)
  IP : Lochness.IP
  Netmask : Lochness.IP
  Gateway : Lochness.IP
  MAC : HardwareAddr
  TotalResources : Resources
  AvailableResources : Resources
  subnets : List (String × Value)
  guests : List String
  alive : Bool
  deriving DecidableEq, Repr

/-- The wire form of a Hypervisor: the MAC is a string. -/
structure hypervisorJSON where
  ID : String
  Metadata : List (String × String)
  IP : Lochness.IP
  Netmask : Lochness.IP
  Gateway : Lochness.IP
  MAC : String
  TotalResources : Resources
  AvailableResources : Resources
  deriving DecidableEq, Repr

/-- json.Marshal of a hypervisorJSON. -/
def hypervisorJSON.Marshal (d : hypervisorJSON) : Except Error Value :=
  match encodeIP d.IP, encodeIP d.Netmask, encodeIP d.Gateway with
  | .ok ip, .ok nm, .ok gw =>
    .ok (.object [("id", .str d.ID), ("metadata", .map d.Metadata), ("ip", ip),
      ("netmask", nm), ("gateway", gw), ("mac", .str d.MAC),
      ("total_resources", .res d.TotalResources),
      ("available_resources", .res d.AvailableResources)])
  | _, _, _ => .error .invalidIP

/-- json.Unmarshal into an empty hypervisorJSON. -/
def hypervisorJSON.Unmarshal (input : Value) : Except Error hypervisorJSON :=
  match input with
  | .text _ => .error .unmarshal
  | .object m =>
    match decodeString (member "id" m), decodeMap (member "metadata" m),
      decodeIP (member "ip" m), decodeIP (member "netmask" m), decodeIP (member "gateway" m),
      decodeString (member "mac" m), decodeResources (member "total_resources" m),
      decodeResources (member "available_resources" m) with
    | .ok id, .ok md, .ok ip, .ok nm, .ok gw, .ok mac, .ok tr, .ok ar =>
      .ok ⟨id, md, ip, nm, gw, mac, tr, ar⟩
    | _, _, _, _, _, _, _, _ => .error .unmarshal

/-- Assignment `m[k] = v` on a Go map kept as a list of entries. -/
def mapSet (m : List (String × Value)) (k : String) (v : Value) : List (String × Value) :=
  if m.any (fun p => p.1 = k) then m.map (fun p => if p.1 = k then (k, v) else p)
  else m ++ [(k, v)]

/-- Context.blankHypervisor; `fresh` is the uuid used when `id` is empty. -/
def Context.blankHypervisor (id : String) (fresh : String) : Hypervisor :=
  { modifiedIndex := 0, ID := if id = "" then fresh else id, Metadata := [], IP := [],
    Netmask := [], Gateway := [], MAC := [], TotalResources := ⟨0, 0, 0⟩,
    AvailableResources := ⟨0, 0, 0⟩, subnets := [], guests := [], alive := false }

/-- Context.NewHypervisor. -/
def Context.NewHypervisor (fresh : String) : Hypervisor :=
  Context.blankHypervisor "" fresh

namespace Hypervisor

/-- Hypervisor.MarshalJSON. -/
def MarshalJSON (h : Hypervisor) : Except Error Value :=
  hypervisorJSON.Marshal
    { ID := h.ID
      Metadata := h.Metadata
      IP := h.IP
      Netmask := h.Netmask
      Gateway := h.Gateway
      MAC := HardwareAddr.String h.MAC
      TotalResources := h.TotalResources
      AvailableResources := h.AvailableResources }

/-- Hypervisor.UnmarshalJSON: the error and the Hypervisor as it is left. -/
def UnmarshalJSON (h : Hypervisor) (input : Value) : Option Error × Hypervisor :=
  match hypervisorJSON.Unmarshal input with
  | .error err => (some err, h)
  | .ok data =>
    let h := { h with
      ID := data.ID
      Metadata := data.Metadata
      IP := data.IP
      Netmask := data.Netmask
      Gateway := data.Gateway
      TotalResources := data.TotalResources
      AvailableResources := data.AvailableResources }
    if data.MAC ≠ "" then
      match ParseMAC data.MAC with
      | .error err => (some err, h)
      | .ok a => (none, { h with MAC := a })
    else (none, h)

/-- Hypervisor.key. -/
def key (h : Hypervisor) : Key :=
  HypervisorPath ++ filepathJoin [h.ID, "metadata"]

/-- The body of the loop of Hypervisor.Refresh for one child node. -/
def refreshNode (h : Hypervisor) (n : DirNode) : Option Error × Hypervisor :=
  let key := filepathBase n.Key
  if key = "metadata" then
    match h.UnmarshalJSON n.Value with
    | (some err, h) => (some err, h)
    | (none, h) => (none, { h with modifiedIndex := n.ModifiedIndex })
  else if key = "heartbeat" then (none, { h with alive := true })
  else if key = "subnets" then
    (none, { h with
      subnets := n.Nodes.foldl (fun m c => mapSet m (filepathBase c.Key) c.Value) h.subnets })
  else if key = "guests" then
    (none, { h with guests := h.guests ++ n.Nodes.map (fun c => filepathBase c.Key) })
  else (none, h)

/-- The loop of Hypervisor.Refresh: it stops at the first error. -/
def refreshNodes (h : Hypervisor) : List DirNode → Option Error × Hypervisor
  | [] => (none, h)
  | n :: rest =>
    match refreshNode h n with
    | (some err, h) => (some err, h)
    | (none, h) => refreshNodes h rest

/-- Hypervisor.Refresh. -/
def Refresh (e : Etcd) (h : Hypervisor) : Outcome Hypervisor :=
  match e.GetDir (HypervisorPath ++ filepathJoin [h.ID]) false with
  | (.error err, e) => ⟨some err, h, e⟩
  | (.ok nodes, e) => ⟨(refreshNodes h nodes).1, (refreshNodes h nodes).2, e⟩

/-- Hypervisor.Validate. -/
def Validate (_h : Hypervisor) : Option Error :=
  none

/-- Hypervisor.Save. -/
def Save (e : Etcd) (h : Hypervisor) : Outcome Hypervisor :=
  match h.Validate with
  | some err => ⟨some err, h, e⟩
  | none =>
    match h.MarshalJSON with
    | .error err => ⟨some err, h, e⟩
    | .ok v =>
      match (if h.modifiedIndex ≠ 0 then e.CompareAndSwap h.key v 0 "" h.modifiedIndex
        else e.Create h.key v 0) with
      | (.error err, e) => ⟨some err, h, e⟩
      | (.ok resp, e) => ⟨none, { h with modifiedIndex := resp.EtcdIndex }, e⟩

/-- Hypervisor.guestKey; `none` is the nil guest. -/
def guestKey (h : Hypervisor) (g : Option Guest) : Key :=
  HypervisorPath ++ filepathJoin [h.ID, "guests", (g.map (fun g => g.ID)).getD ""]

end Hypervisor

/-- Context.Hypervisor. -/
def Context.Hypervisor (e : Etcd) (id : String) (fresh : String) : Except Error Hypervisor × Etcd :=
  match Hypervisor.Refresh e (Context.blankHypervisor id fresh) with
  | ⟨some err, _, e⟩ => (.error err, e)
  | ⟨none, h, e⟩ => (.ok h, e)

/-! ## The write of Save -/

/-- The error of a result, if it is one. -/
def errOf {α : Type} : Except Error α → Option Error
  | .error err => some err
  | .ok _ => none

/-- What the three Save methods do once the entity is validated and marshalled
(`m`): a compare-and-swap when a version was captured, else a create-only write;
on success the captured version becomes the index of the response. -/
def commit {α : Type} (setIndex : α → Nat → α) (e : Etcd) (t : α) (key : Key)
    (modifiedIndex : Nat) (m : Except Error Value) : Outcome α :=
  match m with
  | .error err => ⟨some err, t, e⟩
  | .ok v =>
    match (if modifiedIndex ≠ 0 then e.CompareAndSwap key v 0 "" modifiedIndex
      else e.Create key v 0) with
    | (.error err, e) => ⟨some err, t, e⟩
    | (.ok resp, e) => ⟨none, setIndex t resp.EtcdIndex, e⟩

/-- The store takes the write of a Save that captured version `mi` at `key`: the
request gets through, and the key holds a leaf of exactly that version (`mi ≠ 0`)
or no leaf at all (`mi = 0`). -/
def Etcd.accepts (e : Etcd) (key : Key) (mi : Nat) : Prop :=
  e.fault = none ∧
    ((mi ≠ 0 ∧ (e.find key).map (fun n => n.ModifiedIndex) = some mi) ∨
      (mi = 0 ∧ e.find key = none))

instance (e : Etcd) (key : Key) (mi : Nat) : Decidable (e.accepts key mi) := by
  unfold Etcd.accepts
  infer_instance

/-- The error a refused Save returns: the transport error, error 100 or 101 of a
compare-and-swap, error 105 of a create. -/
def Etcd.refusal (e : Etcd) (key : Key) (mi : Nat) : Error :=
  match e.fault, e.find key with
  | some err, _ => err
  | none, none => .keyNotFound
  | none, some _ => if mi = 0 then .nodeExist else .testFailed

/-! ## The Subnet collaborator -/

/-- Modelled from the spec: a Subnet of the Subnet collaborator (subnet.go is not
among the sources). The spec gives it an ID, the sequence of addresses it reports
as available, and reservations keyed by their owner. -/
structure Subnet where
  ID : String
  available : List IP
  reserved : List (IP × String)
  deriving DecidableEq, Repr

/-- Modelled from the spec: what the Subnet collaborator holds, the subnets and the
outcomes of the requests to come (`some err`: the next request fails with `err`). -/
structure Subnets where
  records : List Subnet
  faults : List (Option Error)
  deriving DecidableEq, Repr

namespace Subnets

/-- Modelled from the spec: the outcome of the next request to the collaborator. -/
def fault (sn : Subnets) : Option Error :=
  sn.faults.head?.join

/-- Modelled from the spec: the collaborator once a request has been sent. -/
def sent (sn : Subnets) : Subnets :=
  { sn with faults := sn.faults.tail }

/-- Modelled from the spec: the subnet recorded under an ID, if any. -/
def find (sn : Subnets) (id : String) : Option Subnet :=
  sn.records.find? (fun s => s.ID = id)

/-- Every recorded subnet has an ID, and every address it reports is one. -/
def WF (sn : Subnets) : Prop :=
  ∀ s ∈ sn.records, s.ID ≠ "" ∧ ∀ ip ∈ s.available, ip ≠ []

end Subnets

/-- Modelled from the spec: Context.Subnet, the get-by-ID of a Subnet, which
"fails NotFound if absent". -/
def Context.Subnet (sn : Subnets) (id : String) : Except Error Subnet × Subnets :=
  match sn.fault with
  | some err => (.error err, sn.sent)
  | none =>
    match sn.find id with
    | none => (.error .keyNotFound, sn.sent)
    | some s => (.ok s, sn.sent)

namespace Subnet

/-- Modelled from the spec: Subnet.AvailibleAddresses, "sequence of addresses". -/
def AvailibleAddresses (s : Subnet) : List IP :=
  s.available

/-- Modelled from the spec: Subnet.ReserveAddress, "ReserveAddress(ownerID) →
address | error": an available address of the subnet is handed to the owner and is
no longer available; an error when the request fails or no address is left. -/
def ReserveAddress (sn : Subnets) (s : Subnet) (ownerID : String) : Except Error IP × Subnets :=
  match sn.fault with
  | some err => (.error err, sn.sent)
  | none =>
    match sn.find s.ID with
    | none => (.error .keyNotFound, sn.sent)
    | some r =>
      match r.available with
      | [] => (.error (.msg "no available addresses"), sn.sent)
      | ip :: rest =>
        (.ok ip,
          { sn.sent with
            records := sn.records.map (fun x =>
              if x.ID = s.ID then { x with available := rest, reserved := (ip, ownerID) :: x.reserved }
              else x) })

end Subnet

/-! ## Placement (hypervisor.go, AddGuest) -/

/-- What AddGuest leaves behind: the error it returns, the Guest, the store and the
Subnet collaborator. -/
structure Placement where
  err : Option Error
  guest : Guest
  etcd : Etcd
  subnets : Subnets
  deriving DecidableEq, Repr

namespace Hypervisor

/-- The inner loop of AddGuest, over the entries of `h.subnets` in iteration order,
for the listed subnet `k`: the subnet and bridge to use, if this loop finds them. -/
def scanJoined (sn : Subnets) (k : String) :
    List (String × Value) → Except Error (Option (Subnet × Value)) × Subnets
  | [] => (.ok none, sn)
  | (id, br) :: rest =>
    if id = k then
      match Context.Subnet sn id with
      | (.error err, sn) => (.error err, sn)
      | (.ok subnet, sn) =>
        if subnet.AvailibleAddresses.length > 0 then (.ok (some (subnet, br)), sn)
        else scanJoined sn k rest
    else scanJoined sn k rest

/-- The outer loop of AddGuest (label LOOP), over the subnets the Network lists. -/
def scanListed (sn : Subnets) (joined : List (String × Value)) :
    List String → Except Error (Option (Subnet × Value)) × Subnets
  | [] => (.ok none, sn)
  | k :: ks =>
    match scanJoined sn k joined with
    | (.error err, sn) => (.error err, sn)
    | (.ok (some found), sn) => (.ok (some found), sn)
    | (.ok none, sn) => scanListed sn joined ks

/-- What the loop of AddGuest ranges over: the subnets Network.Subnets lists, and
nothing when the listing failed. -/
def ranged (listed : Except Error (List String)) : List String :=
  match listed with
  | .ok ks => ks
  | .error _ => []

/-- Hypervisor.AddGuest. The loop ranges over the value of `n.Subnets()`. -/
def AddGuest (e : Etcd) (sn : Subnets) (h : Hypervisor) (g : Guest) : Placement :=
  match Context.Network e g.NetworkID with
  | (.error err, e) => ⟨some err, g, e, sn⟩
  | (.ok n, e) =>
    match n.Subnets e with
    | (listed, e) =>
      match scanListed sn h.subnets (ranged listed) with
      | (.error err, sn) => ⟨some err, g, e, sn⟩
      | (.ok none, sn) => ⟨some (.msg "no suitable subnet found"), g, e, sn⟩
      | (.ok (some (s, bridge)), sn) =>
        match s.ReserveAddress sn g.ID with
        | (.error err, sn) => ⟨some err, g, e, sn⟩
        | (.ok ip, sn) =>
          let g := { g with HypervisorID := h.ID, IP := ip, SubnetID := s.ID, Bridge := bridge }
          match e.Set (h.guestKey (some g)) (.text g.ID) 0 with
          | (.error err, e) => ⟨some err, g, e, sn⟩
          | (.ok _, e) => ⟨(g.Save e).err, (g.Save e).self, (g.Save e).etcd, sn⟩

end Hypervisor

/-! ## The work-queue client (pkg/jobqueue/client.go) -/

/-- jobTTL = 24 * time.Hour, a time.Duration in nanoseconds. -/
def jobTTL : Nat := 24 * (60 * 60 * 1000000000)

/-- Modelled from the spec: JobPath (job.go is not among the sources), the prefix of
the keys of the job records. -/
def JobPath : Key := ["lochness", "jobs"]

/-- Modelled from the spec: a Job (job.go is not among the sources), "a durable
record describing one intended mutation (Guest ID + Action string)". -/
structure Job where
  ID : String
  Action : String
  Guest : String
  deriving DecidableEq, Repr

/-- Modelled from the spec: a Task (task.go is not among the sources), "an opaque
delivery ID plus the Job ID as payload", which "carries the hydrated Job and Guest
once a consumer reserves it". -/
structure Task where
  ID : Nat
  JobID : String
  Job : Option Job
  Guest : Option Guest
  deriving DecidableEq, Repr

/-- The two tubes of the client, `c.tubes.create` and `c.tubes.work`. -/
inductive Tube where
  | create
  | work
  deriving DecidableEq, Repr

/-- Modelled from the spec: the work-queue system, "tube-addressed queue supporting
put (returns opaque task ID), reserve-with-block (returns task ID + payload)": the
last ID handed out, the ready deliveries of each tube, the reserved deliveries,
and the outcomes of the requests to come. -/
structure Queue where
  lastID : Nat
  create : List (Nat × String)
  work : List (Nat × String)
  reserved : List (Nat × String)
  faults : List (Option Error)
  deriving DecidableEq, Repr

namespace Queue

/-- Modelled from the spec: the outcome of the next request to the queue. -/
def fault (q : Queue) : Option Error :=
  q.faults.head?.join

/-- Modelled from the spec: the queue once a request has been sent. -/
def sent (q : Queue) : Queue :=
  { q with faults := q.faults.tail }

/-- Modelled from the spec: the ready deliveries of a tube. -/
def ready (q : Queue) : Tube → List (Nat × String)
  | .create => q.create
  | .work => q.work

end Queue

namespace tubeSet

/-- Modelled from the spec: tubeSet.Put, "put (returns opaque task ID)": the body
becomes a ready delivery of the tube under a new ID. -/
def Put (q : Queue) (ts : Tube) (body : String) : (Nat × Option Error) × Queue :=
  match q.fault with
  | some err => ((0, some err), q.sent)
  | none =>
    match ts with
    | .create =>
      ((q.lastID + 1, none),
        { q.sent with lastID := q.lastID + 1, create := q.create ++ [(q.lastID + 1, body)] })
    | .work =>
      ((q.lastID + 1, none),
        { q.sent with lastID := q.lastID + 1, work := q.work ++ [(q.lastID + 1, body)] })

/-- Modelled from the spec: tubeSet.Reserve, "reserve-with-block (returns task ID +
payload)": the first ready delivery of the tube becomes reserved; when nothing is
ready within the timeout the reservation fails. -/
def Reserve (q : Queue) (ts : Tube) : Except Error (Nat × String) × Queue :=
  match q.fault with
  | some err => (.error err, q.sent)
  | none =>
    match ts, q.ready ts with
    | _, [] => (.error .timeout, q.sent)
    | .create, d :: rest => (.ok d, { q.sent with create := rest, reserved := d :: q.reserved })
    | .work, d :: rest => (.ok d, { q.sent with work := rest, reserved := d :: q.reserved })

end tubeSet

namespace Job

/-- Modelled from the spec: the key of a job record. -/
def key (j : Job) : Key :=
  JobPath ++ filepathJoin [j.ID]

/-- Modelled from the spec: the stored form of a Job. -/
def Marshal (j : Job) : Value :=
  .object [("id", .str j.ID), ("action", .str j.Action), ("guest", .str j.Guest)]

/-- Modelled from the spec: reading a stored Job back. -/
def Unmarshal (input : Value) : Except Error Job :=
  match input with
  | .text _ => .error .unmarshal
  | .object m =>
    match decodeString (member "id" m), decodeString (member "action" m),
      decodeString (member "guest" m) with
    | .ok id, .ok action, .ok guest => .ok ⟨id, action, guest⟩
    | _, _, _ => .error .unmarshal

/-- Modelled from the spec: Job.Save(ttl), which "persists" the Job record "stored
with its own TTL": the record is written at the job's key with the TTL in whole
seconds. -/
def Save (e : Etcd) (j : Job) (ttl : Nat) : Option Error × Etcd :=
  match e.Set j.key j.Marshal (ttl / 1000000000) with
  | (.error err, e) => (some err, e)
  | (.ok _, e) => (none, e)

end Job

namespace Client

/-- Modelled from the spec: Client.NewJob; `id` is the fresh uuid. -/
def NewJob (id : String) : Job :=
  { ID := id, Action := "", Guest := "" }

/-- Modelled from the spec: Client.Job, the get-by-ID of a Job. -/
def Job (e : Etcd) (id : String) : Except Error Job × Etcd :=
  match e.Get (JobPath ++ filepathJoin [id]) with
  | (.error err, e) => (.error err, e)
  | (.ok none, e) => (.error .keyNotFound, e)
  | (.ok (some resp), e) =>
    match resp.Node with
    | none => (.error .keyNotFound, e)
    | some n => (Job.Unmarshal n.Value, e)

end Client

namespace Task

/-- Modelled from the spec: Task.RefreshJob, which "re-reads the referenced
record" of the Job named by the payload. -/
def RefreshJob (e : Etcd) (t : Task) : Option Error × Task × Etcd :=
  match Client.Job e t.JobID with
  | (.error err, e) => (some err, t, e)
  | (.ok j, e) => (none, { t with Job := some j }, e)

/-- Modelled from the spec: Task.RefreshGuest, which "fails if the Job has no
Guest reference or the Guest no longer exists". -/
def RefreshGuest (e : Etcd) (t : Task) : Option Error × Task × Etcd :=
  match t.Job with
  | none => (some (.msg "job missing guest"), t, e)
  | some j =>
    if j.Guest = "" then (some (.msg "job missing guest"), t, e)
    else
      match Context.Guest e j.Guest with
      | (.error err, e) => (some err, t, e)
      | (.ok g, e) => (none, { t with Guest := some g }, e)

end Task

/-- What a call of NextCreateTask or NextWorkTask leaves behind: the Task and the
error it returns, the store and the queue. -/
structure Delivery where
  task : Option Task
  err : Option Error
  etcd : Etcd
  queue : Queue
  deriving DecidableEq, Repr

namespace Client

/-- Client.AddTask; `none` is the nil job. -/
def AddTask (q : Queue) (j : Option Lochness.Job) : (Nat × Option Error) × Queue :=
  match j with
  | none => ((0, some (.msg "missing job")), q)
  | some j =>
    let ts := Tube.work
    let ts := if j.Action = "select-hypervisor" then Tube.create else ts
    tubeSet.Put q ts j.ID

/-- Client.nextTask. -/
def nextTask (e : Etcd) (q : Queue) (ts : Tube) : Delivery :=
  match tubeSet.Reserve q ts with
  | (.error err, q) => ⟨none, some err, e, q⟩
  | (.ok (id, body), q) =>
    let task : Task := { ID := id, JobID := body, Job := none, Guest := none }
    match task.RefreshJob e with
    | (some err, task, e) => ⟨some task, some err, e, q⟩
    | (none, task, e) =>
      match task.RefreshGuest e with
      | (some err, task, e) => ⟨some task, some err, e, q⟩
      | (none, task, e) => ⟨some task, none, e, q⟩

/-- Client.NextCreateTask. -/
def NextCreateTask (e : Etcd) (q : Queue) : Delivery :=
  nextTask e q Tube.create

/-- Client.NextWorkTask. -/
def NextWorkTask (e : Etcd) (q : Queue) : Delivery :=
  nextTask e q Tube.work

/-- What AddJob leaves behind: the Job and the error it returns, the store and the
queue. -/
structure Added where
  job : Option Lochness.Job
  err : Option Error
  etcd : Etcd
  queue : Queue
  deriving DecidableEq, Repr

/-- Client.AddJob; `id` is the uuid NewJob draws. -/
def AddJob (e : Etcd) (q : Queue) (id : String) (guestID action : String) : Added :=
  let job := NewJob id
  let job := { job with Guest := guestID }
  let job := { job with Action := action }
  match job.Save e jobTTL with
  | (some err, e) => ⟨none, some err, e, q⟩
  | (none, e) => ⟨some job, (AddTask q (some job)).1.2, e, (AddTask q (some job)).2⟩

end Client

/-! ## Statements about Save and Refresh, for any of the three entities

An entity is given by its key, its captured version, its marshalling and its
Save and Refresh. -/

/-- Save chooses its write by the captured version: a compare-and-swap on the
entity's key gated on that version when one was captured, else a create-only
write; a compare-and-swap only succeeds on a record of exactly that version, a
create-only write fails when a record exists; and a Save that returns an error
leaves the handle and the stored records as they were. -/
def SaveByVersion {α : Type} (key : α → Key) (version : α → Nat)
    (marshal : α → Except Error Value) (Save : Etcd → α → Outcome α) : Prop :=
  ∀ (e : Etcd) (t : α),
    (∀ v, marshal t = .ok v →
      (version t ≠ 0 →
        (Save e t).err = errOf (e.CompareAndSwap (key t) v 0 "" (version t)).1 ∧
        (Save e t).etcd = (e.CompareAndSwap (key t) v 0 "" (version t)).2) ∧
      (version t = 0 →
        (Save e t).err = errOf (e.Create (key t) v 0).1 ∧
        (Save e t).etcd = (e.Create (key t) v 0).2)) ∧
    (version t ≠ 0 → (Save e t).err = none →
      ∃ n, e.find (key t) = some n ∧ n.ModifiedIndex = version t) ∧
    (version t = 0 → (∃ n, e.find (key t) = some n) →
      (Save e t).err ≠ none ∧
      (e.fault = none → (∃ v, marshal t = .ok v) → (Save e t).err = some .nodeExist)) ∧
    ((Save e t).err ≠ none →
      (Save e t).self = t ∧ (Save e t).etcd.nodes = e.nodes ∧
      (Save e t).etcd.index = e.index)

/-- After a successful Save the captured version is the version of the stored
record, which holds the marshalled entity; a Refresh that returns no error
captures that same version; and a second Save of the same handle, when its
request gets through, succeeds. -/
def SaveCapturesVersion {α : Type} (key : α → Key) (version : α → Nat)
    (marshal : α → Except Error Value) (Save Refresh : Etcd → α → Outcome α) : Prop :=
  ∀ (e : Etcd) (t : α), (Save e t).err = none →
    (∃ n, (Save e t).etcd.find (key t) = some n ∧
      version (Save e t).self = n.ModifiedIndex ∧ marshal t = .ok n.Value) ∧
    version (Save e t).self ≠ 0 ∧
    key (Save e t).self = key t ∧
    ((Refresh (Save e t).etcd (Save e t).self).err = none →
      version (Refresh (Save e t).etcd (Save e t).self).self = version (Save e t).self) ∧
    ((Save e t).etcd.fault = none →
      (Save (Save e t).etcd (Save e t).self).err = none)

/-- A Refresh that returns no error captures the version of the record stored at
the entity's key. -/
def RefreshCaptures {α : Type} (key : α → Key) (version : α → Nat)
    (Refresh : Etcd → α → Outcome α) : Prop :=
  ∀ (e : Etcd) (t : α) (n : Node), e.find (key t) = some n → (Refresh e t).err = none →
    version (Refresh e t).self = n.ModifiedIndex

/-- Optimistic save. `a` and `b` are handles of the same entity (same key) that
hold the version of the record `n` stored at that key, in a store that is
well-formed. If the Save of `a` succeeds, then the next Save of `b` returns an
error, which is error 101 (the conflict) when `b` marshals and the request gets
through; it leaves the record written by `a` in the store and leaves `b` as it
was. If `b` is then refreshed (`refreshed` says what is asked of that Refresh) and
saved again, and both requests get through, that Save succeeds. -/
def OptimisticSave {α : Type} (key : α → Key) (version : α → Nat)
    (marshal : α → Except Error Value) (Save Refresh : Etcd → α → Outcome α)
    (refreshed : Outcome α → Prop) : Prop :=
  ∀ (e : Etcd) (a b : α) (n : Node),
    e.WF → key a = key b → e.find (key a) = some n →
    version a = n.ModifiedIndex → version b = n.ModifiedIndex →
    (Save e a).err = none →
    (Save (Save e a).etcd b).err ≠ none ∧
    ((Save e a).etcd.fault = none → (∃ v, marshal b = .ok v) →
      (Save (Save e a).etcd b).err = some .testFailed) ∧
    (∃ v, marshal a = .ok v ∧
      (Save (Save e a).etcd b).etcd.find (key a) = some ⟨key a, v, e.index + 1, 0⟩) ∧
    (Save (Save e a).etcd b).etcd.nodes = (Save e a).etcd.nodes ∧
    (Save (Save e a).etcd b).self = b ∧
    ((Save (Save e a).etcd b).etcd.fault = none →
      refreshed (Refresh (Save (Save e a).etcd b).etcd b) →
      (Refresh (Save (Save e a).etcd b).etcd b).etcd.fault = none →
      (Save (Refresh (Save (Save e a).etcd b).etcd b).etcd
        (Refresh (Save (Save e a).etcd b).etcd b).self).err = none)

/-- Refresh of an entity that has no record: it returns an error, which is error
100 (key not found) when the request gets through, and leaves the handle and the
stored records as they were. `missing e t` says that the store holds no record of
`t`. -/
def RefreshMissing {α : Type} (missing : Etcd → α → Prop) (Refresh : Etcd → α → Outcome α) :
    Prop :=
  ∀ (e : Etcd) (t : α), missing e t →
    (Refresh e t).err ≠ none ∧
    (e.fault = none → (Refresh e t).err = some .keyNotFound) ∧
    (Refresh e t).self = t ∧
    (Refresh e t).etcd.nodes = e.nodes ∧ (Refresh e t).etcd.index = e.index

instance (e : Etcd) : Decidable e.WF := by
  unfold Etcd.WF
  infer_instance

/-! ## Statements about placement -/

/-- HypervisorID, SubnetID and IP are all empty or all set. -/
def AllOrNone (hypervisorID subnetID : String) (ip : IP) : Prop :=
  (hypervisorID = "" ∧ subnetID = "" ∧ ip = []) ∨
    (hypervisorID ≠ "" ∧ subnetID ≠ "" ∧ ip ≠ [])

/-- The Guest record stored at `key`, when there is one and it decodes, has
HypervisorID, SubnetID and IP all empty or all set. -/
def StoredAllOrNone (e : Etcd) (key : Key) : Prop :=
  ∀ n d, e.find key = some n → guestJSON.Unmarshal n.Value = .ok d →
    AllOrNone d.HypervisorID d.SubnetID d.IP

/-- The Hypervisor has joined the subnet `k`: its subnet map has an entry for it. -/
def Hypervisor.joined (h : Hypervisor) (k : String) : Prop :=
  ∃ br, (k, br) ∈ h.subnets

/-- The subnet `k` can be loaded and reports no available address. -/
def Subnets.exhausted (sn : Subnets) (k : String) : Prop :=
  ∃ s, sn.find k = some s ∧ s.AvailibleAddresses = []

instance (sn : Subnets) : Decidable sn.WF := by
  unfold Subnets.WF
  infer_instance

/-! ## Addresses that have a text form -/

/-- net.IP.To16 on an address of 0, 4 or 16 bytes: a 4-byte address becomes its 16-byte
form, the others are left as they are. -/
def To16 (ip : IP) : IP :=
  if ip.length = 4 then [0, 0, 0, 0, 0, 0, 0, 0, 0, 0, 255, 255] ++ ip else ip

/-- An address net.IP.MarshalText writes: 0, 4 or 16 bytes. -/
def textIP (ip : IP) : Prop :=
  ip.length = 0 ∨ ip.length = 4 ∨ ip.length = 16

/-- A hardware address as net.ParseMAC returns them: 6, 8 or 20 bytes. -/
def parsedMAC (a : HardwareAddr) : Prop :=
  (a.length = 6 ∨ a.length = 8 ∨ a.length = 20) ∧ ∀ x ∈ a, x < 256

instance (ip : IP) : Decidable (textIP ip) := by
  unfold textIP
  infer_instance

instance (a : HardwareAddr) : Decidable (parsedMAC a) := by
  unfold parsedMAC
  infer_instance

/-! ## Hypervisor views and heartbeat (hypervisor.go) -/

/-- What the process reads of its host: the environment variable TEST_HOSTNAME ("" when
it is unset) and the name os.Hostname reports ("" when it fails). -/
structure Host where
  TEST_HOSTNAME : String
  Hostname : String
  deriving DecidableEq, Repr

/-- time.Second: a time.Duration counts nanoseconds. -/
def Second : Nat := 1000000000

/-- The conversion `uint64(d.Seconds())` of a time.Duration `d` that is not negative:
the whole seconds of `d`. The code goes through float64; at long durations (from 2^24
seconds on) the float sum can round up to the next second, which this quotient does not
model. -/
def wholeSeconds (d : Nat) : Nat :=
  d / Second

namespace Hypervisor

/-- Hypervisor.Subnets: the subnet/bridge mappings the handle holds. -/
def Subnets (h : Hypervisor) : List (String × Value) :=
  h.subnets

/-- Hypervisor.Guests: the guest IDs the handle holds. -/
def Guests (h : Hypervisor) : List String :=
  h.guests

/-- Hypervisor.IsAlive. -/
def IsAlive (h : Hypervisor) : Bool :=
  h.alive

/-- Hypervisor.verifyOnHV. The error of os.Hostname is compared with itself and never
returned; the name it reports is then "". -/
def verifyOnHV (host : Host) (h : Hypervisor) : Option Error :=
  let hostname := if host.TEST_HOSTNAME = "" then host.Hostname else host.TEST_HOSTNAME
  if hostname ≠ h.ID then some (.msg "Hypervisor ID does not match hostname") else none

/-- Hypervisor.heartbeatKey. -/
def heartbeatKey (h : Hypervisor) : Key :=
  HypervisorPath ++ filepathJoin [h.ID, "heartbeat"]

/-- Hypervisor.Heartbeat: `ttl` is a time.Duration, `now` is time.Now().String(). -/
def Heartbeat (e : Etcd) (host : Host) (h : Hypervisor) (ttl : Nat) (now : String) :
    Option Error × Etcd :=
  match h.verifyOnHV host with
  | some err => (some err, e)
  | none => (errOf (e.Set h.heartbeatKey (.text now) (wholeSeconds ttl)).1,
      (e.Set h.heartbeatKey (.text now) (wholeSeconds ttl)).2)

end Hypervisor

/-! ## The heartbeat daemon (cmd/heartbeat/main.go) -/

/-- The flags of the daemon, both documented as seconds: "update interval in seconds"
and "heartbeat ttl in seconds". -/
structure Flags where
  interval : Nat
  ttl : Nat
  deriving DecidableEq, Repr

/-- The flags when none is given on the command line: 60 and 2 * 60. -/
def Flags.default : Flags := ⟨60, 2 * 60⟩

/-- The Heartbeat call in each round of the loop of main,
`hv.Heartbeat(time.Duration(*ttl))`: the conversion time.Duration(n) is n nanoseconds. -/
def main.Heartbeat (e : Etcd) (host : Host) (hv : Hypervisor) (flags : Flags) (now : String) :
    Option Error × Etcd :=
  hv.Heartbeat e host flags.ttl now

/-- The pause that ends each round of the loop of main,
`time.Sleep(time.Duration(*interval) * time.Second)`, as a time.Duration. -/
def main.Sleep (flags : Flags) : Nat :=
  flags.interval * Second

/-! ## The lease lock (pkg/lock) -/

namespace Etcd

/-- The store after the removal of the leaf at `key`: the index advances by one. -/
def remove (e : Etcd) (key : Key) : Etcd :=
  { e with
    index := e.index + 1
    nodes := e.nodes.filter (fun n => n.Key ≠ key) }

/-- Client.CompareAndDelete: removes the key only when it exists and matches the given
previous value (if not "") and previous index (if not 0); error 100 when the key is
absent, error 101 when a comparison fails. -/
def CompareAndDelete (e : Etcd) (key : Key) (prevValue : String) (prevIndex : Nat) :
    Except Error Response × Etcd :=
  if prevValue = "" ∧ prevIndex = 0 then (.error .noCondition, e)
  else
    match e.fault with
    | some err => (.error err, e.sent)
    | none =>
      match e.find key with
      | none => (.error .keyNotFound, e.sent)
      | some n =>
        if (prevValue ≠ "" ∧ n.Value ≠ .text prevValue) ∨
            (prevIndex ≠ 0 ∧ n.ModifiedIndex ≠ prevIndex) then
          (.error .testFailed, e.sent)
        else (.ok ⟨some ⟨key, .text "", e.index + 1, 0⟩, e.index + 1⟩, (e.remove key).sent)

/-- The store once the lease of `key` has run out: a leaf that was written with a TTL
is removed by the store itself; a leaf without TTL stays. -/
def expire (e : Etcd) (key : Key) : Etcd :=
  match e.find key with
  | none => e
  | some n => if n.TTL ≠ 0 then e.remove key else e

end Etcd

/-- Modelled from the spec: the Lock handle (pkg/lock/lock.go is not among the sources),
"a Lock handle capturing name, value, and the store's write-version for that key".
`held` is false in the zero-value Lock and once the handle has given the lock up. -/
structure Lock where
  key : Key
  value : String
  index : Nat
  held : Bool
  deriving DecidableEq, Repr

/-- Modelled from the spec: the zero-value Lock of the tests, `&Lock{}`. -/
def Lock.zero : Lock := ⟨[], "", 0, false⟩

/-- Modelled from the spec: Acquire with wait = false, "an atomic create-if-absent write
of value at key name with expiry ttlSeconds. If the key already exists and wait=false:
fails with AlreadyHeld. On success, returns a Lock handle capturing name, value, and
the store's write-version for that key." Other errors of the store are passed on. -/
def Acquire (e : Etcd) (name : Key) (value : String) (ttl : Nat) : Except Error Lock × Etcd :=
  match e.Create name (.text value) ttl with
  | (.ok resp, e) => (.ok ⟨name, value, resp.EtcdIndex, true⟩, e)
  | (.error .nodeExist, e) => (.error .AlreadyHeld, e)
  | (.error err, e) => (.error err, e)

/-- Modelled from the spec: Lock.Release, "deletes the key gated on the captured version,
or fails KeyNotFound/LockNotHeld": LockNotHeld "if called on a Lock that was never
successfully acquired or was already released", KeyNotFound "if the lease already expired
(key vanished)"; the tests have LockNotHeld after KeyNotFound. Other errors of the store
are passed on and leave the handle as it is. -/
def Lock.Release (e : Etcd) (l : Lock) : Outcome Lock :=
  if l.held = false then ⟨some .ErrLockNotHeld, l, e⟩
  else
    match e.CompareAndDelete l.key "" l.index with
    | (.ok _, e) => ⟨none, { l with held := false }, e⟩
    | (.error .keyNotFound, e) => ⟨some .ErrKeyNotFound, { l with held := false }, e⟩
    | (.error err, e) => ⟨some err, l, e⟩

/-- A run of Acquire calls (wait = false) on one name, one after the other, each with
its value and TTL: the results in order, and the store as it is left. -/
def acquireRun (name : Key) : Etcd → List (String × Nat) → List (Except Error Lock) × Etcd
  | e, [] => ([], e)
  | e, (v, ttl) :: rest =>
    ((Acquire e name v ttl).1 :: (acquireRun name (Acquire e name v ttl).2 rest).1,
      (acquireRun name (Acquire e name v ttl).2 rest).2)

/-! ## Concrete inputs -/

/-- A store that holds nothing. -/
def emptyStore : Etcd := ⟨0, [], []⟩

/-- A Guest just made by NewGuest. -/
def guestG1 : Guest := Context.NewGuest "g1"

/-- A Network just made by NewNetwork. -/
def networkN1 : Network := Context.NewNetwork "n1"

/-- A Hypervisor just made by blankHypervisor. -/
def hypervisorH1 : Hypervisor := Context.blankHypervisor "h1" ""

/-- The store after the first Save of `guestG1`. -/
def storeG1 : Etcd := (Guest.Save emptyStore guestG1).etcd

/-- The handle `guestG1` after its first Save: it holds version 1. -/
def savedG1 : Guest := (Guest.Save emptyStore guestG1).self

/-- A store with the Network "n1", which lists the subnets "s1" and "s2" (written in
the other order). -/
def storeN1 : Etcd :=
  ⟨3,
    [⟨["lochness", "networks", "n1", "subnets", "s1"], .text "", 3, 0⟩,
      ⟨["lochness", "networks", "n1", "subnets", "s2"], .text "", 2, 0⟩,
      ⟨["lochness", "networks", "n1", "metadata"],
        .object [("id", .str "n1"), ("metadata", .map [])], 1, 0⟩],
    []⟩

/-- A Hypervisor that joined "s2" and "s1" (its map iterates "s2" first). -/
def hypervisorH2 : Hypervisor :=
  { Context.blankHypervisor "h2" "" with
    subnets := [("s2", .text "br2"), ("s1", .text "br1")] }

/-- An unplaced Guest that asks for the Network "n1". -/
def guestG2 : Guest := { Context.NewGuest "g2" with NetworkID := "n1" }

/-- The subnet "s1" has no address left, "s2" has two. -/
def subnetsFull1 : Subnets :=
  ⟨[⟨"s1", [], [([10, 0, 1, 1], "g0")]⟩, ⟨"s2", [[10, 0, 2, 1], [10, 0, 2, 2]], []⟩], []⟩

/-- The subnet "s1" has no record, "s2" has two addresses. -/
def subnetsNoS1 : Subnets :=
  ⟨[⟨"s2", [[10, 0, 2, 1], [10, 0, 2, 2]], []⟩], []⟩

/-- Both subnets have no address left. -/
def subnetsFull : Subnets :=
  ⟨[⟨"s1", [], [([10, 0, 1, 1], "g0")]⟩, ⟨"s2", [], [([10, 0, 2, 1], "g1")]⟩], []⟩

/-- A queue that holds nothing. -/
def emptyQueue : Queue := ⟨0, [], [], [], []⟩

/-- A Job that asks for the placement of the Guest "g1". -/
def jobSelect : Job := ⟨"j1", "select-hypervisor", "g1"⟩

/-- A Job that asks for the reboot of the Guest "g1". -/
def jobReboot : Job := ⟨"j2", "reboot", "g1"⟩

/-- A queue whose next request fails. -/
def downQueue : Queue := ⟨0, [], [], [], [some .transport]⟩

/-- A store whose next request fails. -/
def downStore : Etcd := ⟨0, [], [some .transport]⟩

/-- A queue with one ready delivery in the work tube, whose Job has no record. -/
def queueOrphan : Queue := ⟨1, [], [(1, "j9")], [], []⟩

/-- A host named "h1" whose environment does not set TEST_HOSTNAME. -/
def hostH1 : Host := ⟨"", "h1"⟩

/-- The store after the first Save of `hypervisorH1`, the assignment of the guest "g1"
to it, and a heartbeat that lasts 60 seconds. -/
def storeH1 : Etcd :=
  (hypervisorH1.Heartbeat
    ((Hypervisor.Save emptyStore hypervisorH1).etcd.Set
      (hypervisorH1.guestKey (some guestG1)) (.text "") 0).2
    hostH1 (60 * Second) "t0").2

/-- The handle that Context.Hypervisor returns for "h1" on `storeH1`. -/
def refreshedH1 : Hypervisor := (Hypervisor.Refresh storeH1 hypervisorH1).self

/-- The store `storeH1` once the lease of the heartbeat has run out. -/
def storeH1Expired : Etcd := storeH1.expire hypervisorH1.heartbeatKey

/-- A store in which the Hypervisor "h9" has joined the subnet "s1" and has no record. -/
def storeJoinedH9 : Etcd :=
  ⟨1, [⟨["lochness", "hypervisors", "h9", "subnets", "s1"], .text "br0", 1, 0⟩], []⟩

/-- The store after the first Save of `hypervisorH1`. -/
def storeSavedH1 : Etcd := (Hypervisor.Save emptyStore hypervisorH1).etcd

/-- The handle of "h1" as Refresh loads it from `storeSavedH1`: it holds version 1. -/
def loadedH1 : Hypervisor := (Hypervisor.Refresh storeSavedH1 hypervisorH1).self

/-- The handle `loadedH1` with a hardware address of seven bytes. -/
def oddH1 : Hypervisor := { loadedH1 with MAC := [1, 2, 3, 4, 5, 6, 7] }

/-- The handle `loadedH1` with a metadata entry. -/
def taggedH1 : Hypervisor := { loadedH1 with Metadata := [("rack", "r1")] }

/-- The name of a lock. -/
def lockL1 : Key := ["some-dir", "l1"]

/-- The store after Acquire of the lock `lockL1` with value "v" for 60 seconds. -/
def storeL1 : Etcd := (Acquire emptyStore lockL1 "v" 60).2

/-- The handle that this Acquire returns. -/
def heldL1 : Lock := ⟨lockL1, "v", 1, true⟩


/-! # Properties -/

/-! ## The store -/

namespace Etcd

theorem find_sent (e : Etcd) (k : Key) : e.sent.find k = e.find k := rfl

theorem find_write_self (e : Etcd) (k : Key) (v : Value) (ttl : Nat) :
    (e.write k v ttl).find k = some ⟨k, v, e.index + 1, ttl⟩ := by
  simp [find, write]

theorem find_filter_ne (l : List Node) (k k' : Key) (h : k' ≠ k) :
    (l.filter (fun n => n.Key ≠ k)).find? (fun n => n.Key = k') =
      l.find? (fun n => n.Key = k') := by
  induction l with
  | nil => rfl
  | cons a l ih =>
    rw [List.filter_cons]
    by_cases ha : a.Key = k
    · have hb : ¬ a.Key = k' := fun h' => h (h'.symm.trans ha)
      rw [if_neg (by simpa using ha), List.find?_cons_of_neg _ (by simpa using hb)]
      exact ih
    · rw [if_pos (by simpa using ha)]
      by_cases hb : a.Key = k'
      · rw [List.find?_cons_of_pos _ (by simpa using hb),
          List.find?_cons_of_pos _ (by simpa using hb)]
      · rw [List.find?_cons_of_neg _ (by simpa using hb),
          List.find?_cons_of_neg _ (by simpa using hb)]
        exact ih

theorem find_write_ne (e : Etcd) (k k' : Key) (v : Value) (ttl : Nat) (h : k' ≠ k) :
    (e.write k v ttl).find k' = e.find k' := by
  have hk : ¬ k = k' := fun h' => h h'.symm
  unfold find write
  simp only
  rw [List.find?_cons_of_neg _ (by simpa using hk)]
  exact find_filter_ne _ _ _ h

theorem find_mem (e : Etcd) (k : Key) (n : Node) (h : e.find k = some n) : n ∈ e.nodes :=
  List.mem_of_find?_eq_some h

theorem find_key (e : Etcd) (k : Key) (n : Node) (h : e.find k = some n) : n.Key = k := by
  have := List.find?_some h
  simpa using this

theorem WF.find {e : Etcd} (hw : e.WF) {k : Key} {n : Node} (h : e.find k = some n) :
    0 < n.ModifiedIndex ∧ n.ModifiedIndex ≤ e.index :=
  hw n (find_mem e k n h)

theorem WF.sent {e : Etcd} (hw : e.WF) : e.sent.WF := hw

theorem WF.write {e : Etcd} (hw : e.WF) (k : Key) (v : Value) (ttl : Nat) :
    (e.write k v ttl).WF := by
  intro n hn
  simp only [Etcd.write, List.mem_cons, List.mem_filter] at hn
  rcases hn with rfl | ⟨hn, _⟩
  · exact ⟨Nat.succ_pos _, le_refl _⟩
  · exact ⟨(hw n hn).1, Nat.le_succ_of_le (hw n hn).2⟩

theorem fault_cases (e : Etcd) : e.fault = none ∨ ∃ err, e.fault = some err := by
  cases e.fault with
  | none => exact Or.inl rfl
  | some err => exact Or.inr ⟨err, rfl⟩

theorem find_cases (e : Etcd) (k : Key) : e.find k = none ∨ ∃ n, e.find k = some n := by
  cases e.find k with
  | none => exact Or.inl rfl
  | some n => exact Or.inr ⟨n, rfl⟩

theorem CompareAndSwap_eq (e : Etcd) (k : Key) (v : Value) (ttl mi : Nat) (hmi : mi ≠ 0) :
    e.CompareAndSwap k v ttl "" mi =
      if e.accepts k mi then (.ok (e.written k v ttl), (e.write k v ttl).sent)
      else (.error (e.refusal k mi), e.sent) := by
  unfold CompareAndSwap accepts refusal
  rcases e.fault_cases with hf | ⟨err, hf⟩
  · rcases e.find_cases k with hk | ⟨n, hk⟩
    · simp [hmi, hf, hk]
    · by_cases hn : n.ModifiedIndex = mi
      · simp [hmi, hf, hk, hn]
      · simp [hmi, hf, hk, hn]
  · simp [hmi, hf]

theorem Create_eq (e : Etcd) (k : Key) (v : Value) (ttl : Nat) :
    e.Create k v ttl =
      if e.accepts k 0 then (.ok (e.written k v ttl), (e.write k v ttl).sent)
      else (.error (e.refusal k 0), e.sent) := by
  unfold Create accepts refusal
  rcases e.fault_cases with hf | ⟨err, hf⟩
  · rcases e.find_cases k with hk | ⟨n, hk⟩
    · simp [hf, hk]
    · simp [hf, hk]
  · simp [hf]

end Etcd

/-! ## Save -/

theorem commit_marshal_error {α : Type} (setIndex : α → Nat → α) (e : Etcd) (t : α)
    (key : Key) (mi : Nat) (err : Error) :
    commit setIndex e t key mi (.error err) = ⟨some err, t, e⟩ := rfl

theorem commit_accept {α : Type} (setIndex : α → Nat → α) (e : Etcd) (t : α) (key : Key)
    (mi : Nat) (v : Value) (h : e.accepts key mi) :
    commit setIndex e t key mi (.ok v) =
      ⟨none, setIndex t (e.index + 1), (e.write key v 0).sent⟩ := by
  unfold commit
  by_cases hmi : mi = 0
  · subst hmi
    simp [Etcd.Create_eq, h, Etcd.written]
  · simp [hmi, Etcd.CompareAndSwap_eq _ _ _ _ _ hmi, h, Etcd.written]

theorem commit_refuse {α : Type} (setIndex : α → Nat → α) (e : Etcd) (t : α) (key : Key)
    (mi : Nat) (v : Value) (h : ¬ e.accepts key mi) :
    commit setIndex e t key mi (.ok v) = ⟨some (e.refusal key mi), t, e.sent⟩ := by
  unfold commit
  by_cases hmi : mi = 0
  · subst hmi
    simp [Etcd.Create_eq, h]
  · simp [hmi, Etcd.CompareAndSwap_eq _ _ _ _ _ hmi, h]

theorem Guest_Save_eq (e : Etcd) (t : Guest) :
    Guest.Save e t =
      commit (fun t i => { t with modifiedIndex := i }) e t t.key t.modifiedIndex
        t.MarshalJSON := rfl

theorem Hypervisor_Save_eq (e : Etcd) (h : Hypervisor) :
    Hypervisor.Save e h =
      commit (fun h i => { h with modifiedIndex := i }) e h h.key h.modifiedIndex
        h.MarshalJSON := rfl

theorem Network_Save_eq (e : Etcd) (t : Network) :
    Network.Save e t =
      commit (fun t i => { t with modifiedIndex := i }) e t t.key t.modifiedIndex
        t.Marshal := rfl

theorem commit_ok_eq {α : Type} (setIndex : α → Nat → α) (e : Etcd) (t : α) (key : Key)
    (mi : Nat) (v : Value) :
    (commit setIndex e t key mi (.ok v)).err =
        errOf (if mi ≠ 0 then e.CompareAndSwap key v 0 "" mi else e.Create key v 0).1 ∧
      (commit setIndex e t key mi (.ok v)).etcd =
        (if mi ≠ 0 then e.CompareAndSwap key v 0 "" mi else e.Create key v 0).2 := by
  simp only [commit]
  generalize (if mi ≠ 0 then e.CompareAndSwap key v 0 "" mi else e.Create key v 0) = r
  rcases r with ⟨_ | _, _⟩ <;> exact ⟨rfl, rfl⟩

theorem Etcd.accepts_find {e : Etcd} {key : Key} {mi : Nat} (h : e.accepts key mi)
    (hmi : mi ≠ 0) : ∃ n, e.find key = some n ∧ n.ModifiedIndex = mi := by
  rcases h.2 with ⟨_, h2⟩ | ⟨h0, _⟩
  · rcases e.find_cases key with hk | ⟨n, hk⟩
    · simp [hk] at h2
    · exact ⟨n, hk, by simpa [hk] using h2⟩
  · exact absurd h0 hmi

theorem Etcd.accepts_of_find {e : Etcd} {key : Key} {n : Node} (hf : e.fault = none)
    (hk : e.find key = some n) (hn : n.ModifiedIndex ≠ 0) : e.accepts key n.ModifiedIndex :=
  ⟨hf, Or.inl ⟨hn, by simp [hk]⟩⟩

theorem commit_byVersion {α : Type} (key : α → Key) (version : α → Nat)
    (marshal : α → Except Error Value) (setIndex : α → Nat → α) :
    SaveByVersion key version marshal
      (fun e t => commit setIndex e t (key t) (version t) (marshal t)) := by
  intro e t
  refine ⟨?_, ?_, ?_, ?_⟩
  · intro v hv
    have h := commit_ok_eq setIndex e t (key t) (version t) v
    constructor
    · intro hmi
      simpa [hv, hmi] using h
    · intro hmi
      simpa [hv, hmi] using h
  · intro hmi hok
    simp only at hok
    cases hm : marshal t with
    | error err => rw [hm] at hok; simp [commit] at hok
    | ok v =>
      rw [hm] at hok
      by_cases ha : e.accepts (key t) (version t)
      · exact Etcd.accepts_find ha hmi
      · rw [commit_refuse _ _ _ _ _ _ ha] at hok
        simp at hok
  · intro hmi ⟨n, hn⟩
    have ha : ¬ e.accepts (key t) (version t) := by
      rintro ⟨_, ⟨h0, _⟩ | ⟨_, h1⟩⟩
      · exact h0 hmi
      · simp [hn] at h1
    constructor
    · simp only
      cases hm : marshal t with
      | error err => simp [commit]
      | ok v => rw [commit_refuse _ _ _ _ _ _ ha]; simp
    · rintro hf ⟨v, hv⟩
      simp only
      rw [hv, commit_refuse _ _ _ _ _ _ ha]
      simp [Etcd.refusal, hf, hn, hmi]
  · intro herr
    simp only at herr ⊢
    cases hm : marshal t with
    | error err => exact ⟨rfl, rfl, rfl⟩
    | ok v =>
      rw [hm] at herr
      by_cases ha : e.accepts (key t) (version t)
      · rw [commit_accept _ _ _ _ _ _ ha] at herr
        simp at herr
      · rw [commit_refuse _ _ _ _ _ _ ha]
        exact ⟨rfl, rfl, rfl⟩

/-! ## Decoding what was encoded -/

theorem encodeIP_decode (ip : IP) (f : JField) (h : encodeIP ip = .ok f) :
    ∃ ip', decodeIP (some f) = .ok ip' ∧ ∃ f', encodeIP ip' = .ok f' := by
  unfold encodeIP at h
  by_cases h0 : ip.length = 0
  · rw [if_pos h0] at h
    cases h
    exact ⟨[], by simp [decodeIP], .str "", by simp [encodeIP]⟩
  · rw [if_neg h0] at h
    by_cases h4 : ip.length = 4
    · rw [if_pos h4] at h
      cases h
      exact ⟨[0, 0, 0, 0, 0, 0, 0, 0, 0, 0, 255, 255] ++ ip, rfl,
        .ip ([0, 0, 0, 0, 0, 0, 0, 0, 0, 0, 255, 255] ++ ip), by simp [encodeIP, h4]⟩
    · rw [if_neg h4] at h
      by_cases h16 : ip.length = 16
      · rw [if_pos h16] at h
        cases h
        exact ⟨ip, rfl, .ip ip, by simp [encodeIP, h16]⟩
      · rw [if_neg h16] at h
        cases h

theorem guestJSON_Unmarshal_Marshal (d : guestJSON) (v : Value) (h : d.Marshal = .ok v) :
    ∃ d', guestJSON.Unmarshal v = .ok d' ∧ d'.ID = d.ID ∧ d'.HypervisorID = d.HypervisorID ∧
      d'.SubnetID = d.SubnetID ∧ ∃ f, encodeIP d'.IP = .ok f := by
  unfold guestJSON.Marshal at h
  cases hip : encodeIP d.IP with
  | error err => simp [hip] at h
  | ok f =>
    simp only [hip, Except.ok.injEq] at h
    subst h
    obtain ⟨ip', h1, h2⟩ := encodeIP_decode d.IP f hip
    refine ⟨⟨d.ID, d.Metadata, d.Type_, d.FlavorID, d.HypervisorID, d.NetworkID, d.SubnetID,
      d.FWGroupID, d.MAC, ip'⟩, ?_, rfl, rfl, rfl, h2⟩
    simp [guestJSON.Unmarshal, member, decodeString, decodeMap, h1]

theorem hypervisorJSON_Unmarshal_Marshal (d : hypervisorJSON) (v : Value)
    (h : d.Marshal = .ok v) :
    ∃ d', hypervisorJSON.Unmarshal v = .ok d' ∧ d'.ID = d.ID ∧
      (∃ f, encodeIP d'.IP = .ok f) ∧ (∃ f, encodeIP d'.Netmask = .ok f) ∧
      ∃ f, encodeIP d'.Gateway = .ok f := by
  unfold hypervisorJSON.Marshal at h
  cases hip : encodeIP d.IP with
  | error err => simp [hip] at h
  | ok f1 =>
    cases hnm : encodeIP d.Netmask with
    | error err => simp [hip, hnm] at h
    | ok f2 =>
      cases hgw : encodeIP d.Gateway with
      | error err => simp [hip, hnm, hgw] at h
      | ok f3 =>
        simp only [hip, hnm, hgw, Except.ok.injEq] at h
        subst h
        obtain ⟨ip1, h1, g1⟩ := encodeIP_decode _ _ hip
        obtain ⟨ip2, h2, g2⟩ := encodeIP_decode _ _ hnm
        obtain ⟨ip3, h3, g3⟩ := encodeIP_decode _ _ hgw
        refine ⟨⟨d.ID, d.Metadata, ip1, ip2, ip3, d.MAC, d.TotalResources,
          d.AvailableResources⟩, ?_, rfl, g1, g2, g3⟩
        simp [hypervisorJSON.Unmarshal, member, decodeString, decodeMap, decodeResources,
          h1, h2, h3]

/-! ## Refresh -/

theorem Guest.UnmarshalJSON_modifiedIndex (t : Guest) (v : Value) :
    (t.UnmarshalJSON v).2.modifiedIndex = t.modifiedIndex := by
  unfold Guest.UnmarshalJSON
  cases guestJSON.Unmarshal v with
  | error err => rfl
  | ok data =>
    simp only
    cases ParseMAC data.MAC <;> rfl

theorem Guest_Refresh_fault (e : Etcd) (t : Guest) (err : Error) (hf : e.fault = some err) :
    Guest.Refresh e t = ⟨some err, t, e.sent⟩ := by
  simp [Guest.Refresh, Etcd.Get, hf]

theorem Guest_Refresh_absent (e : Etcd) (t : Guest) (hf : e.fault = none)
    (hk : e.find t.key = none) : Guest.Refresh e t = ⟨some .keyNotFound, t, e.sent⟩ := by
  simp [Guest.Refresh, Etcd.Get, hf, hk]

theorem Guest_Refresh_found (e : Etcd) (t : Guest) (n : Node) (hf : e.fault = none)
    (hk : e.find t.key = some n) :
    Guest.Refresh e t =
      ⟨(Guest.UnmarshalJSON { t with modifiedIndex := n.ModifiedIndex } n.Value).1,
        (Guest.UnmarshalJSON { t with modifiedIndex := n.ModifiedIndex } n.Value).2, e.sent⟩ := by
  simp [Guest.Refresh, Etcd.Get, hf, hk, Guest.fromResponse]

theorem Network.Unmarshal_modifiedIndex (t : Network) (v : Value) :
    (t.Unmarshal v).2.modifiedIndex = t.modifiedIndex := by
  unfold Network.Unmarshal
  cases v with
  | text s => rfl
  | object m =>
    simp only
    cases member "id" m with
    | none => cases member "metadata" m with
      | none => rfl
      | some f => cases f <;> rfl
    | some g => cases member "metadata" m with
      | none => cases g <;> rfl
      | some f => cases g <;> cases f <;> rfl

theorem Network_Refresh_fault (e : Etcd) (t : Network) (err : Error) (hf : e.fault = some err) :
    Network.Refresh e t = ⟨some err, t, e.sent⟩ := by
  simp [Network.Refresh, Etcd.Get, hf]

theorem Network_Refresh_absent (e : Etcd) (t : Network) (hf : e.fault = none)
    (hk : e.find t.key = none) : Network.Refresh e t = ⟨some .keyNotFound, t, e.sent⟩ := by
  simp [Network.Refresh, Etcd.Get, hf, hk]

theorem Network_Refresh_found (e : Etcd) (t : Network) (n : Node) (hf : e.fault = none)
    (hk : e.find t.key = some n) :
    Network.Refresh e t =
      ⟨(Network.Unmarshal { t with modifiedIndex := n.ModifiedIndex } n.Value).1,
        (Network.Unmarshal { t with modifiedIndex := n.ModifiedIndex } n.Value).2, e.sent⟩ := by
  simp [Network.Refresh, Etcd.Get, hf, hk, Network.fromResponse]

/-! ## Hypervisor.Refresh -/

theorem filepathBase_concat (dir : Key) (c : String) : filepathBase (dir ++ [c]) = c := by
  simp [filepathBase]

theorem Etcd.child_Key (e : Etcd) (dir : Key) (c : String) :
    (e.child dir c).Key = dir ++ [c] := by
  unfold Etcd.child
  rcases e.find_cases (dir ++ [c]) with hk | ⟨n, hk⟩
  · simp [hk]
  · simp [hk, e.find_key _ _ hk]

theorem Etcd.mem_names (e : Etcd) (dir : Key) (c : String) (n : Node)
    (hk : e.find (dir ++ [c]) = some n) : c ∈ e.names dir := by
  unfold Etcd.names
  rw [List.mem_dedup, List.mem_filterMap]
  refine ⟨n, e.find_mem _ _ hk, ?_⟩
  have hkey := e.find_key _ _ hk
  simp [hkey]

theorem Hypervisor.key_eq (h : Hypervisor) :
    h.key = (HypervisorPath ++ filepathJoin [h.ID]) ++ ["metadata"] := by
  unfold Hypervisor.key filepathJoin
  by_cases hid : h.ID = ""
  · simp [hid, List.filter]
  · simp [hid, List.filter]

theorem Hypervisor.refreshNode_other (h : Hypervisor) (d : DirNode)
    (hd : filepathBase d.Key ≠ "metadata") :
    (Hypervisor.refreshNode h d).1 = none ∧
      (Hypervisor.refreshNode h d).2.modifiedIndex = h.modifiedIndex ∧
      (Hypervisor.refreshNode h d).2.ID = h.ID ∧
      (Hypervisor.refreshNode h d).2.IP = h.IP ∧
      (Hypervisor.refreshNode h d).2.Netmask = h.Netmask ∧
      (Hypervisor.refreshNode h d).2.Gateway = h.Gateway := by
  unfold Hypervisor.refreshNode
  simp only [hd, if_false]
  split_ifs <;> exact ⟨rfl, rfl, rfl, rfl, rfl, rfl⟩

theorem Hypervisor.refreshNode_metadata (h : Hypervisor) (d : DirNode)
    (hd : filepathBase d.Key = "metadata") (hok : (Hypervisor.refreshNode h d).1 = none) :
    ∃ data, hypervisorJSON.Unmarshal d.Value = .ok data ∧
      (Hypervisor.refreshNode h d).2.modifiedIndex = d.ModifiedIndex ∧
      (Hypervisor.refreshNode h d).2.ID = data.ID ∧
      (Hypervisor.refreshNode h d).2.IP = data.IP ∧
      (Hypervisor.refreshNode h d).2.Netmask = data.Netmask ∧
      (Hypervisor.refreshNode h d).2.Gateway = data.Gateway := by
  unfold Hypervisor.refreshNode at hok ⊢
  simp only [hd, if_true] at hok ⊢
  unfold Hypervisor.UnmarshalJSON at hok ⊢
  cases hu : hypervisorJSON.Unmarshal d.Value with
  | error err => simp [hu] at hok
  | ok data =>
    refine ⟨data, rfl, ?_⟩
    simp only [hu] at hok ⊢
    by_cases hm : data.MAC = ""
    · simp [hm]
    · simp only [ne_eq, hm, not_false_eq_true, if_true] at hok ⊢
      cases hp : ParseMAC data.MAC with
      | error err => simp [hp] at hok
      | ok a => simp

theorem Hypervisor.refreshNodes_cons_ok (h : Hypervisor) (d : DirNode) (rest : List DirNode)
    (hd : (Hypervisor.refreshNode h d).1 = none) :
    Hypervisor.refreshNodes h (d :: rest) =
      Hypervisor.refreshNodes (Hypervisor.refreshNode h d).2 rest := by
  rw [Hypervisor.refreshNodes]
  rcases hr : Hypervisor.refreshNode h d with ⟨_ | err, h1⟩
  · rfl
  · rw [hr] at hd
    cases hd

theorem Hypervisor.refreshNodes_cons_err (h : Hypervisor) (d : DirNode) (rest : List DirNode)
    (hd : (Hypervisor.refreshNode h d).1 ≠ none) :
    (Hypervisor.refreshNodes h (d :: rest)).1 ≠ none := by
  rw [Hypervisor.refreshNodes]
  rcases hr : Hypervisor.refreshNode h d with ⟨_ | err, h1⟩
  · rw [hr] at hd
    exact absurd rfl hd
  · simp

theorem Hypervisor.refreshNodes_spec (v : Value) (m : Nat) (nodes : List DirNode)
    (hall : ∀ d ∈ nodes, filepathBase d.Key = "metadata" → d.Value = v ∧ d.ModifiedIndex = m)
    (h : Hypervisor) (hok : (Hypervisor.refreshNodes h nodes).1 = none) :
    ((∃ d ∈ nodes, filepathBase d.Key = "metadata") →
      ∃ data, hypervisorJSON.Unmarshal v = .ok data ∧
        (Hypervisor.refreshNodes h nodes).2.modifiedIndex = m ∧
        (Hypervisor.refreshNodes h nodes).2.ID = data.ID ∧
        (Hypervisor.refreshNodes h nodes).2.IP = data.IP ∧
        (Hypervisor.refreshNodes h nodes).2.Netmask = data.Netmask ∧
        (Hypervisor.refreshNodes h nodes).2.Gateway = data.Gateway) ∧
    ((¬ ∃ d ∈ nodes, filepathBase d.Key = "metadata") →
      (Hypervisor.refreshNodes h nodes).2.modifiedIndex = h.modifiedIndex ∧
        (Hypervisor.refreshNodes h nodes).2.ID = h.ID ∧
        (Hypervisor.refreshNodes h nodes).2.IP = h.IP ∧
        (Hypervisor.refreshNodes h nodes).2.Netmask = h.Netmask ∧
        (Hypervisor.refreshNodes h nodes).2.Gateway = h.Gateway) := by
  induction nodes generalizing h with
  | nil =>
    refine ⟨?_, fun _ => ⟨rfl, rfl, rfl, rfl, rfl⟩⟩
    rintro ⟨d, hd, _⟩
    cases hd
  | cons d rest ih =>
    have hall' : ∀ x ∈ rest, filepathBase x.Key = "metadata" → x.Value = v ∧ x.ModifiedIndex = m :=
      fun x hx => hall x (List.mem_cons_of_mem _ hx)
    have hd1 : (Hypervisor.refreshNode h d).1 = none := by
      by_contra hne
      exact Hypervisor.refreshNodes_cons_err h d rest hne hok
    rw [Hypervisor.refreshNodes_cons_ok h d rest hd1] at hok ⊢
    obtain ⟨ih1, ih2⟩ := ih hall' _ hok
    by_cases hb : filepathBase d.Key = "metadata"
    · obtain ⟨data, hu, g1, g2, g3, g4, g5⟩ := Hypervisor.refreshNode_metadata h d hb hd1
      obtain ⟨hv, hm⟩ := hall d (List.mem_cons_self _ _) hb
      rw [hv] at hu
      rw [hm] at g1
      refine ⟨fun _ => ?_, fun hno => absurd ⟨d, List.mem_cons_self _ _, hb⟩ hno⟩
      by_cases hrest : ∃ x ∈ rest, filepathBase x.Key = "metadata"
      · exact ih1 hrest
      · obtain ⟨k1, k2, k3, k4, k5⟩ := ih2 hrest
        exact ⟨data, hu, k1.trans g1, k2.trans g2, k3.trans g3, k4.trans g4, k5.trans g5⟩
    · obtain ⟨_, g1, g2, g3, g4, g5⟩ := Hypervisor.refreshNode_other h d hb
      constructor
      · rintro ⟨x, hx, hxb⟩
        rcases List.mem_cons.mp hx with rfl | hx'
        · exact absurd hxb hb
        · exact ih1 ⟨x, hx', hxb⟩
      · intro hno
        have hrest : ¬ ∃ x ∈ rest, filepathBase x.Key = "metadata" := by
          rintro ⟨x, hx, hxb⟩
          exact hno ⟨x, List.mem_cons_of_mem _ hx, hxb⟩
        obtain ⟨k1, k2, k3, k4, k5⟩ := ih2 hrest
        exact ⟨k1.trans g1, k2.trans g2, k3.trans g3, k4.trans g4, k5.trans g5⟩

theorem Hypervisor_Refresh_fault (e : Etcd) (h : Hypervisor) (err : Error)
    (hf : e.fault = some err) : Hypervisor.Refresh e h = ⟨some err, h, e.sent⟩ := by
  simp [Hypervisor.Refresh, Etcd.GetDir, hf]

theorem Hypervisor_Refresh_absent (e : Etcd) (h : Hypervisor) (hf : e.fault = none)
    (h1 : e.find (HypervisorPath ++ filepathJoin [h.ID]) = none)
    (h2 : e.names (HypervisorPath ++ filepathJoin [h.ID]) = []) :
    Hypervisor.Refresh e h = ⟨some .keyNotFound, h, e.sent⟩ := by
  simp [Hypervisor.Refresh, Etcd.GetDir, hf, h1, h2]

theorem Etcd.GetDir_found (e : Etcd) (dir : Key) (sorted : Bool) (c : String) (n : Node)
    (hf : e.fault = none) (hk : e.find (dir ++ [c]) = some n) :
    e.GetDir dir sorted = (.ok ((e.listing dir sorted).map (e.dirNode dir sorted)), e.sent) := by
  have hmem := e.mem_names _ _ _ hk
  obtain ⟨c', cs, hcs⟩ := List.exists_cons_of_ne_nil (List.ne_nil_of_mem hmem)
  simp [Etcd.GetDir, hf, hcs]

theorem Etcd.dirNode_base (e : Etcd) (dir : Key) (sorted : Bool) (c : String) :
    filepathBase (e.dirNode dir sorted c).Key = c := by
  simp only [Etcd.dirNode, Etcd.child_Key, filepathBase_concat]

theorem Etcd.dirNode_found (e : Etcd) (dir : Key) (sorted : Bool) (c : String) (n : Node)
    (hk : e.find (dir ++ [c]) = some n) :
    (e.dirNode dir sorted c).Value = n.Value ∧
      (e.dirNode dir sorted c).ModifiedIndex = n.ModifiedIndex := by
  simp only [Etcd.dirNode, Etcd.child, hk, Option.getD_some, and_self]

/-- A Hypervisor whose record exists is refreshed from that record: when Refresh
returns no error, the version, the ID and the addresses are those of the record. -/
theorem Hypervisor_Refresh_found (e : Etcd) (h : Hypervisor) (n : Node) (hf : e.fault = none)
    (hk : e.find h.key = some n) (hok : (Hypervisor.Refresh e h).err = none) :
    (Hypervisor.Refresh e h).etcd = e.sent ∧
    ∃ data, hypervisorJSON.Unmarshal n.Value = .ok data ∧
      (Hypervisor.Refresh e h).self.modifiedIndex = n.ModifiedIndex ∧
      (Hypervisor.Refresh e h).self.ID = data.ID ∧
      (Hypervisor.Refresh e h).self.IP = data.IP ∧
      (Hypervisor.Refresh e h).self.Netmask = data.Netmask ∧
      (Hypervisor.Refresh e h).self.Gateway = data.Gateway := by
  rw [Hypervisor.key_eq] at hk
  unfold Hypervisor.Refresh at hok ⊢
  generalize HypervisorPath ++ filepathJoin [h.ID] = dir at hk hok ⊢
  rw [e.GetDir_found dir false "metadata" n hf hk] at hok ⊢
  refine ⟨rfl, ?_⟩
  simp only at hok ⊢
  have hall : ∀ d ∈ (e.listing dir false).map (e.dirNode dir false),
      filepathBase d.Key = "metadata" → d.Value = n.Value ∧ d.ModifiedIndex = n.ModifiedIndex := by
    intro d hd hb
    obtain ⟨c, _, rfl⟩ := List.mem_map.mp hd
    rw [Etcd.dirNode_base] at hb
    subst hb
    exact e.dirNode_found dir false "metadata" n hk
  have hex : ∃ d ∈ (e.listing dir false).map (e.dirNode dir false),
      filepathBase d.Key = "metadata" := by
    refine ⟨_, List.mem_map.mpr ⟨"metadata", ?_, rfl⟩, Etcd.dirNode_base _ _ _ _⟩
    simpa [Etcd.listing] using e.mem_names _ _ _ hk
  exact (Hypervisor.refreshNodes_spec n.Value n.ModifiedIndex _ hall h hok).1 hex

/-! ## Save captures the version it wrote -/

theorem commit_captures {α : Type} (key : α → Key) (version : α → Nat)
    (marshal : α → Except Error Value) (setIndex : α → Nat → α)
    (Refresh : Etcd → α → Outcome α)
    (hver : ∀ t i, version (setIndex t i) = i)
    (hkey : ∀ t i, key (setIndex t i) = key t)
    (hmar : ∀ t i, marshal (setIndex t i) = marshal t)
    (hR : ∀ e t n, e.find (key t) = some n → (Refresh e t).err = none →
      version (Refresh e t).self = n.ModifiedIndex) :
    SaveCapturesVersion key version marshal
      (fun e t => commit setIndex e t (key t) (version t) (marshal t)) Refresh := by
  intro e t hok
  simp only at hok ⊢
  cases hm : marshal t with
  | error err => rw [hm] at hok; simp [commit] at hok
  | ok v =>
    rw [hm] at hok
    by_cases ha : e.accepts (key t) (version t)
    · rw [commit_accept _ _ _ _ _ _ ha]
      simp only [hver, hkey, hmar, hm]
      have hfind : (e.write (key t) v 0).sent.find (key t) = some ⟨key t, v, e.index + 1, 0⟩ := by
        rw [Etcd.find_sent, Etcd.find_write_self]
      refine ⟨⟨_, hfind, rfl, rfl⟩, Nat.succ_ne_zero _, trivial, ?_, ?_⟩
      · intro hr
        have := hR _ _ _ (by rw [hkey]; exact hfind) hr
        simpa using this
      · intro hf
        have ha2 : (e.write (key t) v 0).sent.accepts (key t) (e.index + 1) :=
          ⟨hf, Or.inl ⟨Nat.succ_ne_zero _, by rw [hfind]; rfl⟩⟩
        rw [commit_accept _ _ _ _ _ _ ha2]
    · rw [commit_refuse _ _ _ _ _ _ ha] at hok
      simp at hok

theorem Guest_Refresh_version (e : Etcd) (t : Guest) (n : Node) (hf : e.fault = none)
    (hk : e.find t.key = some n) : (Guest.Refresh e t).self.modifiedIndex = n.ModifiedIndex := by
  rw [Guest_Refresh_found e t n hf hk]
  exact Guest.UnmarshalJSON_modifiedIndex _ _

theorem Network_Refresh_version (e : Etcd) (t : Network) (n : Node) (hf : e.fault = none)
    (hk : e.find t.key = some n) :
    (Network.Refresh e t).self.modifiedIndex = n.ModifiedIndex := by
  rw [Network_Refresh_found e t n hf hk]
  exact Network.Unmarshal_modifiedIndex _ _

theorem Guest_Refresh_ok_version (e : Etcd) (t : Guest) (n : Node)
    (hk : e.find t.key = some n) (hok : (Guest.Refresh e t).err = none) :
    (Guest.Refresh e t).self.modifiedIndex = n.ModifiedIndex := by
  rcases e.fault_cases with hf | ⟨err, hf⟩
  · exact Guest_Refresh_version e t n hf hk
  · rw [Guest_Refresh_fault e t err hf] at hok
    cases hok

theorem Network_Refresh_ok_version (e : Etcd) (t : Network) (n : Node)
    (hk : e.find t.key = some n) (hok : (Network.Refresh e t).err = none) :
    (Network.Refresh e t).self.modifiedIndex = n.ModifiedIndex := by
  rcases e.fault_cases with hf | ⟨err, hf⟩
  · exact Network_Refresh_version e t n hf hk
  · rw [Network_Refresh_fault e t err hf] at hok
    cases hok

theorem Hypervisor_Refresh_ok_version (e : Etcd) (h : Hypervisor) (n : Node)
    (hk : e.find h.key = some n) (hok : (Hypervisor.Refresh e h).err = none) :
    (Hypervisor.Refresh e h).self.modifiedIndex = n.ModifiedIndex := by
  rcases e.fault_cases with hf | ⟨err, hf⟩
  · obtain ⟨_, _, _, hv, _⟩ := Hypervisor_Refresh_found e h n hf hk hok
    exact hv
  · rw [Hypervisor_Refresh_fault e h err hf] at hok
    cases hok

/-- C2. Save of a Guest, a Hypervisor and a Network chooses its write by the
captured version: with a version captured it is a compare-and-swap on the entity's
key gated on exactly that version, with none it is a create-only write, which
fails when a record exists at the key; and whenever Save returns an error, the
handle (its captured version included) and the stored records are unchanged. -/
theorem save_write_chosen_by_version :
    SaveByVersion Guest.key Guest.modifiedIndex Guest.MarshalJSON Guest.Save ∧
    SaveByVersion Hypervisor.key Hypervisor.modifiedIndex Hypervisor.MarshalJSON
      Hypervisor.Save ∧
    SaveByVersion Network.key Network.modifiedIndex Network.Marshal Network.Save :=
  ⟨commit_byVersion Guest.key Guest.modifiedIndex Guest.MarshalJSON
      (fun t i => { t with modifiedIndex := i }),
    commit_byVersion Hypervisor.key Hypervisor.modifiedIndex Hypervisor.MarshalJSON
      (fun h i => { h with modifiedIndex := i }),
    commit_byVersion Network.key Network.modifiedIndex Network.Marshal
      (fun t i => { t with modifiedIndex := i })⟩

/-- C3. After a successful Save of a Guest, a Hypervisor or a Network, whether it
created the record or swapped it, the captured version is the version of the
stored record (the one a Refresh captures), and a second Save of the same handle
succeeds when its request gets through. -/
theorem save_captures_stored_version :
    SaveCapturesVersion Guest.key Guest.modifiedIndex Guest.MarshalJSON Guest.Save
      Guest.Refresh ∧
    SaveCapturesVersion Hypervisor.key Hypervisor.modifiedIndex Hypervisor.MarshalJSON
      Hypervisor.Save Hypervisor.Refresh ∧
    SaveCapturesVersion Network.key Network.modifiedIndex Network.Marshal Network.Save
      Network.Refresh ∧
    (∀ (e : Etcd) (t : Guest), (Guest.Save e t).err = none →
      (Guest.Save e t).etcd.fault = none →
      (Guest.Refresh (Guest.Save e t).etcd (Guest.Save e t).self).self.modifiedIndex =
        (Guest.Save e t).self.modifiedIndex) ∧
    (∀ (e : Etcd) (t : Network), (Network.Save e t).err = none →
      (Network.Save e t).etcd.fault = none →
      (Network.Refresh (Network.Save e t).etcd (Network.Save e t).self).self.modifiedIndex =
        (Network.Save e t).self.modifiedIndex) := by
  have hg : SaveCapturesVersion Guest.key Guest.modifiedIndex Guest.MarshalJSON Guest.Save
      Guest.Refresh :=
    commit_captures Guest.key Guest.modifiedIndex Guest.MarshalJSON
      (fun t i => { t with modifiedIndex := i }) Guest.Refresh (fun _ _ => rfl)
      (fun _ _ => rfl) (fun _ _ => rfl) Guest_Refresh_ok_version
  have hh : SaveCapturesVersion Hypervisor.key Hypervisor.modifiedIndex
      Hypervisor.MarshalJSON Hypervisor.Save Hypervisor.Refresh :=
    commit_captures Hypervisor.key Hypervisor.modifiedIndex Hypervisor.MarshalJSON
      (fun t i => { t with modifiedIndex := i }) Hypervisor.Refresh (fun _ _ => rfl)
      (fun _ _ => rfl) (fun _ _ => rfl) Hypervisor_Refresh_ok_version
  have hn : SaveCapturesVersion Network.key Network.modifiedIndex Network.Marshal
      Network.Save Network.Refresh :=
    commit_captures Network.key Network.modifiedIndex Network.Marshal
      (fun t i => { t with modifiedIndex := i }) Network.Refresh (fun _ _ => rfl)
      (fun _ _ => rfl) (fun _ _ => rfl) Network_Refresh_ok_version
  refine ⟨hg, hh, hn, ?_, ?_⟩
  · intro e t hok hf
    obtain ⟨⟨n, hfind, hv, _⟩, _, hkey, _, _⟩ := hg e t hok
    rw [← hkey] at hfind
    rw [Guest_Refresh_version _ _ n hf hfind, hv]
  · intro e t hok hf
    obtain ⟨⟨n, hfind, hv, _⟩, _, hkey, _, _⟩ := hn e t hok
    rw [← hkey] at hfind
    rw [Network_Refresh_version _ _ n hf hfind, hv]

/-! ## Optimistic save -/

theorem Etcd.find_congr {e1 e2 : Etcd} (h : e1.nodes = e2.nodes) (k : Key) :
    e1.find k = e2.find k := by
  unfold Etcd.find
  rw [h]

theorem commit_nodes {α : Type} (setIndex : α → Nat → α) (e : Etcd) (t : α) (key : Key)
    (mi : Nat) (m : Except Error Value) (h : (commit setIndex e t key mi m).err ≠ none) :
    (commit setIndex e t key mi m).self = t ∧
      (commit setIndex e t key mi m).etcd.nodes = e.nodes ∧
      (commit setIndex e t key mi m).etcd.index = e.index :=
  (commit_byVersion (fun _ => key) (fun _ => mi) (fun _ => m) setIndex e t).2.2.2 h

theorem commit_optimistic {α : Type} (key : α → Key) (version : α → Nat)
    (marshal : α → Except Error Value) (setIndex : α → Nat → α)
    (Refresh : Etcd → α → Outcome α) (refreshed : Outcome α → Prop)
    (hR : ∀ (e : Etcd) (a b : α) (v : Value) (i : Nat), marshal a = .ok v → key a = key b →
      e.fault = none → e.find (key b) = some ⟨key a, v, i, 0⟩ → refreshed (Refresh e b) →
      version (Refresh e b).self = i ∧ key (Refresh e b).self = key b ∧
        (∃ v', marshal (Refresh e b).self = .ok v') ∧ (Refresh e b).etcd.nodes = e.nodes) :
    OptimisticSave key version marshal
      (fun e t => commit setIndex e t (key t) (version t) (marshal t)) Refresh refreshed := by
  intro e a b n hw hkey hfind hva hvb hok
  simp only at hok ⊢
  cases hm : marshal a with
  | error err => rw [hm] at hok; simp [commit] at hok
  | ok v =>
    rw [hm] at hok
    by_cases ha : e.accepts (key a) (version a)
    swap
    · rw [commit_refuse _ _ _ _ _ _ ha] at hok
      simp at hok
    rw [commit_accept _ _ _ _ _ _ ha]
    simp only
    have hn := hw.find hfind
    have hfind1 : (e.write (key a) v 0).sent.find (key b) = some ⟨key a, v, e.index + 1, 0⟩ := by
      rw [← hkey, Etcd.find_sent, Etcd.find_write_self]
    have hrej : ¬ (e.write (key a) v 0).sent.accepts (key b) (version b) := by
      rintro ⟨_, ⟨_, h1⟩ | ⟨_, h1⟩⟩
      · rw [hfind1] at h1
        simp only [Option.map_some', Option.some.injEq] at h1
        omega
      · rw [hfind1] at h1
        cases h1
    have hbne : version b ≠ 0 := by omega
    have herr : (commit setIndex (e.write (key a) v 0).sent b (key b) (version b)
        (marshal b)).err ≠ none := by
      cases hmb : marshal b with
      | error err => simp [commit]
      | ok vb => rw [commit_refuse _ _ _ _ _ _ hrej]; simp
    obtain ⟨hself, hnodes, _⟩ := commit_nodes setIndex _ b (key b) (version b) (marshal b) herr
    have hfind2 : (commit setIndex (e.write (key a) v 0).sent b (key b) (version b)
        (marshal b)).etcd.find (key b) = some ⟨key a, v, e.index + 1, 0⟩ := by
      rw [Etcd.find_congr hnodes]
      exact hfind1
    refine ⟨herr, ?_, ⟨v, rfl, by rw [Etcd.find_congr hnodes, Etcd.find_sent, Etcd.find_write_self]⟩, hnodes, hself, ?_⟩
    · rintro hf ⟨vb, hvb'⟩
      rw [hvb', commit_refuse _ _ _ _ _ _ hrej]
      simp [Etcd.refusal, hf, hfind1, hbne]
    · intro hf2 href hf3
      obtain ⟨r1, r2, ⟨v', r3⟩, r4⟩ := hR _ a b v (e.index + 1) hm hkey hf2 hfind2 href
      rw [r3]
      have hacc : (Refresh (commit setIndex (e.write (key a) v 0).sent b (key b) (version b)
          (marshal b)).etcd b).etcd.accepts
          (key (Refresh (commit setIndex (e.write (key a) v 0).sent b (key b) (version b)
            (marshal b)).etcd b).self)
          (version (Refresh (commit setIndex (e.write (key a) v 0).sent b (key b) (version b)
            (marshal b)).etcd b).self) := by
        refine ⟨hf3, Or.inl ⟨by rw [r1]; exact Nat.succ_ne_zero _, ?_⟩⟩
        rw [r1, r2, Etcd.find_congr r4, hfind2]
        rfl
      rw [commit_accept _ _ _ _ _ _ hacc]

theorem Guest.UnmarshalJSON_decoded (t : Guest) (v : Value) (d : guestJSON)
    (hu : guestJSON.Unmarshal v = .ok d) :
    (t.UnmarshalJSON v).2.ID = d.ID ∧ (t.UnmarshalJSON v).2.IP = d.IP ∧
      (t.UnmarshalJSON v).2.HypervisorID = d.HypervisorID ∧
      (t.UnmarshalJSON v).2.SubnetID = d.SubnetID := by
  unfold Guest.UnmarshalJSON
  rw [hu]
  simp only
  cases ParseMAC d.MAC <;> exact ⟨rfl, rfl, rfl, rfl⟩

theorem Guest_Refresh_after_save (e : Etcd) (a b : Guest) (v : Value) (i : Nat)
    (hm : a.MarshalJSON = .ok v) (hkey : a.key = b.key) (hf : e.fault = none)
    (hk : e.find b.key = some ⟨a.key, v, i, 0⟩) (_h : True) :
    (Guest.Refresh e b).self.modifiedIndex = i ∧ (Guest.Refresh e b).self.key = b.key ∧
      (∃ v', (Guest.Refresh e b).self.MarshalJSON = .ok v') ∧
      (Guest.Refresh e b).etcd.nodes = e.nodes := by
  obtain ⟨d, hu, hid, _, _, f, hip⟩ := guestJSON_Unmarshal_Marshal _ v hm
  rw [Guest_Refresh_found e b _ hf hk]
  simp only
  obtain ⟨h1, h2, _, _⟩ := Guest.UnmarshalJSON_decoded { b with modifiedIndex := i } v d hu
  refine ⟨Guest.UnmarshalJSON_modifiedIndex _ _, ?_, ?_, rfl⟩
  · rw [← hkey]
    unfold Guest.key
    rw [h1, hid]
  · unfold Guest.MarshalJSON guestJSON.Marshal
    simp only [h2, hip]
    exact ⟨_, rfl⟩

theorem Network_Refresh_after_save (e : Etcd) (a b : Network) (v : Value) (i : Nat)
    (hm : a.Marshal = .ok v) (hkey : a.key = b.key) (hf : e.fault = none)
    (hk : e.find b.key = some ⟨a.key, v, i, 0⟩) (_h : True) :
    (Network.Refresh e b).self.modifiedIndex = i ∧ (Network.Refresh e b).self.key = b.key ∧
      (∃ v', (Network.Refresh e b).self.Marshal = .ok v') ∧
      (Network.Refresh e b).etcd.nodes = e.nodes := by
  rw [Network_Refresh_found e b _ hf hk]
  simp only
  refine ⟨Network.Unmarshal_modifiedIndex _ _, ?_, ⟨_, rfl⟩, rfl⟩
  unfold Network.Marshal at hm
  cases hm
  rw [← hkey]
  simp [Network.Unmarshal, member, Network.key]

theorem Hypervisor_Refresh_after_save (e : Etcd) (a b : Hypervisor) (v : Value) (i : Nat)
    (hm : a.MarshalJSON = .ok v) (hkey : a.key = b.key) (hf : e.fault = none)
    (hk : e.find b.key = some ⟨a.key, v, i, 0⟩) (hok : (Hypervisor.Refresh e b).err = none) :
    (Hypervisor.Refresh e b).self.modifiedIndex = i ∧
      (Hypervisor.Refresh e b).self.key = b.key ∧
      (∃ v', (Hypervisor.Refresh e b).self.MarshalJSON = .ok v') ∧
      (Hypervisor.Refresh e b).etcd.nodes = e.nodes := by
  obtain ⟨d, hu, hid, ⟨f1, g1⟩, ⟨f2, g2⟩, ⟨f3, g3⟩⟩ := hypervisorJSON_Unmarshal_Marshal _ v hm
  obtain ⟨he, data, hu', r1, r2, r3, r4, r5⟩ := Hypervisor_Refresh_found e b _ hf hk hok
  simp only at hu' r1
  rw [hu] at hu'
  cases hu'
  refine ⟨r1, ?_, ?_, by rw [he]; rfl⟩
  · rw [← hkey]
    unfold Hypervisor.key
    rw [r2, hid]
  · unfold Hypervisor.MarshalJSON hypervisorJSON.Marshal
    simp only [r3, r4, r5, g1, g2, g3]
    exact ⟨_, rfl⟩

/-! ## Refresh without a record -/

theorem Guest_Refresh_missing :
    RefreshMissing (fun e (t : Guest) => e.find t.key = none) Guest.Refresh := by
  intro e t hk
  rcases e.fault_cases with hf | ⟨err, hf⟩
  · rw [Guest_Refresh_absent e t hf hk]
    exact ⟨by simp, fun _ => rfl, rfl, rfl, rfl⟩
  · rw [Guest_Refresh_fault e t err hf]
    exact ⟨by simp, fun h => absurd (hf.symm.trans h) (by simp), rfl, rfl, rfl⟩

theorem Network_Refresh_missing :
    RefreshMissing (fun e (t : Network) => e.find t.key = none) Network.Refresh := by
  intro e t hk
  rcases e.fault_cases with hf | ⟨err, hf⟩
  · rw [Network_Refresh_absent e t hf hk]
    exact ⟨by simp, fun _ => rfl, rfl, rfl, rfl⟩
  · rw [Network_Refresh_fault e t err hf]
    exact ⟨by simp, fun h => absurd (hf.symm.trans h) (by simp), rfl, rfl, rfl⟩

theorem Hypervisor_Refresh_missing :
    RefreshMissing (fun e (h : Hypervisor) =>
      e.find (HypervisorPath ++ filepathJoin [h.ID]) = none ∧
        e.names (HypervisorPath ++ filepathJoin [h.ID]) = []) Hypervisor.Refresh := by
  intro e t hk
  rcases e.fault_cases with hf | ⟨err, hf⟩
  · rw [Hypervisor_Refresh_absent e t hf hk.1 hk.2]
    exact ⟨by simp, fun _ => rfl, rfl, rfl, rfl⟩
  · rw [Hypervisor_Refresh_fault e t err hf]
    exact ⟨by simp, fun h => absurd (hf.symm.trans h) (by simp), rfl, rfl, rfl⟩

/-- C10, as the code has it. Refresh of a Guest or a Network that has no record at
its key, and of a Hypervisor with nothing stored at or under its ID, returns an
error, error 100 (key not found) when the request gets through, and leaves every
field of the handle, its captured version included, and the stored records
unchanged. -/
theorem refresh_without_record_returns_error :
    RefreshMissing (fun e (t : Guest) => e.find t.key = none) Guest.Refresh ∧
    RefreshMissing (fun e (t : Network) => e.find t.key = none) Network.Refresh ∧
    RefreshMissing (fun e (h : Hypervisor) =>
      e.find (HypervisorPath ++ filepathJoin [h.ID]) = none ∧
        e.names (HypervisorPath ++ filepathJoin [h.ID]) = []) Hypervisor.Refresh :=
  ⟨Guest_Refresh_missing, Network_Refresh_missing, Hypervisor_Refresh_missing⟩

/-- C10 at a concrete input: a Guest just made by NewGuest, refreshed against a
store that holds nothing, is left unchanged with version 0. -/
theorem refresh_without_record_returns_error_witness :
    (Guest.Refresh emptyStore guestG1).self = guestG1 ∧
      (Guest.Refresh emptyStore guestG1).etcd.nodes = emptyStore.nodes ∧
      (Guest.Refresh emptyStore guestG1).etcd.index = emptyStore.index :=
  (refresh_without_record_returns_error.1 emptyStore guestG1 (by decide)).2.2

/-- C10 as stated fails: Refresh of a never-saved Guest, Network and Hypervisor
against a store that holds nothing returns an error. -/
theorem refresh_of_fresh_entity_fails :
    (Guest.Refresh emptyStore guestG1).err = some Error.keyNotFound ∧
      (Network.Refresh emptyStore networkN1).err = some Error.keyNotFound ∧
      (Hypervisor.Refresh emptyStore hypervisorH1).err = some Error.keyNotFound := by
  decide

/-- C2 at a concrete input: a handle without a captured version is saved where a
record exists; the Save fails and changes neither the handle nor the store. -/
theorem save_write_chosen_by_version_witness :
    (Guest.Save storeG1 guestG1).self = guestG1 ∧
      (Guest.Save storeG1 guestG1).etcd.nodes = storeG1.nodes ∧
      (Guest.Save storeG1 guestG1).etcd.index = storeG1.index :=
  (save_write_chosen_by_version.1 storeG1 guestG1).2.2.2 (by decide)

/-- C3 at a concrete input: after the first Save of a new Guest, a second Save of the
same handle succeeds. -/
theorem save_captures_stored_version_witness :
    (Guest.Save (Guest.Save emptyStore guestG1).etcd (Guest.Save emptyStore guestG1).self).err =
      none :=
  (save_captures_stored_version.1 emptyStore guestG1 (by decide)).2.2.2.2 (by decide)

/-! ## Placement -/

theorem Subnets.sent_of_quiet {sn : Subnets} (h : sn.faults = []) : sn.sent = sn := by
  cases sn
  simp_all [Subnets.sent]

theorem Subnets.fault_of_quiet {sn : Subnets} (h : sn.faults = []) : sn.fault = none := by
  simp [Subnets.fault, h]

theorem Subnets.record_mem (sn : Subnets) (id : String) (s : Subnet) (h : sn.find id = some s) :
    s ∈ sn.records ∧ s.ID = id := by
  refine ⟨List.mem_of_find?_eq_some h, ?_⟩
  have := List.find?_some h
  simpa using this

theorem Subnets.record_cases (sn : Subnets) (id : String) :
    sn.find id = none ∨ ∃ s, sn.find id = some s := by
  cases sn.find id with
  | none => exact Or.inl rfl
  | some s => exact Or.inr ⟨s, rfl⟩

theorem Context.Subnet_quiet (sn : Subnets) (id : String) (hq : sn.faults = []) :
    Context.Subnet sn id =
      (match sn.find id with
        | none => .error .keyNotFound
        | some s => .ok s, sn) := by
  unfold Context.Subnet
  rw [Subnets.fault_of_quiet hq, Subnets.sent_of_quiet hq]
  cases sn.find id <;> rfl

theorem Subnets.record_congr {sn sn' : Subnets} (h : sn'.records = sn.records) (id : String) :
    sn'.find id = sn.find id := by
  unfold Subnets.find
  rw [h]

theorem Context.Subnet_records (sn : Subnets) (id : String) :
    (Context.Subnet sn id).2.records = sn.records ∧
      ∀ s, (Context.Subnet sn id).1 = .ok s → sn.find id = some s := by
  unfold Context.Subnet
  cases sn.fault with
  | some err => exact ⟨rfl, fun s h => by cases h⟩
  | none =>
    simp only
    rcases sn.record_cases id with hk | ⟨s, hk⟩
    · rw [hk]
      exact ⟨rfl, fun s h => by cases h⟩
    · rw [hk]
      refine ⟨rfl, fun s' h => ?_⟩
      cases h
      rfl

/-- The inner loop neither reserves nor releases anything, and what it finds is the
recorded subnet with the ID `k`, which reports an available address, under an entry
of the map. -/
theorem Hypervisor.scanJoined_records (k : String) (joined : List (String × Value))
    (sn : Lochness.Subnets) :
    (Hypervisor.scanJoined sn k joined).2.records = sn.records ∧
      ∀ s br, (Hypervisor.scanJoined sn k joined).1 = .ok (some (s, br)) →
        sn.find k = some s ∧ s.available ≠ [] ∧ (k, br) ∈ joined := by
  induction joined generalizing sn with
  | nil => exact ⟨rfl, fun s br h => by cases h⟩
  | cons p rest ih =>
    obtain ⟨id, b⟩ := p
    unfold Hypervisor.scanJoined
    by_cases hid : id = k
    · subst hid
      simp only [if_true]
      obtain ⟨hrec, hfound⟩ := Context.Subnet_records sn id
      rcases hc : Context.Subnet sn id with ⟨_ | subnet, sn1⟩
      · rw [hc] at hrec
        exact ⟨hrec, fun s br h => by cases h⟩
      · rw [hc] at hrec hfound
        simp only at hrec hfound ⊢
        by_cases ha : subnet.AvailibleAddresses.length > 0
        · simp only [ha, if_true]
          refine ⟨hrec, fun s br h => ?_⟩
          simp only [Except.ok.injEq, Option.some.injEq, Prod.mk.injEq] at h
          obtain ⟨hs, hb⟩ := h
          rw [← hs, ← hb]
          refine ⟨hfound subnet rfl, ?_, List.mem_cons_self _ _⟩
          intro h0
          simp [Subnet.AvailibleAddresses, h0] at ha
        · simp only [ha, if_false]
          obtain ⟨i1, i2⟩ := ih sn1
          refine ⟨i1.trans hrec, fun s br h => ?_⟩
          obtain ⟨j1, j2, j3⟩ := i2 s br h
          exact ⟨(Subnets.record_congr hrec id).symm.trans j1, j2, List.mem_cons_of_mem _ j3⟩
    · simp only [hid, if_false]
      obtain ⟨i1, i2⟩ := ih sn
      refine ⟨i1, fun s br h => ?_⟩
      obtain ⟨j1, j2, j3⟩ := i2 s br h
      exact ⟨j1, j2, List.mem_cons_of_mem _ j3⟩

theorem Hypervisor.scanListed_records (joined : List (String × Value)) (ks : List String)
    (sn : Lochness.Subnets) :
    (Hypervisor.scanListed sn joined ks).2.records = sn.records ∧
      ∀ s br, (Hypervisor.scanListed sn joined ks).1 = .ok (some (s, br)) →
        sn.find s.ID = some s ∧ s.ID ∈ ks ∧ s.available ≠ [] ∧ (s.ID, br) ∈ joined := by
  induction ks generalizing sn with
  | nil => exact ⟨rfl, fun s br h => by cases h⟩
  | cons k rest ih =>
    unfold Hypervisor.scanListed
    obtain ⟨h1, h2⟩ := Hypervisor.scanJoined_records k joined sn
    rcases hc : Hypervisor.scanJoined sn k joined with ⟨_ | found, sn1⟩
    · rw [hc] at h1
      exact ⟨h1, fun s br h => by cases h⟩
    · rw [hc] at h1 h2
      simp only at h1 h2 ⊢
      cases found with
      | some f =>
        refine ⟨h1, fun s br h => ?_⟩
        simp only [Except.ok.injEq, Option.some.injEq] at h
        subst h
        obtain ⟨j1, j3, j4⟩ := h2 s br rfl
        have j2 := (sn.record_mem k s j1).2
        rw [j2]
        exact ⟨j1, List.mem_cons_self _ _, j3, j4⟩
      | none =>
        simp only
        obtain ⟨i1, i2⟩ := ih sn1
        refine ⟨i1.trans h1, fun s br h => ?_⟩
        obtain ⟨j1, j2, j3, j4⟩ := i2 s br h
        exact ⟨(Subnets.record_congr h1 s.ID).symm.trans j1, List.mem_cons_of_mem _ j2, j3, j4⟩

theorem Etcd.Get_etcd (e : Etcd) (k : Key) : (e.Get k).2 = e.sent := by
  unfold Etcd.Get
  cases e.fault with
  | some err => rfl
  | none =>
    simp only
    cases e.find k <;> rfl

theorem Etcd.GetDir_etcd (e : Etcd) (dir : Key) (sorted : Bool) :
    (e.GetDir dir sorted).2 = e.sent := by
  unfold Etcd.GetDir
  cases e.fault with
  | some err => rfl
  | none =>
    simp only
    cases e.find dir with
    | some n => rfl
    | none => cases e.names dir <;> rfl

theorem Etcd.Set_eq (e : Etcd) (k : Key) (v : Value) (ttl : Nat) :
    e.Set k v ttl =
      match e.fault with
      | some err => (.error err, e.sent)
      | none => (.ok (e.written k v ttl), (e.write k v ttl).sent) := rfl

theorem Network_Refresh_etcd (e : Etcd) (t : Network) : (Network.Refresh e t).etcd = e.sent := by
  rcases e.fault_cases with hf | ⟨err, hf⟩
  · rcases e.find_cases t.key with hk | ⟨n, hk⟩
    · rw [Network_Refresh_absent e t hf hk]
    · rw [Network_Refresh_found e t n hf hk]
  · rw [Network_Refresh_fault e t err hf]

theorem Guest_Refresh_etcd (e : Etcd) (t : Guest) : (Guest.Refresh e t).etcd = e.sent := by
  rcases e.fault_cases with hf | ⟨err, hf⟩
  · rcases e.find_cases t.key with hk | ⟨n, hk⟩
    · rw [Guest_Refresh_absent e t hf hk]
    · rw [Guest_Refresh_found e t n hf hk]
  · rw [Guest_Refresh_fault e t err hf]

theorem Context.Network_etcd (e : Etcd) (id : String) : (Context.Network e id).2 = e.sent := by
  unfold Context.Network
  have h := Network_Refresh_etcd e { modifiedIndex := 0, ID := id, Metadata := [] }
  rcases hr : Network.Refresh e { modifiedIndex := 0, ID := id, Metadata := [] } with
    ⟨_ | err, t, e1⟩
  · rw [hr] at h
    exact h
  · rw [hr] at h
    exact h

theorem Context.Guest_etcd (e : Etcd) (id : String) : (Context.Guest e id).2 = e.sent := by
  unfold Context.Guest
  have h := Guest_Refresh_etcd e { Context.NewGuest "" with ID := id }
  rcases hr : Guest.Refresh e { Context.NewGuest "" with ID := id } with ⟨_ | err, t, e1⟩
  · rw [hr] at h
    exact h
  · rw [hr] at h
    exact h

theorem Network.Subnets_etcd (e : Etcd) (t : Network) : (t.Subnets e).2 = e.sent := by
  unfold Network.Subnets
  have h := e.GetDir_etcd (t.subnetKey none) true
  rcases hr : e.GetDir (t.subnetKey none) true with ⟨_ | nodes, e1⟩
  · rw [hr] at h
    exact h
  · rw [hr] at h
    exact h

theorem Subnet.ReserveAddress_ok (sn : Subnets) (s : Subnet) (owner : String) (ip : IP)
    (h : (s.ReserveAddress sn owner).1 = .ok ip) :
    ∃ r rest, sn.find s.ID = some r ∧ r.available = ip :: rest ∧
      (s.ReserveAddress sn owner).2 =
        { sn.sent with
          records := sn.records.map (fun x =>
            if x.ID = s.ID then { x with available := rest, reserved := (ip, owner) :: x.reserved }
            else x) } := by
  unfold Subnet.ReserveAddress at h ⊢
  cases hf : sn.fault with
  | some err => rw [hf] at h; cases h
  | none =>
    rw [hf] at h
    simp only at h ⊢
    rcases sn.record_cases s.ID with hk | ⟨r, hk⟩
    · rw [hk] at h
      cases h
    · rw [hk] at h ⊢
      simp only at h ⊢
      cases ha : r.available with
      | nil => rw [ha] at h; cases h
      | cons a rest =>
        rw [ha] at h
        simp only [Except.ok.injEq] at h
        subst h
        exact ⟨r, rest, rfl, ha, rfl⟩

theorem Subnet.ReserveAddress_error (sn : Subnets) (s : Subnet) (owner : String) (err : Error)
    (h : (s.ReserveAddress sn owner).1 = .error err) :
    (s.ReserveAddress sn owner).2.records = sn.records := by
  unfold Subnet.ReserveAddress at h ⊢
  cases hf : sn.fault with
  | some err => rfl
  | none =>
    rw [hf] at h
    simp only at h ⊢
    rcases sn.record_cases s.ID with hk | ⟨r, hk⟩
    · rw [hk]
      rfl
    · rw [hk] at h ⊢
      simp only at h ⊢
      cases ha : r.available with
      | nil => rfl
      | cons a rest => rw [ha] at h; cases h

theorem Hypervisor.guestKey_ne_key (h : Hypervisor) (g g' : Guest) :
    g'.key ≠ h.guestKey (some g) := by
  intro heq
  have := congrArg (fun k => k.get? 1) heq
  simp [Guest.key, Hypervisor.guestKey, GuestPath, HypervisorPath] at this

theorem guestJSON_Unmarshal_Marshal_IP (d d' : guestJSON) (v : Value) (h : d.Marshal = .ok v)
    (hu : guestJSON.Unmarshal v = .ok d') (hip : d.IP ≠ []) : d'.IP ≠ [] := by
  unfold guestJSON.Marshal at h
  cases henc : encodeIP d.IP with
  | error err => simp [henc] at h
  | ok f =>
    simp only [henc, Except.ok.injEq] at h
    subst h
    unfold encodeIP at henc
    have h0 : ¬ d.IP.length = 0 := fun h0 => hip (List.length_eq_zero.mp h0)
    rw [if_neg h0] at henc
    by_cases h4 : d.IP.length = 4
    · rw [if_pos h4] at henc
      cases henc
      simp [guestJSON.Unmarshal, member, decodeString, decodeMap, decodeIP] at hu
      rw [← hu]
      simp
    · rw [if_neg h4] at henc
      by_cases h16 : d.IP.length = 16
      · rw [if_pos h16] at henc
        cases henc
        simp [guestJSON.Unmarshal, member, decodeString, decodeMap, decodeIP] at hu
        rw [← hu]
        exact hip
      · rw [if_neg h16] at henc
        cases henc

theorem StoredAllOrNone.of_find {e e' : Etcd} {key : Key} (h : StoredAllOrNone e key)
    (hf : e'.find key = e.find key) : StoredAllOrNone e' key := by
  intro n d hn hd
  rw [hf] at hn
  exact h n d hn hd

theorem Guest.Save_stored (e : Etcd) (t : Guest) (hs : StoredAllOrNone e t.key)
    (ht : AllOrNone t.HypervisorID t.SubnetID t.IP) :
    StoredAllOrNone (Guest.Save e t).etcd t.key ∧
      (Guest.Save e t).self.HypervisorID = t.HypervisorID ∧
      (Guest.Save e t).self.SubnetID = t.SubnetID ∧
      (Guest.Save e t).self.IP = t.IP ∧ (Guest.Save e t).self.key = t.key := by
  rw [Guest_Save_eq]
  cases hm : t.MarshalJSON with
  | error err => exact ⟨hs, rfl, rfl, rfl, rfl⟩
  | ok v =>
    by_cases ha : e.accepts t.key t.modifiedIndex
    · rw [commit_accept _ _ _ _ _ _ ha]
      refine ⟨?_, rfl, rfl, rfl, rfl⟩
      intro n d hn hd
      rw [Etcd.find_sent, Etcd.find_write_self] at hn
      cases hn
      simp only at hd
      obtain ⟨d', hu, _, h1, h2, _⟩ := guestJSON_Unmarshal_Marshal _ v hm
      rw [hu] at hd
      cases hd
      rw [h1, h2]
      rcases ht with ⟨a1, a2, a3⟩ | ⟨a1, a2, a3⟩
      · left
        refine ⟨a1, a2, ?_⟩
        unfold Guest.MarshalJSON guestJSON.Marshal at hm
        simp [a3, encodeIP] at hm
        subst hm
        simp [guestJSON.Unmarshal, member, decodeString, decodeMap, decodeIP] at hu
        rw [← hu]
      · right
        exact ⟨a1, a2, guestJSON_Unmarshal_Marshal_IP _ _ v hm hu a3⟩
    · rw [commit_refuse _ _ _ _ _ _ ha]
      exact ⟨hs, rfl, rfl, rfl, rfl⟩

/-! ### The paths through AddGuest -/

theorem Hypervisor.AddGuest_no_network (e e1 : Etcd) (sn : Lochness.Subnets) (h : Hypervisor)
    (g : Guest) (err : Error) (hnet : Context.Network e g.NetworkID = (.error err, e1)) :
    h.AddGuest e sn g = ⟨some err, g, e1, sn⟩ := by
  simp only [Hypervisor.AddGuest, hnet]

theorem Hypervisor.AddGuest_scan_error (e e1 e2 : Etcd) (sn sn1 : Lochness.Subnets) (h : Hypervisor)
    (g : Guest) (n : Network) (listed : Except Error (List String)) (err : Error)
    (hnet : Context.Network e g.NetworkID = (.ok n, e1)) (hlist : n.Subnets e1 = (listed, e2))
    (hscan : Hypervisor.scanListed sn h.subnets (Hypervisor.ranged listed) = (.error err, sn1)) :
    h.AddGuest e sn g = ⟨some err, g, e2, sn1⟩ := by
  simp only [Hypervisor.AddGuest, hnet, hlist, hscan]

theorem Hypervisor.AddGuest_none_found (e e1 e2 : Etcd) (sn sn1 : Lochness.Subnets) (h : Hypervisor)
    (g : Guest) (n : Network) (listed : Except Error (List String))
    (hnet : Context.Network e g.NetworkID = (.ok n, e1)) (hlist : n.Subnets e1 = (listed, e2))
    (hscan : Hypervisor.scanListed sn h.subnets (Hypervisor.ranged listed) = (.ok none, sn1)) :
    h.AddGuest e sn g = ⟨some (.msg "no suitable subnet found"), g, e2, sn1⟩ := by
  simp only [Hypervisor.AddGuest, hnet, hlist, hscan]

theorem Hypervisor.AddGuest_not_reserved (e e1 e2 : Etcd) (sn sn1 sn2 : Lochness.Subnets)
    (h : Hypervisor) (g : Guest) (n : Network) (listed : Except Error (List String))
    (s : Subnet) (br : Value) (err : Error)
    (hnet : Context.Network e g.NetworkID = (.ok n, e1)) (hlist : n.Subnets e1 = (listed, e2))
    (hscan : Hypervisor.scanListed sn h.subnets (Hypervisor.ranged listed) =
      (.ok (some (s, br)), sn1))
    (hres : s.ReserveAddress sn1 g.ID = (.error err, sn2)) :
    h.AddGuest e sn g = ⟨some err, g, e2, sn2⟩ := by
  simp only [Hypervisor.AddGuest, hnet, hlist, hscan, hres]

theorem Hypervisor.AddGuest_reserved (e e1 e2 : Etcd) (sn sn1 sn2 : Lochness.Subnets)
    (h : Hypervisor) (g : Guest) (n : Network) (listed : Except Error (List String))
    (s : Subnet) (br : Value) (ip : Lochness.IP)
    (hnet : Context.Network e g.NetworkID = (.ok n, e1)) (hlist : n.Subnets e1 = (listed, e2))
    (hscan : Hypervisor.scanListed sn h.subnets (Hypervisor.ranged listed) =
      (.ok (some (s, br)), sn1))
    (hres : s.ReserveAddress sn1 g.ID = (.ok ip, sn2)) :
    h.AddGuest e sn g =
      match e2.fault with
      | some err =>
        ⟨some err, { g with HypervisorID := h.ID, IP := ip, SubnetID := s.ID, Bridge := br },
          e2.sent, sn2⟩
      | none =>
        ⟨(Guest.Save
            (e2.write (h.guestKey (some { g with
              HypervisorID := h.ID, IP := ip, SubnetID := s.ID, Bridge := br })) (.text g.ID)
              0).sent
            { g with HypervisorID := h.ID, IP := ip, SubnetID := s.ID, Bridge := br }).err,
          (Guest.Save
            (e2.write (h.guestKey (some { g with
              HypervisorID := h.ID, IP := ip, SubnetID := s.ID, Bridge := br })) (.text g.ID)
              0).sent
            { g with HypervisorID := h.ID, IP := ip, SubnetID := s.ID, Bridge := br }).self,
          (Guest.Save
            (e2.write (h.guestKey (some { g with
              HypervisorID := h.ID, IP := ip, SubnetID := s.ID, Bridge := br })) (.text g.ID)
              0).sent
            { g with HypervisorID := h.ID, IP := ip, SubnetID := s.ID, Bridge := br }).etcd,
          sn2⟩ := by
  simp only [Hypervisor.AddGuest, hnet, hlist, hscan, hres, Etcd.Set_eq]
  cases e2.fault <;> rfl

/-- AddGuest either stops before the reservation, and then returns an error and
changes neither the Guest, nor the stored records, nor the reservations; or it
reserved the first available address `ip` of a recorded subnet `s` that the
Hypervisor joined, and leaves the Guest with the three placement fields set to
`h.ID`, `s.ID` and `ip`. -/
theorem Hypervisor.AddGuest_outcome (e : Etcd) (sn : Lochness.Subnets) (h : Hypervisor) (g : Guest) :
    ((h.AddGuest e sn g).guest = g ∧ (h.AddGuest e sn g).err ≠ none ∧
      (h.AddGuest e sn g).etcd.nodes = e.nodes ∧ (h.AddGuest e sn g).etcd.index = e.index ∧
      (h.AddGuest e sn g).subnets.records = sn.records) ∨
    (∃ s br ip rest, sn.find s.ID = some s ∧ (s.ID, br) ∈ h.subnets ∧
      s.available = ip :: rest ∧
      (∃ n, (Context.Network e g.NetworkID).1 = .ok n ∧
        s.ID ∈ Hypervisor.ranged (n.Subnets (Context.Network e g.NetworkID).2).1) ∧
      (h.AddGuest e sn g).guest.HypervisorID = h.ID ∧ (h.AddGuest e sn g).guest.IP = ip ∧
      (h.AddGuest e sn g).guest.SubnetID = s.ID ∧ (h.AddGuest e sn g).guest.Bridge = br ∧
      (h.AddGuest e sn g).guest.key = g.key ∧
      (h.AddGuest e sn g).subnets.records = sn.records.map (fun x =>
        if x.ID = s.ID then { x with available := rest, reserved := (ip, g.ID) :: x.reserved }
        else x) ∧
      (StoredAllOrNone e g.key → AllOrNone h.ID s.ID ip →
        StoredAllOrNone (h.AddGuest e sn g).etcd g.key)) := by
  have hn := Context.Network_etcd e g.NetworkID
  rcases hnet : Context.Network e g.NetworkID with ⟨err | n, e1⟩
  · rw [Hypervisor.AddGuest_no_network e e1 sn h g err hnet]
    rw [hnet] at hn
    simp only at hn
    subst hn
    exact Or.inl ⟨rfl, Option.some_ne_none _, rfl, rfl, rfl⟩
  rw [hnet] at hn
  simp only at hn
  subst hn
  have hl := Network.Subnets_etcd e.sent n
  rcases hlist : n.Subnets e.sent with ⟨listed, e2⟩
  rw [hlist] at hl
  simp only at hl
  subst hl
  obtain ⟨hrec, hfound⟩ := Hypervisor.scanListed_records h.subnets (Hypervisor.ranged listed) sn
  rcases hscan : Hypervisor.scanListed sn h.subnets (Hypervisor.ranged listed) with
    ⟨err | found, sn1⟩
  · rw [Hypervisor.AddGuest_scan_error e _ _ sn sn1 h g n listed err hnet hlist hscan]
    rw [hscan] at hrec
    exact Or.inl ⟨rfl, Option.some_ne_none _, rfl, rfl, hrec⟩
  rw [hscan] at hrec hfound
  simp only at hrec hfound
  cases found with
  | none =>
    rw [Hypervisor.AddGuest_none_found e _ _ sn sn1 h g n listed hnet hlist hscan]
    exact Or.inl ⟨rfl, Option.some_ne_none _, rfl, rfl, hrec⟩
  | some f =>
    obtain ⟨s, br⟩ := f
    obtain ⟨f1, f2, _, f4⟩ := hfound s br rfl
    have hlisted : s.ID ∈ Hypervisor.ranged (n.Subnets e.sent).1 := by
      rw [hlist]
      exact f2
    rcases hres : s.ReserveAddress sn1 g.ID with ⟨err | ip, sn2⟩
    · rw [Hypervisor.AddGuest_not_reserved e _ _ sn sn1 sn2 h g n listed s br err hnet hlist
        hscan hres]
      have := Subnet.ReserveAddress_error sn1 s g.ID err (by rw [hres])
      rw [hres] at this
      exact Or.inl ⟨rfl, Option.some_ne_none _, rfl, rfl, this.trans hrec⟩
    obtain ⟨r, rest, r1, r2, r3⟩ := Subnet.ReserveAddress_ok sn1 s g.ID ip (by rw [hres])
    rw [hres] at r3
    simp only at r3
    rw [Subnets.record_congr hrec, f1] at r1
    cases r1
    rw [Hypervisor.AddGuest_reserved e _ _ sn sn1 sn2 h g n listed s br ip hnet hlist hscan hres]
    right
    refine ⟨s, br, ip, rest, f1, f4, r2, ⟨n, rfl, hlisted⟩, ?_⟩
    have hrecs : sn2.records = sn.records.map (fun x =>
        if x.ID = s.ID then { x with available := rest, reserved := (ip, g.ID) :: x.reserved }
        else x) := by
      rw [r3, hrec]
    rcases e.sent.sent.fault_cases with hf | ⟨err, hf⟩
    · rw [hf]
      simp only
      have hsave := fun hs ha => Guest.Save_stored
        (e.sent.sent.write (h.guestKey (some { g with
          HypervisorID := h.ID, IP := ip, SubnetID := s.ID, Bridge := br })) (.text g.ID) 0).sent
        { g with HypervisorID := h.ID, IP := ip, SubnetID := s.ID, Bridge := br } hs ha
      have hfind : (e.sent.sent.write (h.guestKey (some { g with
          HypervisorID := h.ID, IP := ip, SubnetID := s.ID, Bridge := br })) (.text g.ID)
          0).sent.find g.key = e.find g.key := by
        rw [Etcd.find_sent, Etcd.find_write_ne _ _ _ _ _ (Hypervisor.guestKey_ne_key h _ g)]
        rfl
      have hcommit := Guest_Save_eq
        (e.sent.sent.write (h.guestKey (some { g with
          HypervisorID := h.ID, IP := ip, SubnetID := s.ID, Bridge := br })) (.text g.ID) 0).sent
        { g with HypervisorID := h.ID, IP := ip, SubnetID := s.ID, Bridge := br }
      refine ⟨?_, ?_, ?_, ?_, ?_, hrecs, ?_⟩
      · rw [hcommit]; unfold commit; split <;> [rfl; (split <;> rfl)]
      · rw [hcommit]; unfold commit; split <;> [rfl; (split <;> rfl)]
      · rw [hcommit]; unfold commit; split <;> [rfl; (split <;> rfl)]
      · rw [hcommit]; unfold commit; split <;> [rfl; (split <;> rfl)]
      · rw [hcommit]; unfold commit; split <;> [rfl; (split <;> rfl)]
      · intro hs ha
        exact (hsave (hs.of_find hfind) (by exact ha)).1
    · rw [hf]
      exact ⟨rfl, rfl, rfl, rfl, rfl, hrecs, fun hs _ => hs.of_find rfl⟩

/-- C6. For a Guest whose HypervisorID, SubnetID and IP are all empty, whose stored
record (if any) has them all empty or all set, and a Hypervisor with a non-empty
ID: however AddGuest returns, with or without an error, the Guest in memory and the
stored Guest record each have the three fields all empty or all set. The Subnet
collaborator is taken to hold subnets with an ID and real addresses. -/
theorem addGuest_placement_all_or_none (e : Etcd) (sn : Subnets) (h : Hypervisor) (g : Guest)
    (hsn : sn.WF) (hh : h.ID ≠ "")
    (hg : g.HypervisorID = "" ∧ g.SubnetID = "" ∧ g.IP = [])
    (hs : StoredAllOrNone e g.key) :
    AllOrNone (h.AddGuest e sn g).guest.HypervisorID (h.AddGuest e sn g).guest.SubnetID
        (h.AddGuest e sn g).guest.IP ∧
      (h.AddGuest e sn g).guest.key = g.key ∧
      StoredAllOrNone (h.AddGuest e sn g).etcd g.key := by
  rcases Hypervisor.AddGuest_outcome e sn h g with
    ⟨h1, _, h3, _, _⟩ | ⟨s, br, ip, rest, f1, _, f3, _, g1, g2, g3, _, g5, _, g7⟩
  · rw [h1]
    exact ⟨Or.inl hg, rfl, hs.of_find (Etcd.find_congr h3 _)⟩
  · obtain ⟨hmem, _⟩ := sn.record_mem _ _ f1
    obtain ⟨w1, w2⟩ := hsn s hmem
    have hip : ip ≠ [] := w2 ip (by rw [f3]; exact List.mem_cons_self _ _)
    rw [g1, g2, g3]
    exact ⟨Or.inr ⟨hh, w1, hip⟩, g5, g7 hs (Or.inr ⟨hh, w1, hip⟩)⟩

/-! ### The loops when every request to the Subnet collaborator gets through -/

theorem Hypervisor.scanJoined_none (sn : Lochness.Subnets) (k : String) (hq : sn.faults = [])
    (joined : List (String × Value))
    (hex : ∀ br, (k, br) ∈ joined → sn.exhausted k) :
    Hypervisor.scanJoined sn k joined = (.ok none, sn) := by
  induction joined with
  | nil => rfl
  | cons p rest ih =>
    obtain ⟨id, b⟩ := p
    have ih' := ih (fun br hbr => hex br (List.mem_cons_of_mem _ hbr))
    unfold Hypervisor.scanJoined
    by_cases hid : id = k
    · subst hid
      obtain ⟨s, hs, ha⟩ := hex b (List.mem_cons_self _ _)
      simp only [if_true, Context.Subnet_quiet sn id hq, hs, ha, List.length_nil,
        gt_iff_lt, lt_self_iff_false, if_false]
      exact ih'
    · simp only [hid, if_false]
      exact ih'

theorem Hypervisor.scanJoined_some (sn : Lochness.Subnets) (k : String) (hq : sn.faults = [])
    (s : Subnet) (hs : sn.find k = some s) (ha : s.AvailibleAddresses ≠ [])
    (joined : List (String × Value)) (hj : ∃ br, (k, br) ∈ joined) :
    ∃ br, (k, br) ∈ joined ∧ Hypervisor.scanJoined sn k joined = (.ok (some (s, br)), sn) := by
  induction joined with
  | nil =>
    obtain ⟨br, hbr⟩ := hj
    cases hbr
  | cons p rest ih =>
    obtain ⟨id, b⟩ := p
    unfold Hypervisor.scanJoined
    by_cases hid : id = k
    · subst hid
      have hlen : s.AvailibleAddresses.length > 0 := List.length_pos.mpr ha
      refine ⟨b, List.mem_cons_self _ _, ?_⟩
      simp only [if_true, Context.Subnet_quiet sn id hq, hs, hlen]
    · simp only [hid, if_false]
      obtain ⟨br, hbr⟩ := hj
      have hrest : (k, br) ∈ rest := by
        rcases List.mem_cons.mp hbr with heq | hmem
        · simp only [Prod.mk.injEq] at heq
          exact absurd heq.1.symm hid
        · exact hmem
      obtain ⟨br', h1, h2⟩ := ih ⟨br, hrest⟩
      exact ⟨br', List.mem_cons_of_mem _ h1, h2⟩

theorem Hypervisor.scanListed_none (sn : Lochness.Subnets) (joined : List (String × Value))
    (hq : sn.faults = []) (ks : List String)
    (hex : ∀ k ∈ ks, ∀ br, (k, br) ∈ joined → sn.exhausted k) :
    Hypervisor.scanListed sn joined ks = (.ok none, sn) := by
  induction ks with
  | nil => rfl
  | cons k rest ih =>
    unfold Hypervisor.scanListed
    rw [Hypervisor.scanJoined_none sn k hq joined (hex k (List.mem_cons_self _ _))]
    exact ih (fun k' hk' => hex k' (List.mem_cons_of_mem _ hk'))

theorem Hypervisor.scanListed_first (sn : Lochness.Subnets) (joined : List (String × Value))
    (hq : sn.faults = []) (s : Subnet) (k : String) (hs : sn.find k = some s)
    (ha : s.AvailibleAddresses ≠ []) (hj : ∃ br, (k, br) ∈ joined) (ks : List String) (i : Nat)
    (hi : ks.get? i = some k)
    (hbefore : ∀ j kj, j < i → ks.get? j = some kj →
      ∀ br, (kj, br) ∈ joined → sn.exhausted kj) :
    ∃ br, (k, br) ∈ joined ∧
      Hypervisor.scanListed sn joined ks = (.ok (some (s, br)), sn) := by
  induction ks generalizing i with
  | nil => simp at hi
  | cons k0 rest ih =>
    unfold Hypervisor.scanListed
    cases i with
    | zero =>
      simp only [List.get?_cons_zero, Option.some.injEq] at hi
      subst hi
      obtain ⟨br, h1, h2⟩ := Hypervisor.scanJoined_some sn k0 hq s hs ha joined hj
      exact ⟨br, h1, by rw [h2]⟩
    | succ i =>
      rw [Hypervisor.scanJoined_none sn k0 hq joined
        (hbefore 0 k0 (Nat.succ_pos _) (by simp))]
      simp only [List.get?_cons_succ] at hi
      exact ih i hi (fun j kj hj hkj => hbefore (j + 1) kj (Nat.succ_lt_succ hj) (by simpa using hkj))

theorem Subnet.ReserveAddress_quiet (sn : Subnets) (s : Subnet) (owner : String)
    (hq : sn.faults = []) (hs : sn.find s.ID = some s) (ip : IP) (rest : List IP)
    (ha : s.available = ip :: rest) :
    s.ReserveAddress sn owner =
      (.ok ip,
        { sn with
          records := sn.records.map (fun x =>
            if x.ID = s.ID then { x with available := rest, reserved := (ip, owner) :: x.reserved }
            else x) }) := by
  unfold Subnet.ReserveAddress
  rw [Subnets.fault_of_quiet hq, Subnets.sent_of_quiet hq]
  simp only [hs, ha]

/-- C5. When every subnet that the Guest's Network lists and the Hypervisor joined
reports no available address (in particular when none is joined), AddGuest returns
an error, reserves no address, writes nothing to the store and leaves the Guest as
it was; the error is "no suitable subnet found" when the Network and each of those
subnets could be loaded. -/
theorem addGuest_exhausted_changes_nothing (e : Etcd) (sn : Subnets) (h : Hypervisor)
    (g : Guest)
    (hex : ∀ n, (Context.Network e g.NetworkID).1 = .ok n →
      ∀ k ∈ Hypervisor.ranged (n.Subnets (Context.Network e g.NetworkID).2).1,
        h.joined k → ∀ s, sn.find k = some s → s.AvailibleAddresses = []) :
    (h.AddGuest e sn g).err ≠ none ∧ (h.AddGuest e sn g).guest = g ∧
      (h.AddGuest e sn g).etcd.nodes = e.nodes ∧ (h.AddGuest e sn g).etcd.index = e.index ∧
      (h.AddGuest e sn g).subnets.records = sn.records ∧
      (∀ n, (Context.Network e g.NetworkID).1 = .ok n → sn.faults = [] →
        (∀ k ∈ Hypervisor.ranged (n.Subnets (Context.Network e g.NetworkID).2).1,
          h.joined k → ∃ s, sn.find k = some s) →
        (h.AddGuest e sn g).err = some (.msg "no suitable subnet found")) := by
  have hA : (h.AddGuest e sn g).guest = g ∧ (h.AddGuest e sn g).err ≠ none ∧
      (h.AddGuest e sn g).etcd.nodes = e.nodes ∧ (h.AddGuest e sn g).etcd.index = e.index ∧
      (h.AddGuest e sn g).subnets.records = sn.records := by
    rcases Hypervisor.AddGuest_outcome e sn h g with
      hstop | ⟨s, br, ip, rest, f1, f2, f3, ⟨n, hn, hk⟩, _⟩
    · exact hstop
    · have := hex n hn s.ID hk ⟨br, f2⟩ s f1
      rw [Subnet.AvailibleAddresses, f3] at this
      cases this
  refine ⟨hA.2.1, hA.1, hA.2.2.1, hA.2.2.2.1, hA.2.2.2.2, ?_⟩
  · intro n hn hq hload
    rcases hnet : Context.Network e g.NetworkID with ⟨r, e1⟩
    rw [hnet] at hn hex hload
    simp only at hn hex hload
    subst hn
    rcases hlist : n.Subnets e1 with ⟨listed, e2⟩
    rw [hlist] at hload
    have hex' := hex n rfl
    rw [hlist] at hex'
    simp only at hex' hload
    rw [Hypervisor.AddGuest_none_found e e1 e2 sn sn h g n listed hnet hlist
      (Hypervisor.scanListed_none sn h.subnets hq _ (fun k hk br hbr => by
        obtain ⟨s, hs⟩ := hload k hk ⟨br, hbr⟩
        exact ⟨s, hs, hex' k hk ⟨br, hbr⟩ s hs⟩))]

/-- C5 at a concrete input: the Network lists "s1" and "s2", both joined and both
without an available address. -/
theorem addGuest_exhausted_changes_nothing_witness :
    (hypervisorH2.AddGuest storeN1 subnetsFull guestG2).err ≠ none ∧
      (hypervisorH2.AddGuest storeN1 subnetsFull guestG2).guest = guestG2 ∧
      (hypervisorH2.AddGuest storeN1 subnetsFull guestG2).etcd.nodes = storeN1.nodes ∧
      (hypervisorH2.AddGuest storeN1 subnetsFull guestG2).etcd.index = storeN1.index ∧
      (hypervisorH2.AddGuest storeN1 subnetsFull guestG2).subnets.records =
        subnetsFull.records :=
  have h := addGuest_exhausted_changes_nothing storeN1 subnetsFull hypervisorH2 guestG2
    (fun _ _ k _ _ s hs =>
      (by decide : ∀ x ∈ subnetsFull.records, x.AvailibleAddresses = []) s
        (subnetsFull.record_mem k s hs).1)
  ⟨h.1, h.2.1, h.2.2.1, h.2.2.2.1, h.2.2.2.2.1⟩

/-- C4, as the code has it. The Guest's Network is loaded and lists the subnets `ks`,
and the requests to the Subnet collaborator get through. If the subnet `k` listed
at index `i` is joined by the Hypervisor and reports an available address, and
every joined subnet listed before it can be loaded and reports none, then AddGuest
selects `k`, whatever the iteration order of the Hypervisor's subnet map: it
reserves the subnet's first available address for the Guest's ID and leaves the
Guest with SubnetID `k`, HypervisorID `h.ID`, that address as IP and the bridge of
an entry of the map for `k`; this holds whether or not the writes that follow
succeed, so in particular on success. -/
theorem addGuest_first_fit (e e1 e2 : Etcd) (sn : Subnets) (h : Hypervisor) (g : Guest)
    (n : Network) (ks : List String) (i : Nat) (k : String) (s : Subnet)
    (hnet : Context.Network e g.NetworkID = (.ok n, e1))
    (hlist : n.Subnets e1 = (.ok ks, e2))
    (hq : sn.faults = [])
    (hi : ks.get? i = some k) (hj : h.joined k)
    (hs : sn.find k = some s) (ha : s.AvailibleAddresses ≠ [])
    (hbefore : ∀ j kj, j < i → ks.get? j = some kj → h.joined kj → sn.exhausted kj) :
    ∃ ip rest br, s.AvailibleAddresses = ip :: rest ∧ (k, br) ∈ h.subnets ∧
      s.ReserveAddress sn g.ID = (.ok ip, (h.AddGuest e sn g).subnets) ∧
      (h.AddGuest e sn g).subnets.records = sn.records.map (fun x =>
        if x.ID = k then { x with available := rest, reserved := (ip, g.ID) :: x.reserved }
        else x) ∧
      (h.AddGuest e sn g).guest.SubnetID = k ∧ s.ID = k ∧
      (h.AddGuest e sn g).guest.HypervisorID = h.ID ∧
      (h.AddGuest e sn g).guest.IP = ip ∧
      (h.AddGuest e sn g).guest.Bridge = br := by
  obtain ⟨br, hbr, hscan⟩ := Hypervisor.scanListed_first sn h.subnets hq s k hs ha hj ks i hi
    (fun j kj hji hkj b hb => hbefore j kj hji hkj ⟨b, hb⟩)
  have hid := (sn.record_mem k s hs).2
  obtain ⟨ip, rest, hav⟩ := List.exists_cons_of_ne_nil ha
  have hres := Subnet.ReserveAddress_quiet sn s g.ID hq (by rw [hid]; exact hs) ip rest hav
  rw [Hypervisor.AddGuest_reserved e e1 e2 sn sn _ h g n (.ok ks) s br ip hnet hlist hscan hres]
  refine ⟨ip, rest, br, hav, hbr, ?_⟩
  have hcommit := Guest_Save_eq
    (e2.write (h.guestKey (some { g with
      HypervisorID := h.ID, IP := ip, SubnetID := s.ID, Bridge := br })) (.text g.ID) 0).sent
    { g with HypervisorID := h.ID, IP := ip, SubnetID := s.ID, Bridge := br }
  rcases e2.fault_cases with hf | ⟨err, hf⟩
  · rw [hf]
    simp only
    refine ⟨hres, by rw [hid], ?_, hid, ?_, ?_, ?_⟩
    · rw [hcommit]; unfold commit; split <;> [exact hid; (split <;> exact hid)]
    · rw [hcommit]; unfold commit; split <;> [rfl; (split <;> rfl)]
    · rw [hcommit]; unfold commit; split <;> [rfl; (split <;> rfl)]
    · rw [hcommit]; unfold commit; split <;> [rfl; (split <;> rfl)]
  · rw [hf]
    exact ⟨hres, by rw [hid], hid, hid, rfl, rfl, rfl⟩

/-- C4 at the input of the spec: the Network lists [s1, s2], both joined, s1 has no
available address and s2 has one or more; the Guest gets the SubnetID of s2. -/
theorem addGuest_first_fit_witness :
    ∃ ip rest br, Subnet.AvailibleAddresses ⟨"s2", [[10, 0, 2, 1], [10, 0, 2, 2]], []⟩ =
        ip :: rest ∧ ("s2", br) ∈ hypervisorH2.subnets ∧
      Subnet.ReserveAddress subnetsFull1 ⟨"s2", [[10, 0, 2, 1], [10, 0, 2, 2]], []⟩ guestG2.ID =
        (.ok ip, (hypervisorH2.AddGuest storeN1 subnetsFull1 guestG2).subnets) ∧
      (hypervisorH2.AddGuest storeN1 subnetsFull1 guestG2).subnets.records =
        subnetsFull1.records.map (fun x =>
          if x.ID = "s2" then
            { x with available := rest, reserved := (ip, guestG2.ID) :: x.reserved }
          else x) ∧
      (hypervisorH2.AddGuest storeN1 subnetsFull1 guestG2).guest.SubnetID = "s2" ∧
      Subnet.ID ⟨"s2", [[10, 0, 2, 1], [10, 0, 2, 2]], []⟩ = "s2" ∧
      (hypervisorH2.AddGuest storeN1 subnetsFull1 guestG2).guest.HypervisorID =
        hypervisorH2.ID ∧
      (hypervisorH2.AddGuest storeN1 subnetsFull1 guestG2).guest.IP = ip ∧
      (hypervisorH2.AddGuest storeN1 subnetsFull1 guestG2).guest.Bridge = br :=
  addGuest_first_fit storeN1 storeN1.sent storeN1.sent.sent subnetsFull1 hypervisorH2 guestG2
    ⟨1, "n1", []⟩ ["s1", "s2"] 1 "s2" ⟨"s2", [[10, 0, 2, 1], [10, 0, 2, 2]], []⟩
    (by decide) (by decide) rfl rfl ⟨.text "br2", by decide⟩ (by decide) (by decide)
    (fun j kj hj hkj _ => by
      have h0 : j = 0 := by omega
      subst h0
      simp only [List.get?_cons_zero, Option.some.injEq] at hkj
      subst hkj
      exact ⟨⟨"s1", [], [([10, 0, 1, 1], "g0")]⟩, by decide, rfl⟩)

/-- C4 as stated fails: the Network lists [s1, s2], the Hypervisor joined both, s1
has no record (so it is not a joined subnet with an available address) and s2 has
available addresses, so s2 is the first listed subnet that is joined and has one;
AddGuest returns the lookup error of s1, reserves nothing and leaves the Guest
unplaced. -/
theorem addGuest_stops_at_unloadable_subnet :
    (Context.Network storeN1 guestG2.NetworkID).1 = .ok ⟨1, "n1", []⟩ ∧
      (Network.Subnets (Context.Network storeN1 guestG2.NetworkID).2 ⟨1, "n1", []⟩).1 =
        .ok ["s1", "s2"] ∧
      ("s1", Value.text "br1") ∈ hypervisorH2.subnets ∧
      ("s2", Value.text "br2") ∈ hypervisorH2.subnets ∧
      subnetsNoS1.find "s1" = none ∧
      subnetsNoS1.find "s2" = some ⟨"s2", [[10, 0, 2, 1], [10, 0, 2, 2]], []⟩ ∧
      (hypervisorH2.AddGuest storeN1 subnetsNoS1 guestG2).err = some Error.keyNotFound ∧
      (hypervisorH2.AddGuest storeN1 subnetsNoS1 guestG2).guest = guestG2 ∧
      (hypervisorH2.AddGuest storeN1 subnetsNoS1 guestG2).subnets.records =
        subnetsNoS1.records := by
  decide

/-- C6 at a concrete input: a placement that succeeds leaves the three fields set. -/
theorem addGuest_placement_all_or_none_witness :
    AllOrNone (hypervisorH2.AddGuest storeN1 subnetsFull1 guestG2).guest.HypervisorID
        (hypervisorH2.AddGuest storeN1 subnetsFull1 guestG2).guest.SubnetID
        (hypervisorH2.AddGuest storeN1 subnetsFull1 guestG2).guest.IP ∧
      (hypervisorH2.AddGuest storeN1 subnetsFull1 guestG2).guest.key = guestG2.key ∧
      StoredAllOrNone (hypervisorH2.AddGuest storeN1 subnetsFull1 guestG2).etcd guestG2.key :=
  addGuest_placement_all_or_none storeN1 subnetsFull1 hypervisorH2 guestG2 (by decide)
    (by decide) (by decide) (fun n d hn _ => by
      have : storeN1.find guestG2.key = none := by decide
      rw [this] at hn
      cases hn)

/-! ## The work-queue client -/

theorem tubeSet.Put_create (q : Queue) (body : String) (hf : q.fault = none) :
    tubeSet.Put q .create body =
      ((q.lastID + 1, none),
        { q.sent with lastID := q.lastID + 1, create := q.create ++ [(q.lastID + 1, body)] }) := by
  simp only [tubeSet.Put, hf]

theorem tubeSet.Put_work (q : Queue) (body : String) (hf : q.fault = none) :
    tubeSet.Put q .work body =
      ((q.lastID + 1, none),
        { q.sent with lastID := q.lastID + 1, work := q.work ++ [(q.lastID + 1, body)] }) := by
  simp only [tubeSet.Put, hf]

theorem tubeSet.Put_fault (q : Queue) (ts : Tube) (body : String) (err : Error)
    (hf : q.fault = some err) : tubeSet.Put q ts body = ((0, some err), q.sent) := by
  simp only [tubeSet.Put, hf]

theorem Queue.outage_cases (q : Queue) : q.fault = none ∨ ∃ err, q.fault = some err := by
  cases q.fault with
  | none => exact Or.inl rfl
  | some err => exact Or.inr ⟨err, rfl⟩

/-- C7. For a Job `j`, AddTask makes one Put of the payload `j.ID`, on the create tube
when `j.Action` is exactly "select-hypervisor" and on the work tube for every other
action, and returns the task id and the error of that Put: when the Put succeeds,
exactly one delivery with payload `j.ID` is added to that tube and the other tube is
unchanged; when it fails, no tube changes. The actions of the guest API other than
"select-hypervisor" go to the work tube. For the nil job AddTask returns an error
and leaves the queue as it was. -/
theorem addTask_tube_by_action (q : Queue) (j : Job) :
    Client.AddTask q (some j) =
        tubeSet.Put q (if j.Action = "select-hypervisor" then .create else .work) j.ID ∧
      ((Client.AddTask q (some j)).1.2 = none →
        (j.Action = "select-hypervisor" →
          (Client.AddTask q (some j)).2.create =
              q.create ++ [((Client.AddTask q (some j)).1.1, j.ID)] ∧
            (Client.AddTask q (some j)).2.work = q.work) ∧
        (j.Action ≠ "select-hypervisor" →
          (Client.AddTask q (some j)).2.work =
              q.work ++ [((Client.AddTask q (some j)).1.1, j.ID)] ∧
            (Client.AddTask q (some j)).2.create = q.create)) ∧
      ((Client.AddTask q (some j)).1.2 ≠ none →
        (Client.AddTask q (some j)).2.create = q.create ∧
          (Client.AddTask q (some j)).2.work = q.work) ∧
      (∀ a ∈ ["delete", "shutdown", "reboot", "restart", "poweroff", "start", "suspend"],
        a ≠ "select-hypervisor") ∧
      (Client.AddTask q none).1.2 ≠ none ∧ (Client.AddTask q none).2 = q := by
  have h0 : Client.AddTask q (some j) =
      tubeSet.Put q (if j.Action = "select-hypervisor" then .create else .work) j.ID := rfl
  refine ⟨h0, ?_, ?_, by decide, Option.some_ne_none _, rfl⟩
  · intro hok
    rw [h0] at hok ⊢
    rcases q.outage_cases with hf | ⟨err, hf⟩
    · constructor
      · intro ha
        rw [if_pos ha, tubeSet.Put_create q j.ID hf]
        exact ⟨rfl, rfl⟩
      · intro ha
        rw [if_neg ha, tubeSet.Put_work q j.ID hf]
        exact ⟨rfl, rfl⟩
    · rw [tubeSet.Put_fault q _ j.ID err hf] at hok
      cases hok
  · intro herr
    rw [h0] at herr ⊢
    rcases q.outage_cases with hf | ⟨err, hf⟩
    · exfalso
      apply herr
      by_cases ha : j.Action = "select-hypervisor"
      · rw [if_pos ha, tubeSet.Put_create q j.ID hf]
      · rw [if_neg ha, tubeSet.Put_work q j.ID hf]
    · rw [tubeSet.Put_fault q _ j.ID err hf]
      exact ⟨rfl, rfl⟩

/-- C7 at concrete inputs: a "select-hypervisor" job lands in the create tube, a
"reboot" job in the work tube. -/
theorem addTask_tube_by_action_witness :
    ((Client.AddTask emptyQueue (some jobSelect)).2.create = [(1, "j1")] ∧
        (Client.AddTask emptyQueue (some jobSelect)).2.work = []) ∧
      ((Client.AddTask emptyQueue (some jobReboot)).2.work = [(1, "j2")] ∧
        (Client.AddTask emptyQueue (some jobReboot)).2.create = []) :=
  ⟨((addTask_tube_by_action emptyQueue jobSelect).2.1 (by decide)).1 (by decide),
    ((addTask_tube_by_action emptyQueue jobReboot).2.1 (by decide)).2 (by decide)⟩

theorem Job.Save_eq (e : Etcd) (j : Job) (ttl : Nat) :
    j.Save e ttl =
      match e.fault with
      | some err => (some err, e.sent)
      | none => (none, (e.write j.key j.Marshal (ttl / 1000000000)).sent) := by
  unfold Job.Save
  rw [Etcd.Set_eq]
  cases e.fault <;> rfl

/-- C8. AddJob builds the Job with the drawn ID, Guest = guestID and Action =
action, and persists it with jobTTL, which is 24 hours (86400 seconds). If that
Save fails, AddJob returns its error with no Job, and the queue and the stored
records are as they were: no request reaches the queue and no task is put on either
tube. If it succeeds, the Job record is stored under the job's key with a TTL of
86400 seconds, and only then the task is enqueued with AddTask: AddJob returns the
Job with the error of AddTask and leaves the queue as AddTask leaves it. When the
request to the queue gets through, AddJob returns no error and one delivery whose
payload is the ID of the Job is added to the create tube when the action is
"select-hypervisor", to the work tube for every other action, under the next delivery
ID, and the other tube is as it was; when that request fails, AddJob returns its error
with the Job and both tubes are as they were. -/
theorem addJob_persists_then_enqueues (e : Etcd) (q : Queue) (id guestID action : String) :
    jobTTL = 24 * 3600 * 1000000000 ∧
    (∀ err, ((⟨id, action, guestID⟩ : Job).Save e jobTTL).1 = some err →
      (Client.AddJob e q id guestID action).job = none ∧
      (Client.AddJob e q id guestID action).err = some err ∧
      (Client.AddJob e q id guestID action).queue = q ∧
      (Client.AddJob e q id guestID action).etcd.nodes = e.nodes) ∧
    (((⟨id, action, guestID⟩ : Job).Save e jobTTL).1 = none →
      (Client.AddJob e q id guestID action).job = some ⟨id, action, guestID⟩ ∧
      (Client.AddJob e q id guestID action).etcd.find (JobPath ++ filepathJoin [id]) =
        some ⟨JobPath ++ filepathJoin [id], (⟨id, action, guestID⟩ : Job).Marshal,
          e.index + 1, 86400⟩ ∧
      (Client.AddJob e q id guestID action).err =
        (Client.AddTask q (some ⟨id, action, guestID⟩)).1.2 ∧
      (Client.AddJob e q id guestID action).queue =
        (Client.AddTask q (some ⟨id, action, guestID⟩)).2 ∧
      (q.fault = none →
        (Client.AddJob e q id guestID action).err = none ∧
        (action = "select-hypervisor" →
          (Client.AddJob e q id guestID action).queue.create =
              q.create ++ [(q.lastID + 1, id)] ∧
            (Client.AddJob e q id guestID action).queue.work = q.work) ∧
        (action ≠ "select-hypervisor" →
          (Client.AddJob e q id guestID action).queue.work =
              q.work ++ [(q.lastID + 1, id)] ∧
            (Client.AddJob e q id guestID action).queue.create = q.create)) ∧
      (∀ err, q.fault = some err →
        (Client.AddJob e q id guestID action).err = some err ∧
        (Client.AddJob e q id guestID action).queue.create = q.create ∧
        (Client.AddJob e q id guestID action).queue.work = q.work)) := by
  have hJ : Client.AddJob e q id guestID action =
      match (⟨id, action, guestID⟩ : Job).Save e jobTTL with
      | (some err, e) => ⟨none, some err, e, q⟩
      | (none, e) =>
        ⟨some ⟨id, action, guestID⟩, (Client.AddTask q (some ⟨id, action, guestID⟩)).1.2, e,
          (Client.AddTask q (some ⟨id, action, guestID⟩)).2⟩ := rfl
  have hT : Client.AddTask q (some ⟨id, action, guestID⟩) =
      tubeSet.Put q (if action = "select-hypervisor" then .create else .work) id := rfl
  rw [hJ, Job.Save_eq]
  refine ⟨by decide, ?_, ?_⟩
  · intro err herr
    rcases e.fault_cases with hf | ⟨err', hf⟩
    · rw [hf] at herr
      cases herr
    · rw [hf] at herr ⊢
      simp only [Option.some.injEq] at herr
      subst herr
      exact ⟨rfl, rfl, rfl, rfl⟩
  · intro hok
    rcases e.fault_cases with hf | ⟨err', hf⟩
    · rw [hf]
      refine ⟨rfl, ?_, rfl, rfl, ?_, ?_⟩
      · simp only
        rw [Etcd.find_sent]
        exact Etcd.find_write_self _ _ _ _
      · intro hq
        simp only
        rw [hT]
        by_cases ha : action = "select-hypervisor"
        · rw [if_pos ha, tubeSet.Put_create q id hq]
          exact ⟨rfl, fun _ => ⟨rfl, rfl⟩, fun hne => absurd ha hne⟩
        · rw [if_neg ha, tubeSet.Put_work q id hq]
          exact ⟨rfl, fun h => absurd h ha, fun _ => ⟨rfl, rfl⟩⟩
      · intro err hq
        simp only
        rw [hT, tubeSet.Put_fault q _ id err hq]
        exact ⟨rfl, rfl, rfl⟩
    · rw [hf] at hok
      cases hok

/-- C8 at concrete inputs: with the store down no task is put; with the store up
the "select-hypervisor" job is stored, AddJob returns no error and the task of the job
is the one delivery of the create tube, the work tube being empty. -/
theorem addJob_persists_then_enqueues_witness :
    ((Client.AddJob downStore emptyQueue "j1" "g1" "select-hypervisor").job = none ∧
      (Client.AddJob downStore emptyQueue "j1" "g1" "select-hypervisor").err =
        some Error.transport ∧
      (Client.AddJob downStore emptyQueue "j1" "g1" "select-hypervisor").queue = emptyQueue ∧
      (Client.AddJob downStore emptyQueue "j1" "g1" "select-hypervisor").etcd.nodes =
        downStore.nodes) ∧
    ((Client.AddJob emptyStore emptyQueue "j1" "g1" "select-hypervisor").job =
        some ⟨"j1", "select-hypervisor", "g1"⟩ ∧
      (Client.AddJob emptyStore emptyQueue "j1" "g1" "select-hypervisor").etcd.find
          (JobPath ++ filepathJoin ["j1"]) =
        some ⟨JobPath ++ filepathJoin ["j1"],
          (⟨"j1", "select-hypervisor", "g1"⟩ : Job).Marshal, emptyStore.index + 1, 86400⟩) ∧
    ((Client.AddJob emptyStore emptyQueue "j1" "g1" "select-hypervisor").err = none ∧
      (Client.AddJob emptyStore emptyQueue "j1" "g1" "select-hypervisor").queue.create =
        [(1, "j1")] ∧
      (Client.AddJob emptyStore emptyQueue "j1" "g1" "select-hypervisor").queue.work = []) ∧
    ((Client.AddJob emptyStore emptyQueue "j2" "g1" "reboot").queue.work = [(1, "j2")] ∧
      (Client.AddJob emptyStore emptyQueue "j2" "g1" "reboot").queue.create = []) :=
  have h1 := (addJob_persists_then_enqueues downStore emptyQueue "j1" "g1"
    "select-hypervisor").2.1 Error.transport (by decide)
  have h2 := (addJob_persists_then_enqueues emptyStore emptyQueue "j1" "g1"
    "select-hypervisor").2.2 (by decide)
  have h3 := (addJob_persists_then_enqueues emptyStore emptyQueue "j2" "g1"
    "reboot").2.2 (by decide)
  ⟨h1, ⟨h2.1, h2.2.1⟩,
    ⟨(h2.2.2.2.2.1 (by decide)).1, (h2.2.2.2.2.1 (by decide)).2.1 (by decide)⟩,
    (h3.2.2.2.2.1 (by decide)).2.2 (by decide)⟩

theorem Task.RefreshJob_ids (e : Etcd) (t : Task) :
    (t.RefreshJob e).2.1.ID = t.ID ∧ (t.RefreshJob e).2.1.JobID = t.JobID ∧
      (t.RefreshJob e).2.1.Guest = t.Guest := by
  unfold Task.RefreshJob
  rcases Client.Job e t.JobID with ⟨_ | j, e1⟩ <;> exact ⟨rfl, rfl, rfl⟩

theorem Task.RefreshGuest_ids (e : Etcd) (t : Task) :
    (t.RefreshGuest e).2.1.ID = t.ID ∧ (t.RefreshGuest e).2.1.JobID = t.JobID := by
  unfold Task.RefreshGuest
  cases t.Job with
  | none => exact ⟨rfl, rfl⟩
  | some j =>
    simp only
    split
    · exact ⟨rfl, rfl⟩
    · rcases Context.Guest e j.Guest with ⟨_ | g, e1⟩ <;> exact ⟨rfl, rfl⟩

theorem tubeSet.Reserve_other (q : Queue) (ts : Tube) :
    (ts = .create → (tubeSet.Reserve q ts).2.work = q.work) ∧
      (ts = .work → (tubeSet.Reserve q ts).2.create = q.create) := by
  unfold tubeSet.Reserve
  cases q.fault with
  | some err => exact ⟨fun _ => rfl, fun _ => rfl⟩
  | none =>
    simp only
    cases ts with
    | create =>
      cases hr : q.ready .create with
      | nil => exact ⟨fun _ => rfl, fun _ => rfl⟩
      | cons d rest => exact ⟨fun _ => rfl, fun h => by cases h⟩
    | work =>
      cases hr : q.ready .work with
      | nil => exact ⟨fun _ => rfl, fun _ => rfl⟩
      | cons d rest => exact ⟨(fun h => by cases h), fun _ => rfl⟩

theorem Client.nextTask_reserve_error (e : Etcd) (q q1 : Queue) (ts : Tube) (err : Error)
    (hr : tubeSet.Reserve q ts = (.error err, q1)) :
    Client.nextTask e q ts = ⟨none, some err, e, q1⟩ := by
  simp only [Client.nextTask, hr]

theorem Client.nextTask_job_error (e e1 : Etcd) (q q1 : Queue) (ts : Tube) (id : Nat)
    (body : String) (t1 : Task) (err : Error)
    (hr : tubeSet.Reserve q ts = (.ok (id, body), q1))
    (hj : Task.RefreshJob e ⟨id, body, none, none⟩ = (some err, t1, e1)) :
    Client.nextTask e q ts = ⟨some t1, some err, e1, q1⟩ := by
  simp only [Client.nextTask, hr, hj]

theorem Client.nextTask_loaded (e e1 : Etcd) (q q1 : Queue) (ts : Tube) (id : Nat)
    (body : String) (t1 : Task)
    (hr : tubeSet.Reserve q ts = (.ok (id, body), q1))
    (hj : Task.RefreshJob e ⟨id, body, none, none⟩ = (none, t1, e1)) :
    Client.nextTask e q ts =
      ⟨some (Task.RefreshGuest e1 t1).2.1, (Task.RefreshGuest e1 t1).1,
        (Task.RefreshGuest e1 t1).2.2, q1⟩ := by
  simp only [Client.nextTask, hr, hj]
  rcases Task.RefreshGuest e1 t1 with ⟨_ | errg, t2, e2⟩ <;> rfl

/-- C9. NextCreateTask reserves from the create tube and leaves the work tube as it
was, NextWorkTask the other way round. For either, on tube `ts`: if the reservation
fails, its error is returned with no Task and nothing is loaded; if it succeeds
with delivery id `id` and payload `body`, a Task with that ID and JobID is
returned in every case, RefreshJob is run first, and RefreshGuest is run only when
RefreshJob returned no error; the error returned is that of the first of the two
that failed, and none when both succeeded. So an error is returned exactly when the
reservation or one of the two loads failed. -/
theorem nextTask_keeps_task_on_load_failure (e : Etcd) (q : Queue) :
    (Client.NextCreateTask e q = Client.nextTask e q .create ∧
      (Client.NextCreateTask e q).queue.work = q.work) ∧
    (Client.NextWorkTask e q = Client.nextTask e q .work ∧
      (Client.NextWorkTask e q).queue.create = q.create) ∧
    ∀ ts : Tube,
      (Client.nextTask e q ts).queue = (tubeSet.Reserve q ts).2 ∧
      (∀ err, (tubeSet.Reserve q ts).1 = .error err →
        (Client.nextTask e q ts).task = none ∧ (Client.nextTask e q ts).err = some err ∧
        (Client.nextTask e q ts).etcd = e) ∧
      (∀ id body, (tubeSet.Reserve q ts).1 = .ok (id, body) →
        (∃ task, (Client.nextTask e q ts).task = some task ∧ task.ID = id ∧
          task.JobID = body) ∧
        (∀ err, (Task.RefreshJob e ⟨id, body, none, none⟩).1 = some err →
          (Client.nextTask e q ts).err = some err ∧
          (Client.nextTask e q ts).task = some (Task.RefreshJob e ⟨id, body, none, none⟩).2.1 ∧
          (∃ task, (Client.nextTask e q ts).task = some task ∧ task.Guest = none) ∧
          (Client.nextTask e q ts).etcd = (Task.RefreshJob e ⟨id, body, none, none⟩).2.2) ∧
        ((Task.RefreshJob e ⟨id, body, none, none⟩).1 = none →
          (Client.nextTask e q ts).err =
            (Task.RefreshGuest (Task.RefreshJob e ⟨id, body, none, none⟩).2.2
              (Task.RefreshJob e ⟨id, body, none, none⟩).2.1).1 ∧
          (Client.nextTask e q ts).task =
            some (Task.RefreshGuest (Task.RefreshJob e ⟨id, body, none, none⟩).2.2
              (Task.RefreshJob e ⟨id, body, none, none⟩).2.1).2.1 ∧
          (Client.nextTask e q ts).etcd =
            (Task.RefreshGuest (Task.RefreshJob e ⟨id, body, none, none⟩).2.2
              (Task.RefreshJob e ⟨id, body, none, none⟩).2.1).2.2)) ∧
      ((Client.nextTask e q ts).err ≠ none ↔
        (∃ err, (tubeSet.Reserve q ts).1 = .error err) ∨
        (∃ id body, (tubeSet.Reserve q ts).1 = .ok (id, body) ∧
          ((Task.RefreshJob e ⟨id, body, none, none⟩).1 ≠ none ∨
            ((Task.RefreshJob e ⟨id, body, none, none⟩).1 = none ∧
              (Task.RefreshGuest (Task.RefreshJob e ⟨id, body, none, none⟩).2.2
                (Task.RefreshJob e ⟨id, body, none, none⟩).2.1).1 ≠ none)))) := by
  have key : ∀ ts : Tube,
      (Client.nextTask e q ts).queue = (tubeSet.Reserve q ts).2 ∧
      (∀ err, (tubeSet.Reserve q ts).1 = .error err →
        Client.nextTask e q ts = ⟨none, some err, e, (tubeSet.Reserve q ts).2⟩) ∧
      (∀ id body, (tubeSet.Reserve q ts).1 = .ok (id, body) →
        (∀ err, (Task.RefreshJob e ⟨id, body, none, none⟩).1 = some err →
          Client.nextTask e q ts =
            ⟨some (Task.RefreshJob e ⟨id, body, none, none⟩).2.1, some err,
              (Task.RefreshJob e ⟨id, body, none, none⟩).2.2, (tubeSet.Reserve q ts).2⟩) ∧
        ((Task.RefreshJob e ⟨id, body, none, none⟩).1 = none →
          Client.nextTask e q ts =
            ⟨some (Task.RefreshGuest (Task.RefreshJob e ⟨id, body, none, none⟩).2.2
                (Task.RefreshJob e ⟨id, body, none, none⟩).2.1).2.1,
              (Task.RefreshGuest (Task.RefreshJob e ⟨id, body, none, none⟩).2.2
                (Task.RefreshJob e ⟨id, body, none, none⟩).2.1).1,
              (Task.RefreshGuest (Task.RefreshJob e ⟨id, body, none, none⟩).2.2
                (Task.RefreshJob e ⟨id, body, none, none⟩).2.1).2.2,
              (tubeSet.Reserve q ts).2⟩)) := by
    intro ts
    rcases hr : tubeSet.Reserve q ts with ⟨err | ⟨id, body⟩, q1⟩
    · rw [Client.nextTask_reserve_error e q q1 ts err hr]
      exact ⟨rfl, (fun err' h => by cases h; rfl), (fun id body h => by cases h)⟩
    · rcases hj : Task.RefreshJob e ⟨id, body, none, none⟩ with ⟨_ | errj, t1, e1⟩
      · rw [Client.nextTask_loaded e e1 q q1 ts id body t1 hr hj]
        refine ⟨rfl, (fun err' h => by cases h), ?_⟩
        intro id' body' h
        cases h
        rw [hj]
        exact ⟨(fun err' h' => by cases h'), (fun _ => rfl)⟩
      · rw [Client.nextTask_job_error e e1 q q1 ts id body t1 errj hr hj]
        refine ⟨rfl, (fun err' h => by cases h), ?_⟩
        intro id' body' h
        cases h
        rw [hj]
        exact ⟨(fun err' h' => by cases h'; rfl), (fun h' => by cases h')⟩
  refine ⟨⟨rfl, ?_⟩, ⟨rfl, ?_⟩, ?_⟩
  · show (Client.nextTask e q .create).queue.work = q.work
    rw [(key .create).1]
    exact (tubeSet.Reserve_other q .create).1 rfl
  · show (Client.nextTask e q .work).queue.create = q.create
    rw [(key .work).1]
    exact (tubeSet.Reserve_other q .work).2 rfl
  · intro ts
    obtain ⟨k1, k2, k3⟩ := key ts
    refine ⟨k1, ?_, ?_, ?_⟩
    · intro err h
      rw [k2 err h]
      exact ⟨rfl, rfl, rfl⟩
    · intro id body h
      obtain ⟨j1, j2⟩ := k3 id body h
      obtain ⟨i1, i2, i3⟩ := Task.RefreshJob_ids e ⟨id, body, none, none⟩
      refine ⟨?_, ?_, ?_⟩
      · cases hj : (Task.RefreshJob e ⟨id, body, none, none⟩).1 with
        | some err =>
          rw [j1 err hj]
          exact ⟨_, rfl, i1, i2⟩
        | none =>
          rw [j2 hj]
          obtain ⟨g1, g2⟩ := Task.RefreshGuest_ids
            (Task.RefreshJob e ⟨id, body, none, none⟩).2.2
            (Task.RefreshJob e ⟨id, body, none, none⟩).2.1
          exact ⟨_, rfl, g1.trans i1, g2.trans i2⟩
      · intro err hj
        rw [j1 err hj]
        exact ⟨rfl, rfl, ⟨_, rfl, i3⟩, rfl⟩
      · intro hj
        rw [j2 hj]
        exact ⟨rfl, rfl, rfl⟩
    · constructor
      · intro herr
        rcases hr : (tubeSet.Reserve q ts).1 with err | ⟨id, body⟩
        · exact Or.inl ⟨err, rfl⟩
        · right
          refine ⟨id, body, rfl, ?_⟩
          obtain ⟨j1, j2⟩ := k3 id body hr
          cases hj : (Task.RefreshJob e ⟨id, body, none, none⟩).1 with
          | some err => exact Or.inl (Option.some_ne_none _)
          | none =>
            right
            refine ⟨rfl, ?_⟩
            rw [j2 hj] at herr
            exact herr
      · rintro (⟨err, h⟩ | ⟨id, body, h, hj | ⟨hj, hg⟩⟩)
        · rw [k2 err h]
          exact Option.some_ne_none _
        · obtain ⟨err, he⟩ := Option.ne_none_iff_exists'.mp hj
          rw [(k3 id body h).1 err he]
          exact Option.some_ne_none _
        · rw [(k3 id body h).2 hj]
          exact hg

/-- C9 at a concrete input: the work tube delivers the payload "j9" under id 1, no
Job "j9" is stored; the error of the load is returned together with the Task. -/
theorem nextTask_keeps_task_on_load_failure_witness :
    (Client.nextTask emptyStore queueOrphan .work).err = some Error.keyNotFound ∧
      (Client.nextTask emptyStore queueOrphan .work).task =
        some (Task.RefreshJob emptyStore ⟨1, "j9", none, none⟩).2.1 ∧
      (∃ task, (Client.nextTask emptyStore queueOrphan .work).task = some task ∧
        task.Guest = none) ∧
      (Client.nextTask emptyStore queueOrphan .work).etcd =
        (Task.RefreshJob emptyStore ⟨1, "j9", none, none⟩).2.2 :=
  (((nextTask_keeps_task_on_load_failure emptyStore queueOrphan).2.2 .work).2.2.1 1 "j9"
    (by decide)).2.1 Error.keyNotFound (by decide)

/-! ## Hardware addresses: text and back -/

theorem hexVal_hexDigit : ∀ n, n < 16 → hexVal (hexDigit n) = some n := by
  decide

theorem length_hexTail (l : List Nat) : (hexTail l).length = 3 * l.length := by
  induction l with
  | nil => rfl
  | cons b rest ih => simp only [hexTail, List.length_cons, ih]; omega

theorem xtoi2_hex (b : Nat) (hb : b < 256) (rest : List Nat) :
    xtoi2 (hexDigit (b / 16 % 16) :: hexDigit (b % 16) :: hexTail rest) ':' = some b := by
  have h1 : hexVal (hexDigit (b / 16 % 16)) = some (b / 16 % 16) :=
    hexVal_hexDigit _ (Nat.mod_lt _ (by decide))
  have h2 : hexVal (hexDigit (b % 16)) = some (b % 16) :=
    hexVal_hexDigit _ (Nat.mod_lt _ (by decide))
  have h3 : 16 * (b / 16 % 16) + b % 16 = b := by omega
  cases rest with
  | nil => simp [xtoi2, hexTail, h1, h2, h3]
  | cons c rest => simp [xtoi2, hexTail, h1, h2, h3]

theorem parsePairs_hex (rest : List Nat) :
    ∀ b : Nat, (∀ x ∈ b :: rest, x < 256) →
      parsePairs ':' (rest.length + 1)
        (hexDigit (b / 16 % 16) :: hexDigit (b % 16) :: hexTail rest) = some (b :: rest) := by
  induction rest with
  | nil =>
    intro b hb
    have hx := xtoi2_hex b (hb b (List.mem_cons_self _ _)) []
    simp only [List.length_nil, parsePairs, hx]
    rfl
  | cons c rest ih =>
    intro b hb
    have hx := xtoi2_hex b (hb b (List.mem_cons_self _ _)) (c :: rest)
    have hc := ih c (fun x hx => hb x (List.mem_cons_of_mem _ hx))
    rw [List.length_cons, parsePairs, hx]
    simp only [hexTail, List.drop_succ_cons, List.drop_zero, Option.some_bind] at hc ⊢
    rw [hc]
    rfl

theorem ParseMAC_String (a : HardwareAddr)
    (hlen : a.length = 6 ∨ a.length = 8 ∨ a.length = 20) (hb : ∀ x ∈ a, x < 256) :
    ParseMAC (HardwareAddr.String a) = .ok a := by
  cases a with
  | nil => simp at hlen
  | cons b rest =>
    cases rest with
    | nil => simp at hlen
    | cons c rest =>
      have hp := parsePairs_hex (c :: rest) b hb
      have hl := length_hexTail rest
      simp only [List.length_cons] at hlen hp
      simp only [hexTail] at hp
      simp only [ParseMAC, HardwareAddr.String, hexTail, List.length_cons, hl]
      have h14 : ¬ (3 * rest.length + 1 + 1 + 1 + 1 + 1 < 14) := by omega
      have h3 : ¬ ((3 * rest.length + 1 + 1 + 1 + 1 + 1 + 1) % 3 ≠ 0) := by omega
      have hn : (3 * rest.length + 1 + 1 + 1 + 1 + 1 + 1) / 3 = rest.length + 1 + 1 := by omega
      have h6 : ¬ (rest.length + 1 + 1 ≠ 6 ∧ rest.length + 1 + 1 ≠ 8 ∧
          rest.length + 1 + 1 ≠ 20) := by omega
      have hg : (hexDigit (b / 16 % 16) :: hexDigit (b % 16) :: ':' ::
          hexDigit (c / 16 % 16) :: hexDigit (c % 16) :: hexTail rest).get? 2 = some ':' := rfl
      rw [if_neg h14, hg, if_pos (Or.inl rfl), if_neg h3, hn, if_neg h6]
      simp only [Option.getD_some, hp]

/-! ## Records: text and back -/

theorem encodeIP_To16 (ip : IP) (hip : textIP ip) :
    ∃ f, encodeIP ip = .ok f ∧ decodeIP (some f) = .ok (To16 ip) := by
  unfold textIP at hip
  rcases hip with h0 | h4 | h16
  · have hnil : ip = [] := List.length_eq_zero.mp h0
    subst hnil
    exact ⟨.str "", rfl, rfl⟩
  · refine ⟨.ip ([0, 0, 0, 0, 0, 0, 0, 0, 0, 0, 255, 255] ++ ip), ?_, ?_⟩
    · simp [encodeIP, h4]
    · simp [decodeIP, To16, h4]
  · refine ⟨.ip ip, ?_, ?_⟩
    · simp [encodeIP, h16]
    · simp [decodeIP, To16, h16]

theorem guestJSON_roundtrip (d : guestJSON) (hip : textIP d.IP) :
    ∃ v, d.Marshal = .ok v ∧ guestJSON.Unmarshal v = .ok { d with IP := To16 d.IP } := by
  obtain ⟨f, h1, h2⟩ := encodeIP_To16 d.IP hip
  refine ⟨.object [("id", .str d.ID), ("metadata", .map d.Metadata), ("type", .str d.Type_),
    ("flavor", .str d.FlavorID), ("hypervisor", .str d.HypervisorID),
    ("network", .str d.NetworkID), ("subnet", .str d.SubnetID),
    ("fwgroup", .str d.FWGroupID), ("mac", .str d.MAC), ("ip", f)], ?_, ?_⟩
  · simp only [guestJSON.Marshal, h1]
  · simp [guestJSON.Unmarshal, member, decodeString, decodeMap, h2]

theorem hypervisorJSON_roundtrip (d : hypervisorJSON) (hip : textIP d.IP)
    (hnm : textIP d.Netmask) (hgw : textIP d.Gateway) :
    ∃ v, d.Marshal = .ok v ∧
      hypervisorJSON.Unmarshal v =
        .ok { d with IP := To16 d.IP, Netmask := To16 d.Netmask, Gateway := To16 d.Gateway } := by
  obtain ⟨f1, h1, g1⟩ := encodeIP_To16 d.IP hip
  obtain ⟨f2, h2, g2⟩ := encodeIP_To16 d.Netmask hnm
  obtain ⟨f3, h3, g3⟩ := encodeIP_To16 d.Gateway hgw
  refine ⟨.object [("id", .str d.ID), ("metadata", .map d.Metadata), ("ip", f1),
    ("netmask", f2), ("gateway", f3), ("mac", .str d.MAC),
    ("total_resources", .res d.TotalResources),
    ("available_resources", .res d.AvailableResources)], ?_, ?_⟩
  · simp only [hypervisorJSON.Marshal, h1, h2, h3]
  · simp [hypervisorJSON.Unmarshal, member, decodeString, decodeMap, decodeResources, g1, g2, g3]

theorem Guest_roundtrip_parsed_MAC (g t : Guest) (hmac : parsedMAC g.MAC) (hip : textIP g.IP) :
    ∃ v, g.MarshalJSON = .ok v ∧ (t.UnmarshalJSON v).1 = none ∧
      (t.UnmarshalJSON v).2 =
        { g with modifiedIndex := t.modifiedIndex, IP := To16 g.IP, Bridge := t.Bridge } := by
  obtain ⟨v, h1, h2⟩ := guestJSON_roundtrip
    { ID := g.ID, Metadata := g.Metadata, Type_ := g.Type_, FlavorID := g.FlavorID,
      NetworkID := g.NetworkID, SubnetID := g.SubnetID, FWGroupID := g.FWGroupID,
      HypervisorID := g.HypervisorID, IP := g.IP, MAC := HardwareAddr.String g.MAC } hip
  have hp := ParseMAC_String g.MAC hmac.1 hmac.2
  refine ⟨v, h1, ?_, ?_⟩
  · simp only [Guest.UnmarshalJSON, h2, hp]
  · simp only [Guest.UnmarshalJSON, h2, hp]

theorem Guest_roundtrip_empty_MAC (g t : Guest) (v : Value) (hmac : g.MAC = [])
    (hm : g.MarshalJSON = .ok v) :
    (t.UnmarshalJSON v).1 = some .invalidMAC ∧ (t.UnmarshalJSON v).2.MAC = t.MAC := by
  unfold Guest.MarshalJSON guestJSON.Marshal at hm
  rw [hmac] at hm
  cases hip : encodeIP g.IP with
  | error err => simp [hip] at hm
  | ok f =>
    simp only [hip, Except.ok.injEq] at hm
    subst hm
    obtain ⟨ip', h1, _⟩ := encodeIP_decode g.IP f hip
    have hu : guestJSON.Unmarshal (.object [("id", .str g.ID), ("metadata", .map g.Metadata),
        ("type", .str g.Type_), ("flavor", .str g.FlavorID), ("hypervisor", .str g.HypervisorID),
        ("network", .str g.NetworkID), ("subnet", .str g.SubnetID),
        ("fwgroup", .str g.FWGroupID), ("mac", .str (HardwareAddr.String [])), ("ip", f)]) =
        .ok ⟨g.ID, g.Metadata, g.Type_, g.FlavorID, g.HypervisorID, g.NetworkID, g.SubnetID,
          g.FWGroupID, "", ip'⟩ := by
      simp [guestJSON.Unmarshal, member, decodeString, decodeMap, h1, HardwareAddr.String]
    have hp : ParseMAC "" = .error .invalidMAC := rfl
    constructor
    · simp only [Guest.UnmarshalJSON, hu, hp]
    · simp only [Guest.UnmarshalJSON, hu, hp]

theorem Hypervisor_roundtrip_parsed_MAC (h t : Hypervisor) (hmac : parsedMAC h.MAC)
    (hip : textIP h.IP) (hnm : textIP h.Netmask) (hgw : textIP h.Gateway) :
    ∃ v, h.MarshalJSON = .ok v ∧ (t.UnmarshalJSON v).1 = none ∧
      (t.UnmarshalJSON v).2 =
        { h with modifiedIndex := t.modifiedIndex, IP := To16 h.IP, Netmask := To16 h.Netmask,
                 Gateway := To16 h.Gateway, subnets := t.subnets, guests := t.guests,
                 alive := t.alive } := by
  obtain ⟨v, h1, h2⟩ := hypervisorJSON_roundtrip
    { ID := h.ID, Metadata := h.Metadata, IP := h.IP, Netmask := h.Netmask,
      Gateway := h.Gateway, MAC := HardwareAddr.String h.MAC,
      TotalResources := h.TotalResources, AvailableResources := h.AvailableResources }
    hip hnm hgw
  have hp := ParseMAC_String h.MAC hmac.1 hmac.2
  have hne : HardwareAddr.String h.MAC ≠ "" := by
    intro he
    rw [he] at hp
    cases hp
  refine ⟨v, h1, ?_, ?_⟩
  · simp only [Hypervisor.UnmarshalJSON, h2, hp, hne, ne_eq, not_false_eq_true, if_true]
  · simp only [Hypervisor.UnmarshalJSON, h2, hp, hne, ne_eq, not_false_eq_true, if_true]

theorem Hypervisor_roundtrip_empty_MAC (h t : Hypervisor) (hmac : h.MAC = [])
    (hip : textIP h.IP) (hnm : textIP h.Netmask) (hgw : textIP h.Gateway) :
    ∃ v, h.MarshalJSON = .ok v ∧ (t.UnmarshalJSON v).1 = none ∧
      (t.UnmarshalJSON v).2 =
        { h with modifiedIndex := t.modifiedIndex, IP := To16 h.IP, Netmask := To16 h.Netmask,
                 Gateway := To16 h.Gateway, MAC := t.MAC, subnets := t.subnets,
                 guests := t.guests, alive := t.alive } := by
  obtain ⟨v, h1, h2⟩ := hypervisorJSON_roundtrip
    { ID := h.ID, Metadata := h.Metadata, IP := h.IP, Netmask := h.Netmask,
      Gateway := h.Gateway, MAC := HardwareAddr.String h.MAC,
      TotalResources := h.TotalResources, AvailableResources := h.AvailableResources }
    hip hnm hgw
  have he : HardwareAddr.String h.MAC = "" := by rw [hmac]; rfl
  refine ⟨v, h1, ?_, ?_⟩
  · simp only [Hypervisor.UnmarshalJSON, h2, he, ne_eq, not_true_eq_false, if_false]
  · simp only [Hypervisor.UnmarshalJSON, h2, he, ne_eq, not_true_eq_false, if_false]

/-! ## Get by ID -/

theorem Context_Guest_error (e : Etcd) (id : String) (err : Error)
    (h : (Guest.Refresh e { Context.NewGuest "" with ID := id }).err = some err) :
    (Context.Guest e id).1 = .error err := by
  unfold Context.Guest
  rcases hr : Guest.Refresh e { Context.NewGuest "" with ID := id } with ⟨_ | err', t, e1⟩
  · rw [hr] at h
    cases h
  · rw [hr] at h
    cases h
    rfl

theorem Context_Guest_handle (e : Etcd) (id : String)
    (h : (Guest.Refresh e { Context.NewGuest "" with ID := id }).err = none) :
    (Context.Guest e id).1 =
      .ok (Guest.Refresh e { Context.NewGuest "" with ID := id }).self := by
  unfold Context.Guest
  rcases hr : Guest.Refresh e { Context.NewGuest "" with ID := id } with ⟨_ | err', t, e1⟩
  · rfl
  · rw [hr] at h
    cases h

theorem Context_Guest_cases (e : Etcd) (id : String) :
    ((Guest.Refresh e { Context.NewGuest "" with ID := id }).err = none ∧
      (Context.Guest e id).1 =
        .ok (Guest.Refresh e { Context.NewGuest "" with ID := id }).self) ∨
    ∃ err, (Guest.Refresh e { Context.NewGuest "" with ID := id }).err = some err ∧
      (Context.Guest e id).1 = .error err := by
  cases h : (Guest.Refresh e { Context.NewGuest "" with ID := id }).err with
  | none => exact Or.inl ⟨rfl, Context_Guest_handle e id h⟩
  | some err => exact Or.inr ⟨err, rfl, Context_Guest_error e id err h⟩

theorem Context_Network_error (e : Etcd) (id : String) (err : Error)
    (h : (Network.Refresh e { modifiedIndex := 0, ID := id, Metadata := [] }).err = some err) :
    (Context.Network e id).1 = .error err := by
  unfold Context.Network
  rcases hr : Network.Refresh e { modifiedIndex := 0, ID := id, Metadata := [] }
    with ⟨_ | err', t, e1⟩
  · rw [hr] at h
    cases h
  · rw [hr] at h
    cases h
    rfl

theorem Context_Network_handle (e : Etcd) (id : String)
    (h : (Network.Refresh e { modifiedIndex := 0, ID := id, Metadata := [] }).err = none) :
    (Context.Network e id).1 =
      .ok (Network.Refresh e { modifiedIndex := 0, ID := id, Metadata := [] }).self := by
  unfold Context.Network
  rcases hr : Network.Refresh e { modifiedIndex := 0, ID := id, Metadata := [] }
    with ⟨_ | err', t, e1⟩
  · rfl
  · rw [hr] at h
    cases h

theorem Context_Network_cases (e : Etcd) (id : String) :
    ((Network.Refresh e { modifiedIndex := 0, ID := id, Metadata := [] }).err = none ∧
      (Context.Network e id).1 =
        .ok (Network.Refresh e { modifiedIndex := 0, ID := id, Metadata := [] }).self) ∨
    ∃ err, (Network.Refresh e { modifiedIndex := 0, ID := id, Metadata := [] }).err = some err ∧
      (Context.Network e id).1 = .error err := by
  cases h : (Network.Refresh e { modifiedIndex := 0, ID := id, Metadata := [] }).err with
  | none => exact Or.inl ⟨rfl, Context_Network_handle e id h⟩
  | some err => exact Or.inr ⟨err, rfl, Context_Network_error e id err h⟩

theorem Context_Hypervisor_error (e : Etcd) (id fresh : String) (err : Error)
    (h : (Hypervisor.Refresh e (Context.blankHypervisor id fresh)).err = some err) :
    (Context.Hypervisor e id fresh).1 = .error err := by
  unfold Context.Hypervisor
  rcases hr : Hypervisor.Refresh e (Context.blankHypervisor id fresh) with ⟨_ | err', t, e1⟩
  · rw [hr] at h
    cases h
  · rw [hr] at h
    cases h
    rfl

theorem Context_Hypervisor_handle (e : Etcd) (id fresh : String)
    (h : (Hypervisor.Refresh e (Context.blankHypervisor id fresh)).err = none) :
    (Context.Hypervisor e id fresh).1 =
      .ok (Hypervisor.Refresh e (Context.blankHypervisor id fresh)).self := by
  unfold Context.Hypervisor
  rcases hr : Hypervisor.Refresh e (Context.blankHypervisor id fresh) with ⟨_ | err', t, e1⟩
  · rfl
  · rw [hr] at h
    cases h

theorem Context_Hypervisor_cases (e : Etcd) (id fresh : String) :
    ((Hypervisor.Refresh e (Context.blankHypervisor id fresh)).err = none ∧
      (Context.Hypervisor e id fresh).1 =
        .ok (Hypervisor.Refresh e (Context.blankHypervisor id fresh)).self) ∨
    ∃ err, (Hypervisor.Refresh e (Context.blankHypervisor id fresh)).err = some err ∧
      (Context.Hypervisor e id fresh).1 = .error err := by
  cases h : (Hypervisor.Refresh e (Context.blankHypervisor id fresh)).err with
  | none => exact Or.inl ⟨rfl, Context_Hypervisor_handle e id fresh h⟩
  | some err => exact Or.inr ⟨err, rfl, Context_Hypervisor_error e id fresh err h⟩

theorem Guest_Refresh_ok_fault (e : Etcd) (t : Guest) (hok : (Guest.Refresh e t).err = none) :
    e.fault = none := by
  rcases e.fault_cases with hf | ⟨err, hf⟩
  · exact hf
  · rw [Guest_Refresh_fault e t err hf] at hok
    cases hok

theorem Network_Refresh_ok_fault (e : Etcd) (t : Network)
    (hok : (Network.Refresh e t).err = none) : e.fault = none := by
  rcases e.fault_cases with hf | ⟨err, hf⟩
  · exact hf
  · rw [Network_Refresh_fault e t err hf] at hok
    cases hok

theorem Hypervisor_Refresh_ok_fault (e : Etcd) (h : Hypervisor)
    (hok : (Hypervisor.Refresh e h).err = none) : e.fault = none := by
  rcases e.fault_cases with hf | ⟨err, hf⟩
  · exact hf
  · rw [Hypervisor_Refresh_fault e h err hf] at hok
    cases hok

theorem Guest.UnmarshalJSON_ok (t : Guest) (v : Value) (hok : (t.UnmarshalJSON v).1 = none) :
    ∃ d, guestJSON.Unmarshal v = .ok d ∧ (t.UnmarshalJSON v).2.ID = d.ID := by
  cases hu : guestJSON.Unmarshal v with
  | error err =>
    simp only [Guest.UnmarshalJSON, hu] at hok
    cases hok
  | ok d => exact ⟨d, rfl, (Guest.UnmarshalJSON_decoded t v d hu).1⟩

theorem Network.Unmarshal_Marshal (a t : Network) (v : Value) (hm : a.Marshal = .ok v) :
    t.Unmarshal v =
      (none, { a with
        modifiedIndex := t.modifiedIndex, Metadata := mapMerge t.Metadata a.Metadata }) := by
  unfold Network.Marshal at hm
  cases hm
  simp [Network.Unmarshal, member]

theorem Network.Unmarshal_ok (t : Network) (v : Value) (hok : (t.Unmarshal v).1 = none) :
    ∃ m, v = .object m ∧
      (t.Unmarshal v).2.ID = (match member "id" m with | some (.str s) => s | _ => t.ID) := by
  cases v with
  | text s => simp [Network.Unmarshal] at hok
  | object m =>
    refine ⟨m, rfl, ?_⟩
    simp only [Network.Unmarshal]
    rcases member "id" m with _ | (s | md | ip | r) <;>
      rcases member "metadata" m with _ | (s' | md' | ip' | r') <;> rfl

theorem Hypervisor.refreshNodes_ok (nodes : List DirNode)
    (hall : ∀ d ∈ nodes, filepathBase d.Key = "metadata" →
      ∀ t : Hypervisor, (t.UnmarshalJSON d.Value).1 = none) :
    ∀ h : Hypervisor, (Hypervisor.refreshNodes h nodes).1 = none := by
  induction nodes with
  | nil => intro h; rfl
  | cons d rest ih =>
    intro h
    have hd : (Hypervisor.refreshNode h d).1 = none := by
      by_cases hb : filepathBase d.Key = "metadata"
      · have hu := hall d (List.mem_cons_self _ _) hb h
        unfold Hypervisor.refreshNode
        simp only [hb, if_true]
        rcases hr : h.UnmarshalJSON d.Value with ⟨_ | err, h1⟩
        · rfl
        · rw [hr] at hu
          cases hu
      · exact (Hypervisor.refreshNode_other h d hb).1
    rw [Hypervisor.refreshNodes_cons_ok h d rest hd]
    exact ih (fun d' hd' => hall d' (List.mem_cons_of_mem _ hd')) _

theorem Hypervisor_Refresh_decodable (e : Etcd) (h : Hypervisor) (n : Node)
    (hf : e.fault = none) (hk : e.find h.key = some n)
    (hdec : ∀ t : Hypervisor, (t.UnmarshalJSON n.Value).1 = none) :
    (Hypervisor.Refresh e h).err = none := by
  rw [Hypervisor.key_eq] at hk
  unfold Hypervisor.Refresh
  generalize HypervisorPath ++ filepathJoin [h.ID] = dir at hk ⊢
  rw [e.GetDir_found dir false "metadata" n hf hk]
  simp only
  apply Hypervisor.refreshNodes_ok
  intro d hd hb t
  obtain ⟨c, _, rfl⟩ := List.mem_map.mp hd
  rw [Etcd.dirNode_base] at hb
  subst hb
  rw [(e.dirNode_found dir false "metadata" n hk).1]
  exact hdec t

/-- Get by ID when nothing is stored: no record at the key of a Guest or a Network,
nothing at or under the ID of a Hypervisor (the fresh uuid when `id` is empty). The
call returns an error and no handle; error 100 when the request gets through. -/
theorem get_by_id_missing (e : Etcd) (id fresh : String) :
    (e.find (GuestPath ++ filepathJoin [id, "metadata"]) = none →
      ∃ err, (Context.Guest e id).1 = .error err ∧ (e.fault = none → err = .keyNotFound)) ∧
    (e.find (NetworkPath ++ filepathJoin [id, "metadata"]) = none →
      ∃ err, (Context.Network e id).1 = .error err ∧ (e.fault = none → err = .keyNotFound)) ∧
    (e.find (HypervisorPath ++ filepathJoin [(Context.blankHypervisor id fresh).ID]) = none ∧
        e.names (HypervisorPath ++ filepathJoin [(Context.blankHypervisor id fresh).ID]) = [] →
      ∃ err, (Context.Hypervisor e id fresh).1 = .error err ∧
        (e.fault = none → err = .keyNotFound)) := by
  refine ⟨fun hk => ?_, fun hk => ?_, fun hk => ?_⟩
  · rcases e.fault_cases with hf | ⟨err, hf⟩
    · have h := Guest_Refresh_absent e { Context.NewGuest "" with ID := id } hf hk
      exact ⟨.keyNotFound, Context_Guest_error e id _ (by rw [h]), fun _ => rfl⟩
    · have h := Guest_Refresh_fault e { Context.NewGuest "" with ID := id } err hf
      exact ⟨err, Context_Guest_error e id _ (by rw [h]),
        fun h0 => absurd (hf.symm.trans h0) (by simp)⟩
  · rcases e.fault_cases with hf | ⟨err, hf⟩
    · have h := Network_Refresh_absent e { modifiedIndex := 0, ID := id, Metadata := [] } hf hk
      exact ⟨.keyNotFound, Context_Network_error e id _ (by rw [h]), fun _ => rfl⟩
    · have h := Network_Refresh_fault e { modifiedIndex := 0, ID := id, Metadata := [] } err hf
      exact ⟨err, Context_Network_error e id _ (by rw [h]),
        fun h0 => absurd (hf.symm.trans h0) (by simp)⟩
  · rcases e.fault_cases with hf | ⟨err, hf⟩
    · have h := Hypervisor_Refresh_absent e (Context.blankHypervisor id fresh) hf hk.1 hk.2
      exact ⟨.keyNotFound, Context_Hypervisor_error e id fresh _ (by rw [h]), fun _ => rfl⟩
    · have h := Hypervisor_Refresh_fault e (Context.blankHypervisor id fresh) err hf
      exact ⟨err, Context_Hypervisor_error e id fresh _ (by rw [h]),
        fun h0 => absurd (hf.symm.trans h0) (by simp)⟩

/-- Get by ID when a record is stored and a handle is returned: the handle holds the
version of the stored record, and the ID that the record carries. -/
theorem get_by_id_stored_version (e : Etcd) (id fresh : String) (n : Node) :
    (∀ t, e.find (GuestPath ++ filepathJoin [id, "metadata"]) = some n →
      (Context.Guest e id).1 = .ok t →
      t.modifiedIndex = n.ModifiedIndex ∧
        ∃ d, guestJSON.Unmarshal n.Value = .ok d ∧ t.ID = d.ID) ∧
    (∀ t, e.find (NetworkPath ++ filepathJoin [id, "metadata"]) = some n →
      (Context.Network e id).1 = .ok t →
      t.modifiedIndex = n.ModifiedIndex ∧
        ∃ m, n.Value = .object m ∧
          t.ID = (match member "id" m with | some (.str s) => s | _ => id)) ∧
    (∀ t, e.find (Context.blankHypervisor id fresh).key = some n →
      (Context.Hypervisor e id fresh).1 = .ok t →
      t.modifiedIndex = n.ModifiedIndex ∧
        ∃ d, hypervisorJSON.Unmarshal n.Value = .ok d ∧ t.ID = d.ID) := by
  refine ⟨fun t hk hok => ?_, fun t hk hok => ?_, fun t hk hok => ?_⟩
  · rcases Context_Guest_cases e id with ⟨hr, hc⟩ | ⟨err, _, hc⟩
    · rw [hc] at hok
      cases hok
      have hf := Guest_Refresh_ok_fault e _ hr
      refine ⟨Guest_Refresh_ok_version e _ n hk hr, ?_⟩
      rw [Guest_Refresh_found e { Context.NewGuest "" with ID := id } n hf hk] at hr ⊢
      exact Guest.UnmarshalJSON_ok _ _ hr
    · rw [hc] at hok
      cases hok
  · rcases Context_Network_cases e id with ⟨hr, hc⟩ | ⟨err, _, hc⟩
    · rw [hc] at hok
      cases hok
      have hf := Network_Refresh_ok_fault e _ hr
      refine ⟨Network_Refresh_ok_version e _ n hk hr, ?_⟩
      rw [Network_Refresh_found e { modifiedIndex := 0, ID := id, Metadata := [] } n hf hk]
        at hr ⊢
      exact Network.Unmarshal_ok _ _ hr
    · rw [hc] at hok
      cases hok
  · rcases Context_Hypervisor_cases e id fresh with ⟨hr, hc⟩ | ⟨err, _, hc⟩
    · rw [hc] at hok
      cases hok
      have hf := Hypervisor_Refresh_ok_fault e _ hr
      obtain ⟨_, d, hd, hv, hid, _⟩ := Hypervisor_Refresh_found e _ n hf hk hr
      exact ⟨hv, d, hd, hid⟩
    · rw [hc] at hok
      cases hok

/-- Get by ID of a record as Save writes it, when the request gets through: the record
of a Network, of a Hypervisor whose MAC is empty or a parsed address, and of a Guest
whose MAC is a parsed address, comes back as a handle with the ID and the version of
the record. -/
theorem get_by_id_stored_handle (e : Etcd) (id fresh : String) (n : Node)
    (hf : e.fault = none) :
    (∀ a : Guest, e.find (GuestPath ++ filepathJoin [id, "metadata"]) = some n →
      a.MarshalJSON = .ok n.Value → parsedMAC a.MAC → textIP a.IP →
      (Context.Guest e id).1 =
        .ok { a with modifiedIndex := n.ModifiedIndex, IP := To16 a.IP, Bridge := .text "" }) ∧
    (∀ a : Network, e.find (NetworkPath ++ filepathJoin [id, "metadata"]) = some n →
      a.Marshal = .ok n.Value →
      (Context.Network e id).1 = .ok { a with modifiedIndex := n.ModifiedIndex }) ∧
    (∀ a : Hypervisor, e.find (Context.blankHypervisor id fresh).key = some n →
      a.MarshalJSON = .ok n.Value → a.MAC = [] ∨ parsedMAC a.MAC →
      textIP a.IP → textIP a.Netmask → textIP a.Gateway →
      ∃ t, (Context.Hypervisor e id fresh).1 = .ok t ∧
        t.modifiedIndex = n.ModifiedIndex ∧ t.ID = a.ID) := by
  refine ⟨fun a hk hm hmac hip => ?_, fun a hk hm => ?_, fun a hk hm hmac hip hnm hgw => ?_⟩
  · obtain ⟨v, h1, h2, h3⟩ := Guest_roundtrip_parsed_MAC a
      { Context.NewGuest "" with ID := id, modifiedIndex := n.ModifiedIndex } hmac hip
    rw [hm] at h1
    cases h1
    have hr := Guest_Refresh_found e { Context.NewGuest "" with ID := id } n hf hk
    rw [Context_Guest_handle e id (by rw [hr]; exact h2), hr]
    exact congrArg Except.ok h3
  · have h1 := Network.Unmarshal_Marshal a
      { modifiedIndex := n.ModifiedIndex, ID := id, Metadata := [] } n.Value hm
    have hr := Network_Refresh_found e { modifiedIndex := 0, ID := id, Metadata := [] } n hf hk
    rw [Context_Network_handle e id (by rw [hr]; simp only; rw [h1]), hr]
    simp only
    rw [h1]
    rfl
  · have hdec : ∀ t : Hypervisor, (t.UnmarshalJSON n.Value).1 = none := by
      intro t
      rcases hmac with hmac | hmac
      · obtain ⟨v, h1, h2, _⟩ := Hypervisor_roundtrip_empty_MAC a t hmac hip hnm hgw
        rw [hm] at h1
        cases h1
        exact h2
      · obtain ⟨v, h1, h2, _⟩ := Hypervisor_roundtrip_parsed_MAC a t hmac hip hnm hgw
        rw [hm] at h1
        cases h1
        exact h2
    have hr := Hypervisor_Refresh_decodable e (Context.blankHypervisor id fresh) n hf hk hdec
    obtain ⟨_, d, hd, hv, hid, _⟩ := Hypervisor_Refresh_found e _ n hf hk hr
    obtain ⟨v, h1, h2⟩ := hypervisorJSON_roundtrip
      { ID := a.ID, Metadata := a.Metadata, IP := a.IP, Netmask := a.Netmask,
        Gateway := a.Gateway, MAC := HardwareAddr.String a.MAC,
        TotalResources := a.TotalResources, AvailableResources := a.AvailableResources }
      hip hnm hgw
    have h1' : a.MarshalJSON = .ok v := h1
    rw [hm] at h1'
    cases h1'
    rw [h2] at hd
    cases hd
    exact ⟨_, Context_Hypervisor_handle e id fresh hr, hv, hid⟩

/-- Get by ID of the record of a Guest whose MAC is empty, as Save writes it: the call
returns the error of net.ParseMAC and no handle. -/
theorem get_by_id_guest_without_MAC (e : Etcd) (id : String) (n : Node) (a : Guest)
    (hf : e.fault = none) (hk : e.find (GuestPath ++ filepathJoin [id, "metadata"]) = some n)
    (hm : a.MarshalJSON = .ok n.Value) (hmac : a.MAC = []) :
    (Context.Guest e id).1 = .error .invalidMAC := by
  have hr := Guest_Refresh_found e { Context.NewGuest "" with ID := id } n hf hk
  apply Context_Guest_error
  rw [hr]
  exact (Guest_roundtrip_empty_MAC a _ n.Value hmac hm).1

/-! ## Get by ID and the stored form of a Guest -/

/-- C11, at the Guest that NewGuest makes. Save stores its record under its ID with
version 1, and Context.Guest on that ID returns the error of net.ParseMAC and no handle:
Guest.UnmarshalJSON parses the empty "mac" member without the guard that
Hypervisor.UnmarshalJSON has. The same happens for every stored Guest record whose MAC
is empty, while a Hypervisor saved with an empty MAC is returned with its ID and
version. A Hypervisor ID that has a child key and no record is given a handle without
a version, since Refresh reads the directory and does not ask for the record. -/
theorem get_guest_by_id_fails_on_saved_guest :
    (Guest.Save emptyStore (Context.NewGuest "g1")).err = none ∧
    (storeG1.find (GuestPath ++ filepathJoin ["g1", "metadata"])).map
      (fun n => n.ModifiedIndex) = some 1 ∧
    (Context.Guest storeG1 "g1").1 = .error .invalidMAC ∧
    (∀ (e : Etcd) (id : String) (n : Node) (a : Guest), e.fault = none →
      e.find (GuestPath ++ filepathJoin [id, "metadata"]) = some n →
      a.MarshalJSON = .ok n.Value → a.MAC = [] →
      (Context.Guest e id).1 = .error .invalidMAC) ∧
    ((Context.Hypervisor (Hypervisor.Save emptyStore hypervisorH1).etcd "h1" "").1.toOption.map
      (fun t => (t.ID, t.modifiedIndex))) = some ("h1", 1) ∧
    storeJoinedH9.find (Context.blankHypervisor "h9" "").key = none ∧
    ((Context.Hypervisor storeJoinedH9 "h9" "").1.toOption.map
      (fun t => (t.ID, t.modifiedIndex, t.Subnets))) = some ("h9", 0, [("s1", .text "br0")]) := by
  refine ⟨by decide, by decide, by decide, ?_, by decide, by decide, by decide⟩
  intro e id n a hf hk hm hmac
  exact get_by_id_guest_without_MAC e id n a hf hk hm hmac

/-- C16, at the Guest that NewGuest makes and for every Guest whose MAC is empty.
MarshalJSON writes the "mac" member as the empty string and UnmarshalJSON hands it to
net.ParseMAC, which refuses it: decoding returns that error, and a Refresh of the saved
Guest fails with it. For a Guest whose MAC is a parsed address the round trip restores
every field, the IP in its 16-byte form; for a Hypervisor it does so with a parsed MAC
and with an empty one, where Hypervisor.UnmarshalJSON skips net.ParseMAC. -/
theorem guest_roundtrip_fails_on_empty_MAC :
    (∃ v, (Context.NewGuest "g1").MarshalJSON = .ok v ∧
      (Guest.UnmarshalJSON (Context.NewGuest "") v).1 = some .invalidMAC) ∧
    (∀ (g t : Guest) (v : Value), g.MAC = [] → g.MarshalJSON = .ok v →
      (t.UnmarshalJSON v).1 = some .invalidMAC) ∧
    (Guest.Save emptyStore guestG1).err = none ∧
    (Guest.Refresh storeG1 savedG1).err = some .invalidMAC ∧
    (∀ g t : Guest, parsedMAC g.MAC → textIP g.IP →
      ∃ v, g.MarshalJSON = .ok v ∧ (t.UnmarshalJSON v).1 = none ∧
        (t.UnmarshalJSON v).2 =
          { g with modifiedIndex := t.modifiedIndex, IP := To16 g.IP, Bridge := t.Bridge }) ∧
    (∀ h t : Hypervisor, parsedMAC h.MAC → textIP h.IP → textIP h.Netmask → textIP h.Gateway →
      ∃ v, h.MarshalJSON = .ok v ∧ (t.UnmarshalJSON v).1 = none ∧
        (t.UnmarshalJSON v).2 =
          { h with modifiedIndex := t.modifiedIndex, IP := To16 h.IP, Netmask := To16 h.Netmask,
                   Gateway := To16 h.Gateway, subnets := t.subnets, guests := t.guests,
                   alive := t.alive }) ∧
    (∀ h t : Hypervisor, h.MAC = [] → textIP h.IP → textIP h.Netmask → textIP h.Gateway →
      ∃ v, h.MarshalJSON = .ok v ∧ (t.UnmarshalJSON v).1 = none ∧
        (t.UnmarshalJSON v).2 =
          { h with modifiedIndex := t.modifiedIndex, IP := To16 h.IP, Netmask := To16 h.Netmask,
                   Gateway := To16 h.Gateway, MAC := t.MAC, subnets := t.subnets,
                   guests := t.guests, alive := t.alive }) := by
  refine ⟨⟨_, rfl, by decide⟩, ?_, by decide, by decide, ?_, ?_, ?_⟩
  · intro g t v hmac hm
    exact (Guest_roundtrip_empty_MAC g t v hmac hm).1
  · intro g t hmac hip
    exact Guest_roundtrip_parsed_MAC g t hmac hip
  · intro h t hmac hip hnm hgw
    exact Hypervisor_roundtrip_parsed_MAC h t hmac hip hnm hgw
  · intro h t hmac hip hnm hgw
    exact Hypervisor_roundtrip_empty_MAC h t hmac hip hnm hgw

/-! ## The views of a Hypervisor -/

theorem Etcd.nodup_names (e : Etcd) (dir : Key) : (e.names dir).Nodup :=
  List.nodup_dedup _

theorem Etcd.names_under (e : Etcd) (dir : Key) (c x : String)
    (hx : x ∈ e.names (dir ++ [c])) : c ∈ e.names dir := by
  unfold Etcd.names at hx ⊢
  rw [List.mem_dedup, List.mem_filterMap] at hx ⊢
  obtain ⟨n, hn, hv⟩ := hx
  refine ⟨n, hn, ?_⟩
  by_cases hp : (dir ++ [c]).isPrefixOf n.Key = true
  · obtain ⟨t, ht⟩ := List.isPrefixOf_iff_prefix.mp hp
    have hp' : dir.isPrefixOf n.Key = true :=
      List.isPrefixOf_iff_prefix.mpr ⟨c :: t, by rw [← ht]; simp⟩
    rw [if_pos hp']
    rw [← ht, List.append_assoc, List.drop_left]
    rfl
  · rw [if_neg hp] at hv
    cases hv

theorem Etcd.names_under_nil (e : Etcd) (dir : Key) (c : String) (hc : c ∉ e.names dir) :
    e.names (dir ++ [c]) = [] := by
  cases hl : e.names (dir ++ [c]) with
  | nil => rfl
  | cons x rest =>
    exact absurd (e.names_under dir c x (by rw [hl]; exact List.mem_cons_self _ _)) hc

theorem Etcd.GetDir_cases (e : Etcd) (dir : Key) (sorted : Bool) :
    (∃ err, e.GetDir dir sorted = (.error err, e.sent)) ∨
      e.GetDir dir sorted = (.ok ((e.listing dir sorted).map (e.dirNode dir sorted)), e.sent) := by
  unfold Etcd.GetDir
  rcases e.fault_cases with hf | ⟨err, hf⟩
  · rw [hf]
    rcases e.find_cases dir with hk | ⟨n, hk⟩
    · rw [hk]
      cases hn : e.names dir with
      | nil => exact Or.inl ⟨_, rfl⟩
      | cons c cs => exact Or.inr rfl
    · rw [hk]
      exact Or.inr rfl
  · rw [hf]
    exact Or.inl ⟨_, rfl⟩

theorem Etcd.dirNode_children (e : Etcd) (dir : Key) (c : String) :
    (e.dirNode dir false c).Nodes.map (fun n => filepathBase n.Key) = e.names (dir ++ [c]) := by
  simp only [Etcd.dirNode, Etcd.listing, List.map_map]
  have hfun : ((fun n : Node => filepathBase n.Key) ∘ e.child (dir ++ [c])) = id := by
    funext x
    simp only [Function.comp, Etcd.child_Key, filepathBase_concat, id]
  simp [hfun]

theorem mapSet_new (m : List (String × Value)) (k : String) (v : Value)
    (hk : ∀ p ∈ m, p.1 ≠ k) : mapSet m k v = m ++ [(k, v)] := by
  unfold mapSet
  have hany : m.any (fun p => decide (p.1 = k)) = false := by
    simp only [List.any_eq_false, decide_eq_true_eq]
    exact hk
  simp [hany]

theorem mapSet_foldl_new (cs : List String) (val : String → Value) :
    cs.Nodup → ∀ m : List (String × Value), (∀ p ∈ m, p.1 ∉ cs) →
      cs.foldl (fun m c => mapSet m c (val c)) m = m ++ cs.map (fun c => (c, val c)) := by
  induction cs with
  | nil => intro _ m _; simp
  | cons c rest ih =>
    intro hnd m hm
    have hnd' := List.nodup_cons.mp hnd
    rw [List.foldl_cons, mapSet_new m c (val c)
      (fun p hp hpc => hm p hp (by rw [hpc]; exact List.mem_cons_self _ _))]
    rw [ih hnd'.2 (m ++ [(c, val c)])]
    · simp
    · intro p hp
      rcases List.mem_append.mp hp with hp | hp
      · exact fun h => hm p hp (List.mem_cons_of_mem _ h)
      · simp only [List.mem_singleton] at hp
        rw [hp]
        exact hnd'.1

theorem Hypervisor.UnmarshalJSON_views (h : Hypervisor) (v : Value) :
    (h.UnmarshalJSON v).2.guests = h.guests ∧ (h.UnmarshalJSON v).2.subnets = h.subnets ∧
      (h.UnmarshalJSON v).2.alive = h.alive := by
  unfold Hypervisor.UnmarshalJSON
  cases hypervisorJSON.Unmarshal v with
  | error err => exact ⟨rfl, rfl, rfl⟩
  | ok data =>
    simp only
    by_cases hm : data.MAC ≠ ""
    · rw [if_pos hm]
      cases ParseMAC data.MAC <;> exact ⟨rfl, rfl, rfl⟩
    · rw [if_neg hm]
      exact ⟨rfl, rfl, rfl⟩

theorem Hypervisor.refreshNode_views (h : Hypervisor) (d : DirNode) :
    (Hypervisor.refreshNode h d).2.guests =
        h.guests ++ (if filepathBase d.Key = "guests"
          then d.Nodes.map (fun c => filepathBase c.Key) else []) ∧
      (Hypervisor.refreshNode h d).2.subnets =
        (if filepathBase d.Key = "subnets"
          then d.Nodes.foldl (fun m c => mapSet m (filepathBase c.Key) c.Value) h.subnets
          else h.subnets) ∧
      (Hypervisor.refreshNode h d).2.alive =
        (h.alive || decide (filepathBase d.Key = "heartbeat")) := by
  unfold Hypervisor.refreshNode
  simp only
  by_cases h1 : filepathBase d.Key = "metadata"
  · have hv := Hypervisor.UnmarshalJSON_views h d.Value
    rw [h1]
    simp only [if_true]
    rcases hr : h.UnmarshalJSON d.Value with ⟨_ | err, h'⟩
    · rw [hr] at hv
      simp only at hv ⊢
      simp [hv.1, hv.2.1, hv.2.2]
    · rw [hr] at hv
      simp only at hv ⊢
      simp [hv.1, hv.2.1, hv.2.2]
  · rw [if_neg h1]
    by_cases h2 : filepathBase d.Key = "heartbeat"
    · rw [h2]
      simp
    · rw [if_neg h2]
      by_cases h3 : filepathBase d.Key = "subnets"
      · rw [h3]
        simp
      · rw [if_neg h3]
        by_cases h4 : filepathBase d.Key = "guests"
        · rw [h4]
          simp
        · rw [if_neg h4]
          simp [h2, h3, h4]

theorem Hypervisor.refreshNodes_views (D : String → DirNode)
    (hD : ∀ c, filepathBase (D c).Key = c) (cs : List String) :
    cs.Nodup → ∀ h : Hypervisor, (Hypervisor.refreshNodes h (cs.map D)).1 = none →
      (Hypervisor.refreshNodes h (cs.map D)).2.guests =
          h.guests ++ (if "guests" ∈ cs
            then (D "guests").Nodes.map (fun c => filepathBase c.Key) else []) ∧
        (Hypervisor.refreshNodes h (cs.map D)).2.subnets =
          (if "subnets" ∈ cs
            then (D "subnets").Nodes.foldl
              (fun m c => mapSet m (filepathBase c.Key) c.Value) h.subnets
            else h.subnets) ∧
        (Hypervisor.refreshNodes h (cs.map D)).2.alive =
          (h.alive || decide ("heartbeat" ∈ cs)) := by
  induction cs with
  | nil => intro _ h _; simp [Hypervisor.refreshNodes]
  | cons c rest ih =>
    intro hnd h hok
    have hnd' := List.nodup_cons.mp hnd
    rw [List.map_cons] at hok ⊢
    have hd : (Hypervisor.refreshNode h (D c)).1 = none := by
      by_contra hne
      exact Hypervisor.refreshNodes_cons_err h (D c) (rest.map D) hne hok
    rw [Hypervisor.refreshNodes_cons_ok h (D c) _ hd] at hok ⊢
    obtain ⟨g1, s1, a1⟩ := Hypervisor.refreshNode_views h (D c)
    obtain ⟨g2, s2, a2⟩ := ih hnd'.2 _ hok
    rw [hD] at g1 s1 a1
    rw [g2, s2, a2, g1, s1, a1]
    refine ⟨?_, ?_, ?_⟩
    · by_cases hc : c = "guests"
      · subst hc
        simp [hnd'.1]
      · have hc' : ¬ "guests" = c := fun h' => hc h'.symm
        simp [hc, hc']
    · by_cases hc : c = "subnets"
      · subst hc
        simp [hnd'.1]
      · have hc' : ¬ "subnets" = c := fun h' => hc h'.symm
        simp [hc, hc']
    · by_cases hc : c = "heartbeat"
      · subst hc
        simp
      · have hc' : ¬ "heartbeat" = c := fun h' => hc h'.symm
        simp [hc, hc']

theorem Etcd.dirNode_subnets_onto (e : Etcd) (dir : Key) (c : String)
    (m : List (String × Value)) :
    (e.dirNode dir false c).Nodes.foldl (fun m n => mapSet m (filepathBase n.Key) n.Value) m =
      (e.names (dir ++ [c])).foldl
        (fun m x => mapSet m x (e.child (dir ++ [c]) x).Value) m := by
  simp only [Etcd.dirNode, Etcd.listing, List.foldl_map, Etcd.child_Key, filepathBase_concat]
  rfl

/-- What a Refresh that returns no error does to the views of the handle: the names
stored under the guests key are appended to the guests the handle held, the entries
stored under the subnets key are assigned into the map the handle held, and the
liveness flag is raised when the heartbeat key is listed, never lowered. -/
theorem Hypervisor_Refresh_accumulates (e : Etcd) (h : Hypervisor)
    (hok : (Hypervisor.Refresh e h).err = none) :
    (Hypervisor.Refresh e h).self.Guests =
        h.Guests ++ e.names (HypervisorPath ++ filepathJoin [h.ID] ++ ["guests"]) ∧
      (Hypervisor.Refresh e h).self.Subnets =
        (e.names (HypervisorPath ++ filepathJoin [h.ID] ++ ["subnets"])).foldl
          (fun m x => mapSet m x
            (e.child (HypervisorPath ++ filepathJoin [h.ID] ++ ["subnets"]) x).Value)
          h.Subnets ∧
      (Hypervisor.Refresh e h).self.IsAlive =
        (h.IsAlive || decide ("heartbeat" ∈ e.names (HypervisorPath ++ filepathJoin [h.ID]))) := by
  unfold Hypervisor.Refresh at hok ⊢
  generalize HypervisorPath ++ filepathJoin [h.ID] = dir at hok ⊢
  rcases e.GetDir_cases dir false with ⟨err, hgd⟩ | hgd
  · rw [hgd] at hok
    cases hok
  · rw [hgd] at hok ⊢
    simp only at hok ⊢
    have hl : e.listing dir false = e.names dir := rfl
    rw [hl] at hok ⊢
    obtain ⟨g, s, a⟩ := Hypervisor.refreshNodes_views (e.dirNode dir false)
      (e.dirNode_base dir false) (e.names dir) (e.nodup_names dir) h hok
    simp only [Hypervisor.Guests, Hypervisor.Subnets, Hypervisor.IsAlive]
    rw [g, s, a]
    have hG : (if "guests" ∈ e.names dir
        then (e.dirNode dir false "guests").Nodes.map (fun c => filepathBase c.Key) else []) =
        e.names (dir ++ ["guests"]) := by
      by_cases hm : "guests" ∈ e.names dir
      · rw [if_pos hm, Etcd.dirNode_children]
      · rw [if_neg hm, e.names_under_nil dir "guests" hm]
    have hS : (if "subnets" ∈ e.names dir
        then (e.dirNode dir false "subnets").Nodes.foldl
          (fun m c => mapSet m (filepathBase c.Key) c.Value) h.subnets else h.subnets) =
        (e.names (dir ++ ["subnets"])).foldl
          (fun m x => mapSet m x (e.child (dir ++ ["subnets"]) x).Value) h.subnets := by
      by_cases hm : "subnets" ∈ e.names dir
      · rw [if_pos hm, Etcd.dirNode_subnets_onto]
      · rw [if_neg hm, e.names_under_nil dir "subnets" hm]
        rfl
    rw [hG, hS]
    exact ⟨rfl, rfl, rfl⟩

/-- The first Refresh of a handle that holds no view yet (as blankHypervisor makes it):
when it returns no error, Guests lists the names stored under the guests key, each once,
Subnets maps the names stored under the subnets key to the values stored there, and
IsAlive tells whether the heartbeat key is listed. -/
theorem Hypervisor_Refresh_views (e : Etcd) (h : Hypervisor)
    (hg : h.guests = []) (hs : h.subnets = []) (ha : h.alive = false)
    (hok : (Hypervisor.Refresh e h).err = none) :
    (Hypervisor.Refresh e h).self.Guests =
        e.names (HypervisorPath ++ filepathJoin [h.ID] ++ ["guests"]) ∧
      (Hypervisor.Refresh e h).self.Guests.Nodup ∧
      (Hypervisor.Refresh e h).self.Subnets =
        (e.names (HypervisorPath ++ filepathJoin [h.ID] ++ ["subnets"])).map
          (fun x => (x, (e.child (HypervisorPath ++ filepathJoin [h.ID] ++ ["subnets"]) x).Value)) ∧
      ((Hypervisor.Refresh e h).self.IsAlive = true ↔
        "heartbeat" ∈ e.names (HypervisorPath ++ filepathJoin [h.ID])) := by
  obtain ⟨g, s, a⟩ := Hypervisor_Refresh_accumulates e h hok
  simp only [Hypervisor.Guests, Hypervisor.Subnets, Hypervisor.IsAlive] at g s a ⊢
  rw [g, s, a, hg, hs, ha, List.nil_append]
  refine ⟨rfl, e.nodup_names _, ?_, by simp⟩
  have h := mapSet_foldl_new (e.names (HypervisorPath ++ filepathJoin [h.ID] ++ ["subnets"]))
    (fun x => (e.child (HypervisorPath ++ filepathJoin [h.ID] ++ ["subnets"]) x).Value)
    (e.nodup_names _) [] (by simp)
  simpa using h

/-- C12, at a handle that is refreshed again. The handle that Context.Hypervisor returns
for "h1" lists the guest "g1" once and is alive. A second Refresh against the same store
returns no error and leaves Guests with "g1" twice; a Refresh after the heartbeat key
has expired returns no error and leaves IsAlive true. In general a Refresh that returns
no error appends the stored guest names to the ones the handle held and never lowers
the liveness flag; on a handle that holds no view yet the three views are those of the
store. -/
theorem second_refresh_duplicates_guests :
    (Context.Hypervisor storeH1 "h1" "").1 = .ok refreshedH1 ∧
    refreshedH1.Guests = ["g1"] ∧ refreshedH1.IsAlive = true ∧
    storeH1.names (HypervisorPath ++ filepathJoin ["h1"] ++ ["guests"]) = ["g1"] ∧
    (Hypervisor.Refresh storeH1 refreshedH1).err = none ∧
    (Hypervisor.Refresh storeH1 refreshedH1).self.Guests = ["g1", "g1"] ∧
    storeH1Expired.find refreshedH1.heartbeatKey = none ∧
    "heartbeat" ∉ storeH1Expired.names (HypervisorPath ++ filepathJoin ["h1"]) ∧
    (Hypervisor.Refresh storeH1Expired refreshedH1).err = none ∧
    (Hypervisor.Refresh storeH1Expired refreshedH1).self.IsAlive = true ∧
    (∀ (e : Etcd) (h : Hypervisor), (Hypervisor.Refresh e h).err = none →
      (Hypervisor.Refresh e h).self.Guests =
          h.Guests ++ e.names (HypervisorPath ++ filepathJoin [h.ID] ++ ["guests"]) ∧
        (h.IsAlive = true → (Hypervisor.Refresh e h).self.IsAlive = true)) ∧
    (∀ (e : Etcd) (h : Hypervisor), h.guests = [] → h.subnets = [] → h.alive = false →
      (Hypervisor.Refresh e h).err = none →
      (Hypervisor.Refresh e h).self.Guests =
          e.names (HypervisorPath ++ filepathJoin [h.ID] ++ ["guests"]) ∧
        (Hypervisor.Refresh e h).self.Guests.Nodup ∧
        (Hypervisor.Refresh e h).self.Subnets =
          (e.names (HypervisorPath ++ filepathJoin [h.ID] ++ ["subnets"])).map
            (fun x =>
              (x, (e.child (HypervisorPath ++ filepathJoin [h.ID] ++ ["subnets"]) x).Value)) ∧
        ((Hypervisor.Refresh e h).self.IsAlive = true ↔
          "heartbeat" ∈ e.names (HypervisorPath ++ filepathJoin [h.ID]))) := by
  refine ⟨by decide, by decide, by decide, by decide, by decide, by decide, by decide,
    by decide, by decide, by decide, ?_, ?_⟩
  · intro e h hok
    obtain ⟨g, _, a⟩ := Hypervisor_Refresh_accumulates e h hok
    refine ⟨g, fun ha => ?_⟩
    rw [a, ha]
    rfl
  · intro e h hg hs ha hok
    exact Hypervisor_Refresh_views e h hg hs ha hok

/-! ## Heartbeat -/

theorem Hypervisor.Heartbeat_sent (e : Etcd) (host : Host) (h : Hypervisor) (d : Nat)
    (now : String) (hv : h.verifyOnHV host = none) (hf : e.fault = none) :
    h.Heartbeat e host d now =
      (none, (e.write h.heartbeatKey (.text now) (d / Second)).sent) := by
  simp only [Hypervisor.Heartbeat, hv, Etcd.Set, hf, errOf, wholeSeconds]

theorem Hypervisor.Heartbeat_fault (e : Etcd) (host : Host) (h : Hypervisor) (d : Nat)
    (now : String) (err : Error) (hv : h.verifyOnHV host = none) (hf : e.fault = some err) :
    h.Heartbeat e host d now = (some err, e.sent) := by
  simp only [Hypervisor.Heartbeat, hv, Etcd.Set, hf, errOf]

theorem Hypervisor.Heartbeat_elsewhere (e : Etcd) (host : Host) (h : Hypervisor) (d : Nat)
    (now : String)
    (hne : (if host.TEST_HOSTNAME = "" then host.Hostname else host.TEST_HOSTNAME) ≠ h.ID) :
    h.Heartbeat e host d now = (some (.msg "Hypervisor ID does not match hostname"), e) := by
  have hv : h.verifyOnHV host = some (.msg "Hypervisor ID does not match hostname") := by
    simp only [Hypervisor.verifyOnHV, hne, ne_eq, not_false_eq_true, if_true]
  simp only [Hypervisor.Heartbeat, hv]

/-- C15, for the flags of the daemon. The daemon passes the flag, documented as seconds,
through time.Duration(n), which is n nanoseconds, where its pause multiplies by
time.Second: with the default flags the heartbeat key is written with TTL 0, and so it
is for every flag value below 10^9; the TTL written is never the flag value.
Hypervisor.Heartbeat(d) itself writes the key with the whole seconds of d as TTL when
the host name is the ID of the Hypervisor, so a duration of n seconds gives TTL n, and
returns an error and writes nothing when the host name differs. -/
theorem daemon_heartbeat_has_no_expiry :
    main.Heartbeat emptyStore hostH1 hypervisorH1 Flags.default "t0" =
      (none, ⟨1, [⟨["lochness", "hypervisors", "h1", "heartbeat"], .text "t0", 1, 0⟩], []⟩) ∧
    Flags.default.ttl = 120 ∧ main.Sleep Flags.default = 60 * Second ∧
    (∀ (e : Etcd) (host : Host) (hv : Hypervisor) (flags : Flags) (now : String),
      hv.verifyOnHV host = none → e.fault = none → 1 ≤ flags.ttl →
      (main.Heartbeat e host hv flags now).1 = none ∧
        (main.Heartbeat e host hv flags now).2.find hv.heartbeatKey =
          some ⟨hv.heartbeatKey, .text now, e.index + 1, flags.ttl / Second⟩ ∧
        flags.ttl / Second ≠ flags.ttl ∧
        (flags.ttl < Second → flags.ttl / Second = 0)) ∧
    (∀ (e : Etcd) (host : Host) (h : Hypervisor) (d : Nat) (now : String),
      h.verifyOnHV host = none → e.fault = none →
      (h.Heartbeat e host d now).1 = none ∧
        (h.Heartbeat e host d now).2.find h.heartbeatKey =
          some ⟨h.heartbeatKey, .text now, e.index + 1, d / Second⟩) ∧
    (∀ (e : Etcd) (host : Host) (h : Hypervisor) (n : Nat) (now : String),
      h.verifyOnHV host = none → e.fault = none →
      (h.Heartbeat e host (n * Second) now).2.find h.heartbeatKey =
        some ⟨h.heartbeatKey, .text now, e.index + 1, n⟩) ∧
    (∀ (e : Etcd) (host : Host) (h : Hypervisor) (d : Nat) (now : String),
      (if host.TEST_HOSTNAME = "" then host.Hostname else host.TEST_HOSTNAME) ≠ h.ID →
      h.Heartbeat e host d now = (some (.msg "Hypervisor ID does not match hostname"), e)) := by
  refine ⟨by decide, rfl, rfl, ?_, ?_, ?_, ?_⟩
  · intro e host hv flags now hver hf hn
    unfold main.Heartbeat
    rw [Hypervisor.Heartbeat_sent e host hv flags.ttl now hver hf]
    refine ⟨rfl, ?_, ?_, ?_⟩
    · rw [Etcd.find_sent, Etcd.find_write_self]
    · have hs : Second = 1000000000 := rfl
      rw [hs]
      omega
    · intro hlt
      exact Nat.div_eq_of_lt hlt
  · intro e host h d now hver hf
    rw [Hypervisor.Heartbeat_sent e host h d now hver hf]
    exact ⟨rfl, by rw [Etcd.find_sent, Etcd.find_write_self]⟩
  · intro e host h n now hver hf
    rw [Hypervisor.Heartbeat_sent e host h (n * Second) now hver hf, Etcd.find_sent,
      Etcd.find_write_self]
    have hs : n * Second / Second = n := Nat.mul_div_cancel n (by decide)
    rw [hs]
  · intro e host h d now hne
    exact Hypervisor.Heartbeat_elsewhere e host h d now hne

/-! ## The lease lock -/

theorem Acquire_fault (e : Etcd) (name : Key) (v : String) (ttl : Nat) (err : Error)
    (hf : e.fault = some err) :
    ∃ err', Acquire e name v ttl = (.error err', e.sent) := by
  unfold Acquire Etcd.Create
  rw [hf]
  simp only
  cases err <;> exact ⟨_, rfl⟩

theorem Acquire_exists (e : Etcd) (name : Key) (v : String) (ttl : Nat) (n : Node)
    (hf : e.fault = none) (hk : e.find name = some n) :
    Acquire e name v ttl = (.error .AlreadyHeld, e.sent) := by
  simp only [Acquire, Etcd.Create, hf, hk]

theorem Acquire_free (e : Etcd) (name : Key) (v : String) (ttl : Nat)
    (hf : e.fault = none) (hk : e.find name = none) :
    Acquire e name v ttl =
      (.ok ⟨name, v, e.index + 1, true⟩, (e.write name (.text v) ttl).sent) := by
  simp only [Acquire, Etcd.Create, hf, hk, Etcd.written]

theorem Acquire_ok (e : Etcd) (name : Key) (v : String) (ttl : Nat) (l : Lock)
    (h : (Acquire e name v ttl).1 = .ok l) :
    e.fault = none ∧ e.find name = none ∧ l = ⟨name, v, e.index + 1, true⟩ ∧
      (Acquire e name v ttl).2 = (e.write name (.text v) ttl).sent := by
  rcases e.fault_cases with hf | ⟨err, hf⟩
  · rcases e.find_cases name with hk | ⟨n, hk⟩
    · rw [Acquire_free e name v ttl hf hk] at h ⊢
      cases h
      exact ⟨hf, hk, rfl, rfl⟩
    · rw [Acquire_exists e name v ttl n hf hk] at h
      cases h
  · obtain ⟨err', he⟩ := Acquire_fault e name v ttl err hf
    rw [he] at h
    cases h

/-- Acquire on a name whose key exists: an error, AlreadyHeld when the request gets
through, no Lock, and the stored leaves as they were. -/
theorem Acquire_held (e : Etcd) (name : Key) (v : String) (ttl : Nat) (n : Node)
    (hk : e.find name = some n) :
    (∃ err, (Acquire e name v ttl).1 = .error err ∧ (e.fault = none → err = .AlreadyHeld)) ∧
      (Acquire e name v ttl).2 = e.sent := by
  rcases e.fault_cases with hf | ⟨err, hf⟩
  · rw [Acquire_exists e name v ttl n hf hk]
    exact ⟨⟨_, rfl, fun _ => rfl⟩, rfl⟩
  · obtain ⟨err', he⟩ := Acquire_fault e name v ttl err hf
    rw [he]
    exact ⟨⟨_, rfl, fun h0 => absurd (hf.symm.trans h0) (by simp)⟩, rfl⟩

theorem acquireRun_held (name : Key) (n : Node) (calls : List (String × Nat)) :
    ∀ e : Etcd, e.find name = some n →
      (∀ r ∈ (acquireRun name e calls).1, errOf r ≠ none) ∧
        (acquireRun name e calls).2.find name = some n := by
  induction calls with
  | nil => intro e hk; exact ⟨by simp [acquireRun], hk⟩
  | cons c rest ih =>
    intro e hk
    obtain ⟨v, ttl⟩ := c
    obtain ⟨⟨err, he, _⟩, hs⟩ := Acquire_held e name v ttl n hk
    have hk' : (Acquire e name v ttl).2.find name = some n := by rw [hs]; exact hk
    obtain ⟨h1, h2⟩ := ih _ hk'
    simp only [acquireRun]
    refine ⟨?_, h2⟩
    intro r hr
    rcases List.mem_cons.mp hr with hr | hr
    · rw [hr, he]
      simp [errOf]
    · exact h1 r hr

theorem acquireRun_once (name : Key) (calls : List (String × Nat)) :
    ∀ e : Etcd, ((acquireRun name e calls).1.countP (fun r => errOf r = none)) ≤ 1 := by
  induction calls with
  | nil => intro e; simp [acquireRun]
  | cons c rest ih =>
    intro e
    obtain ⟨v, ttl⟩ := c
    simp only [acquireRun]
    cases ha : (Acquire e name v ttl).1 with
    | error err =>
      rw [List.countP_cons_of_neg]
      · exact ih _
      · simp [errOf]
    | ok l =>
      obtain ⟨hf, hk, _, hs⟩ := Acquire_ok e name v ttl l ha
      have hfind : (Acquire e name v ttl).2.find name = some ⟨name, .text v, e.index + 1, ttl⟩ := by
        rw [hs, Etcd.find_sent, Etcd.find_write_self]
      obtain ⟨hall, _⟩ := acquireRun_held name _ rest _ hfind
      rw [List.countP_cons_of_pos]
      · have hz : ((acquireRun name (Acquire e name v ttl).2 rest).1.countP
            (fun r => errOf r = none)) = 0 := by
          rw [List.countP_eq_zero]
          intro r hr
          simpa using hall r hr
        rw [hz]
      · simp [errOf]

/-- C13. A successful Acquire(name, v, ttl, wait=false) leaves v stored at the key name,
with the TTL and at the version the Lock captures. While that key exists, every Acquire
with wait=false on the name returns an error, AlreadyHeld when the request gets through,
and no Lock, and leaves the stored leaf as it was; so in a run of such calls that starts
after the first success none succeeds, and in any run at most one does. -/
theorem acquire_excludes_further_acquire (e : Etcd) (name : Key) (v : String) (ttl : Nat)
    (l : Lock) (hacq : (Acquire e name v ttl).1 = .ok l) :
    (Acquire e name v ttl).2.find name = some ⟨name, .text v, l.index, ttl⟩ ∧
    l.key = name ∧ l.value = v ∧ l.held = true ∧
    (∀ (e2 : Etcd) (n : Node) (v2 : String) (ttl2 : Nat), e2.find name = some n →
      (∃ err, (Acquire e2 name v2 ttl2).1 = .error err ∧
        (e2.fault = none → err = .AlreadyHeld)) ∧
      (Acquire e2 name v2 ttl2).2.find name = some n ∧
      (Acquire e2 name v2 ttl2).2.nodes = e2.nodes) ∧
    (∀ calls : List (String × Nat),
      (∀ r ∈ (acquireRun name (Acquire e name v ttl).2 calls).1, errOf r ≠ none) ∧
      (acquireRun name (Acquire e name v ttl).2 calls).2.find name =
        some ⟨name, .text v, l.index, ttl⟩) ∧
    (∀ (e0 : Etcd) (calls : List (String × Nat)),
      (acquireRun name e0 calls).1.countP (fun r => errOf r = none) ≤ 1) := by
  obtain ⟨hf, hk, hl, hs⟩ := Acquire_ok e name v ttl l hacq
  have hfind : (Acquire e name v ttl).2.find name = some ⟨name, .text v, l.index, ttl⟩ := by
    rw [hs, Etcd.find_sent, Etcd.find_write_self, hl]
  refine ⟨hfind, by rw [hl], by rw [hl], by rw [hl], ?_, ?_, ?_⟩
  · intro e2 n v2 ttl2 hk2
    obtain ⟨h1, h2⟩ := Acquire_held e2 name v2 ttl2 n hk2
    exact ⟨h1, by rw [h2]; exact hk2, by rw [h2]; rfl⟩
  · intro calls
    exact acquireRun_held name _ calls _ hfind
  · intro e0 calls
    exact acquireRun_once name calls e0

/-- C13 at a concrete input: the lock "some-dir/l1" acquired on the empty store. -/
theorem acquire_excludes_further_acquire_witness :
    (Acquire emptyStore lockL1 "v" 60).1 = .ok heldL1 ∧
    (Acquire emptyStore lockL1 "v" 60).2.find lockL1 = some ⟨lockL1, .text "v", 1, 60⟩ ∧
    (Acquire storeL1 lockL1 "w" 60).1 = .error .AlreadyHeld ∧
    (Acquire storeL1 lockL1 "w" 60).2.find lockL1 = some ⟨lockL1, .text "v", 1, 60⟩ :=
  have h := acquire_excludes_further_acquire emptyStore lockL1 "v" 60 heldL1 (by decide)
  ⟨by decide, h.1, by decide, (h.2.2.2.2.1 storeL1 _ "w" 60 h.1).2.1⟩

theorem Etcd.find_remove (e : Etcd) (k : Key) : (e.remove k).find k = none := by
  simp [Etcd.find, Etcd.remove]

theorem Etcd.find_expire (e : Etcd) (k : Key) (n : Node) (hk : e.find k = some n)
    (httl : n.TTL ≠ 0) : (e.expire k).find k = none := by
  simp only [Etcd.expire, hk, httl, ne_eq, not_false_eq_true, if_true]
  exact e.find_remove k

theorem Lock.Release_not_held (e : Etcd) (l : Lock) (hh : l.held = false) :
    Lock.Release e l = ⟨some .ErrLockNotHeld, l, e⟩ := by
  simp only [Lock.Release, hh, if_true]

theorem Lock.Release_deleted (e : Etcd) (l : Lock) (n : Node) (hh : l.held = true)
    (hf : e.fault = none) (hk : e.find l.key = some n) (hv : n.ModifiedIndex = l.index)
    (hi : l.index ≠ 0) :
    Lock.Release e l = ⟨none, { l with held := false }, (e.remove l.key).sent⟩ := by
  simp [Lock.Release, hh, Etcd.CompareAndDelete, hf, hk, hv, hi]

theorem Lock.Release_vanished (e : Etcd) (l : Lock) (hh : l.held = true)
    (hf : e.fault = none) (hk : e.find l.key = none) (hi : l.index ≠ 0) :
    Lock.Release e l = ⟨some .ErrKeyNotFound, { l with held := false }, e.sent⟩ := by
  simp [Lock.Release, hh, Etcd.CompareAndDelete, hf, hk, hi]

theorem Lock.Release_ok_held (e : Etcd) (l : Lock) (hok : (Lock.Release e l).err = none) :
    (Lock.Release e l).self.held = false := by
  unfold Lock.Release at hok ⊢
  by_cases hh : l.held = false
  · rw [if_pos hh] at hok
    cases hok
  · rw [if_neg hh] at hok ⊢
    rcases hr : e.CompareAndDelete l.key "" l.index with ⟨_ | _, e1⟩
    · rw [hr] at hok
      rename_i err
      cases err <;> simp at hok
    · rfl

theorem Lock.Release_lost_held (e : Etcd) (l : Lock) (hf : e.fault = none)
    (hr : (Lock.Release e l).err = some .ErrKeyNotFound) :
    (Lock.Release e l).self.held = false := by
  by_cases hh : l.held = false
  · rw [Lock.Release_not_held e l hh]
    exact hh
  · have hh' : l.held = true := by simpa using hh
    by_cases hi : l.index = 0
    · simp [Lock.Release, hh', Etcd.CompareAndDelete, hi] at hr
    · rcases e.find_cases l.key with hk | ⟨n, hk⟩
      · rw [Lock.Release_vanished e l hh' hf hk hi]
      · by_cases hv : n.ModifiedIndex = l.index
        · rw [Lock.Release_deleted e l n hh' hf hk hv hi]
        · simp [Lock.Release, hh', Etcd.CompareAndDelete, hf, hk, hv, hi] at hr

/-- C14. Release on a Lock that is not held, the zero-value Lock among them, returns
LockNotHeld without a request to the store. On a held Lock whose key exists at the
captured version it deletes the key and returns no error; on a held Lock whose key has
vanished, as it does when the lease runs out, it returns KeyNotFound and leaves the
store as it was. After either outcome the handle is not held, so every further Release
on it returns LockNotHeld, and two Releases on one handle never both succeed. The
requests are taken to reach the store. -/
theorem release_result_by_handle_state :
    (∀ e : Etcd, Lock.Release e Lock.zero = ⟨some .ErrLockNotHeld, Lock.zero, e⟩) ∧
    (∀ (e : Etcd) (l : Lock), l.held = false →
      Lock.Release e l = ⟨some .ErrLockNotHeld, l, e⟩) ∧
    (∀ (e : Etcd) (l : Lock) (n : Node), l.held = true → e.fault = none →
      e.find l.key = some n → n.ModifiedIndex = l.index → l.index ≠ 0 →
      (Lock.Release e l).err = none ∧ (Lock.Release e l).etcd.find l.key = none ∧
        (Lock.Release e l).self.held = false) ∧
    (∀ (e : Etcd) (l : Lock), l.held = true → e.fault = none →
      e.find l.key = none → l.index ≠ 0 →
      (Lock.Release e l).err = some .ErrKeyNotFound ∧
        (Lock.Release e l).etcd.nodes = e.nodes ∧ (Lock.Release e l).self.held = false) ∧
    (∀ (e : Etcd) (l : Lock) (n : Node), e.find l.key = some n → n.TTL ≠ 0 →
      (e.expire l.key).find l.key = none) ∧
    (∀ (e e2 : Etcd) (l : Lock), e.fault = none →
      (Lock.Release e l).err = none ∨ (Lock.Release e l).err = some .ErrKeyNotFound →
      Lock.Release e2 (Lock.Release e l).self =
        ⟨some .ErrLockNotHeld, (Lock.Release e l).self, e2⟩) ∧
    (∀ (e e2 : Etcd) (l : Lock),
      ¬ ((Lock.Release e l).err = none ∧
        (Lock.Release e2 (Lock.Release e l).self).err = none)) ∧
    (Acquire emptyStore lockL1 "v" 60).1 = .ok heldL1 ∧
    (Lock.Release storeL1 heldL1).err = none ∧
    (Lock.Release storeL1 heldL1).etcd.find lockL1 = none ∧
    (Lock.Release (Lock.Release storeL1 heldL1).etcd (Lock.Release storeL1 heldL1).self).err =
      some .ErrLockNotHeld ∧
    (Lock.Release (storeL1.expire lockL1) heldL1).err = some .ErrKeyNotFound ∧
    (Lock.Release (Lock.Release (storeL1.expire lockL1) heldL1).etcd
      (Lock.Release (storeL1.expire lockL1) heldL1).self).err = some .ErrLockNotHeld := by
  refine ⟨fun e => Lock.Release_not_held e _ rfl, fun e l hh => Lock.Release_not_held e l hh,
    ?_, ?_, fun e l n hk httl => e.find_expire l.key n hk httl, ?_, ?_,
    by decide, by decide, by decide, by decide, by decide, by decide⟩
  · intro e l n hh hf hk hv hi
    rw [Lock.Release_deleted e l n hh hf hk hv hi]
    exact ⟨rfl, by rw [Etcd.find_sent]; exact e.find_remove l.key, rfl⟩
  · intro e l hh hf hk hi
    rw [Lock.Release_vanished e l hh hf hk hi]
    exact ⟨rfl, rfl, rfl⟩
  · intro e e2 l hf hr
    apply Lock.Release_not_held
    rcases hr with hr | hr
    · exact Lock.Release_ok_held e l hr
    · exact Lock.Release_lost_held e l hf hr
  · intro e e2 l hboth
    have hh := Lock.Release_ok_held e l hboth.1
    rw [Lock.Release_not_held e2 _ hh] at hboth
    exact absurd hboth.2 (by simp)

/-! ## Optimistic save -/

theorem encodeIP_textIP (ip : IP) (f : JField) (h : encodeIP ip = .ok f) : textIP ip := by
  unfold encodeIP at h
  unfold textIP
  by_cases h0 : ip.length = 0
  · exact Or.inl h0
  · rw [if_neg h0] at h
    by_cases h4 : ip.length = 4
    · exact Or.inr (Or.inl h4)
    · rw [if_neg h4] at h
      by_cases h16 : ip.length = 16
      · exact Or.inr (Or.inr h16)
      · rw [if_neg h16] at h
        cases h

theorem Hypervisor.MarshalJSON_textIP (a : Hypervisor) (v : Value)
    (hm : a.MarshalJSON = .ok v) : textIP a.IP ∧ textIP a.Netmask ∧ textIP a.Gateway := by
  unfold Hypervisor.MarshalJSON hypervisorJSON.Marshal at hm
  simp only at hm
  cases hip : encodeIP a.IP with
  | error err => simp [hip] at hm
  | ok f1 =>
    cases hnm : encodeIP a.Netmask with
    | error err => simp [hip, hnm] at hm
    | ok f2 =>
      cases hgw : encodeIP a.Gateway with
      | error err => simp [hip, hnm, hgw] at hm
      | ok f3 =>
        exact ⟨encodeIP_textIP _ _ hip, encodeIP_textIP _ _ hnm, encodeIP_textIP _ _ hgw⟩

/-- Refresh of a Hypervisor whose stored record was written by the Save of a handle
with an empty MAC or a parsed one: it returns no error when its request gets
through. -/
theorem Hypervisor_Refresh_saved (e : Etcd) (a b : Hypervisor) (v : Value) (i : Nat)
    (hm : a.MarshalJSON = .ok v) (hf : e.fault = none)
    (hk : e.find b.key = some ⟨a.key, v, i, 0⟩) (hmac : a.MAC = [] ∨ parsedMAC a.MAC) :
    (Hypervisor.Refresh e b).err = none := by
  obtain ⟨hip, hnm, hgw⟩ := Hypervisor.MarshalJSON_textIP a v hm
  apply Hypervisor_Refresh_decodable e b _ hf hk
  intro t
  simp only
  rcases hmac with hmac | hmac
  · obtain ⟨v', h1, h2, _⟩ := Hypervisor_roundtrip_empty_MAC a t hmac hip hnm hgw
    rw [hm] at h1
    cases h1
    exact h2
  · obtain ⟨v', h1, h2, _⟩ := Hypervisor_roundtrip_parsed_MAC a t hmac hip hnm hgw
    rw [hm] at h1
    cases h1
    exact h2

/-- C1, as the code has it. Optimistic save, for Guest, Hypervisor and Network. A
Refresh that returns no error captures the version of the stored record. For two
handles of the same entity holding the version of the same stored record: once the
Save of the first succeeds, the next Save of the second returns an error (error 101,
the conflict, when it marshals and its request gets through), the record written by
the first stays in the store and the second handle, its captured version included, is
unchanged; and when the second is refreshed and saved again with nothing written in
between and the requests getting through, that Save succeeds, for a Hypervisor provided
that this Refresh returned no error. The Refresh of a Hypervisor returns no error when
the MAC that the first handle saved is empty or an address of 6, 8 or 20 bytes. -/
theorem optimistic_save_conflict_then_retry :
    (RefreshCaptures Guest.key Guest.modifiedIndex Guest.Refresh ∧
      RefreshCaptures Hypervisor.key Hypervisor.modifiedIndex Hypervisor.Refresh ∧
      RefreshCaptures Network.key Network.modifiedIndex Network.Refresh) ∧
    OptimisticSave Guest.key Guest.modifiedIndex Guest.MarshalJSON Guest.Save Guest.Refresh
      (fun _ => True) ∧
    OptimisticSave Hypervisor.key Hypervisor.modifiedIndex Hypervisor.MarshalJSON
      Hypervisor.Save Hypervisor.Refresh (fun r => r.err = none) ∧
    OptimisticSave Network.key Network.modifiedIndex Network.Marshal Network.Save
      Network.Refresh (fun _ => True) ∧
    (∀ (e : Etcd) (a b : Hypervisor) (v : Value) (i : Nat),
      a.MarshalJSON = .ok v → e.fault = none →
      e.find b.key = some ⟨a.key, v, i, 0⟩ → a.MAC = [] ∨ parsedMAC a.MAC →
      (Hypervisor.Refresh e b).err = none) :=
  ⟨⟨Guest_Refresh_ok_version, Hypervisor_Refresh_ok_version, Network_Refresh_ok_version⟩,
    commit_optimistic Guest.key Guest.modifiedIndex Guest.MarshalJSON
      (fun t i => { t with modifiedIndex := i }) Guest.Refresh (fun _ => True)
      Guest_Refresh_after_save,
    commit_optimistic Hypervisor.key Hypervisor.modifiedIndex Hypervisor.MarshalJSON
      (fun t i => { t with modifiedIndex := i }) Hypervisor.Refresh (fun r => r.err = none)
      Hypervisor_Refresh_after_save,
    commit_optimistic Network.key Network.modifiedIndex Network.Marshal
      (fun t i => { t with modifiedIndex := i }) Network.Refresh (fun _ => True)
      Network_Refresh_after_save,
    Hypervisor_Refresh_saved⟩

/-- C1 at a concrete input: two handles hold version 1 of the record of the Hypervisor
"h1"; the first adds a metadata entry and is saved, the Save of the second is refused
with error 101, and after its Refresh the second is saved without error. -/
theorem optimistic_save_conflict_then_retry_witness :
    (Hypervisor.Save (Hypervisor.Save storeSavedH1 taggedH1).etcd loadedH1).err =
      some Error.testFailed ∧
    (Hypervisor.Refresh
      (Hypervisor.Save (Hypervisor.Save storeSavedH1 taggedH1).etcd loadedH1).etcd
      loadedH1).err = none ∧
    (Hypervisor.Save
      (Hypervisor.Refresh
        (Hypervisor.Save (Hypervisor.Save storeSavedH1 taggedH1).etcd loadedH1).etcd
        loadedH1).etcd
      (Hypervisor.Refresh
        (Hypervisor.Save (Hypervisor.Save storeSavedH1 taggedH1).etcd loadedH1).etcd
        loadedH1).self).err = none :=
  have h := optimistic_save_conflict_then_retry.2.2.1 storeSavedH1 taggedH1 loadedH1
    ⟨["lochness", "hypervisors", "h1", "metadata"],
      (Hypervisor.MarshalJSON hypervisorH1).toOption.getD (.text ""), 1, 0⟩
    (by decide) (by decide) (by decide) (by decide) (by decide) (by decide)
  ⟨h.2.1 (by decide) ⟨_, rfl⟩, by decide,
    h.2.2.2.2.2 (by decide) (by decide) (by decide)⟩

/-- C1 as stated fails for a Hypervisor. Two handles hold version 1 of the record of
"h1". The first is given a MAC of seven bytes and saved, without error. The Save of the
second is refused with error 101. Its Refresh then returns the error of net.ParseMAC,
which does not read the stored MAC, and leaves the captured version at 1; the Save that
follows is refused with error 101 again. -/
theorem hypervisor_retry_conflicts_after_failed_refresh :
    storeSavedH1.WF ∧ oddH1.key = loadedH1.key ∧
    (storeSavedH1.find loadedH1.key).map (fun n => n.ModifiedIndex) = some 1 ∧
    oddH1.modifiedIndex = 1 ∧ loadedH1.modifiedIndex = 1 ∧
    (Hypervisor.Save storeSavedH1 oddH1).err = none ∧
    (Hypervisor.Save (Hypervisor.Save storeSavedH1 oddH1).etcd loadedH1).err =
      some Error.testFailed ∧
    (Hypervisor.Refresh
      (Hypervisor.Save (Hypervisor.Save storeSavedH1 oddH1).etcd loadedH1).etcd
      loadedH1).err = some Error.invalidMAC ∧
    (Hypervisor.Refresh
      (Hypervisor.Save (Hypervisor.Save storeSavedH1 oddH1).etcd loadedH1).etcd
      loadedH1).self.modifiedIndex = 1 ∧
    (Hypervisor.Save
      (Hypervisor.Refresh
        (Hypervisor.Save (Hypervisor.Save storeSavedH1 oddH1).etcd loadedH1).etcd
        loadedH1).etcd
      (Hypervisor.Refresh
        (Hypervisor.Save (Hypervisor.Save storeSavedH1 oddH1).etcd loadedH1).etcd
        loadedH1).self).err = some Error.testFailed ∧
    ¬ OptimisticSave Hypervisor.key Hypervisor.modifiedIndex Hypervisor.MarshalJSON
      Hypervisor.Save Hypervisor.Refresh (fun _ => True) := by
  refine ⟨by decide, by decide, by decide, by decide, by decide, by decide, by decide,
    by decide, by decide, by decide, ?_⟩
  intro hall
  have h := (hall storeSavedH1 oddH1 loadedH1
    ⟨["lochness", "hypervisors", "h1", "metadata"],
      (Hypervisor.MarshalJSON hypervisorH1).toOption.getD (.text ""), 1, 0⟩
    (by decide) (by decide) (by decide) (by decide) (by decide) (by decide)).2.2.2.2.2
    (by decide) trivial (by decide)
  revert h
  decide

end Lochness
